import Mathlib

/-!
# Constant propagation domain (`src/analyses/constant_propagator.cpp`)

A shallow embedding of the value lattice `constant_propagator_domaint::valuest`
(merge, meet, invalidation, constness classification), of the partial evaluator
and of `assign_rec` / `transform`, followed by theorems about them.

Conventions of the embedding:
* `irep_idt` is a string; `exprt` is the tree `id / type / named attributes / operands`.
* `replace_symbolt::expr_mapt` (a `std::unordered_map`) is a list of bindings with
  pairwise distinct keys; the list order is the iteration order of the container.
* Functions that can hit an `INVARIANT` / `DATA_INVARIANT` return `Except String _`,
  the error carrying the text of the violated invariant.
* `simplify` and `replace_symbolt::replace` are external; they are parameters
  (`externalst`).
-/

set_option linter.unusedVariables false

/-! ## Identifiers, types, expressions -/

/-- Interned identifier strings of the intermediate representation. -/
abbrev irep_idt := String

def ID_symbol : irep_idt := "symbol"
def ID_constant : irep_idt := "constant"
def ID_side_effect : irep_idt := "side_effect"
def ID_nondet : irep_idt := "nondet"
def ID_allocate : irep_idt := "allocate"
def ID_index : irep_idt := "index"
def ID_address_of : irep_idt := "address_of"
def ID_member : irep_idt := "member"
def ID_dereference : irep_idt := "dereference"
def ID_string_constant : irep_idt := "string_constant"
def ID_integer : irep_idt := "integer"
def ID_cprover_rounding_mode_str : irep_idt := "__CPROVER_rounding_mode"

/-- A type: its id and the `#constant` flag read by `get_bool(ID_C_constant)`. -/
structure typet where
  id : irep_idt
  C_constant : Bool
  deriving DecidableEq, Repr

/-- An expression tree: `id()`, `type()`, the named attributes `identifier`
(symbols), `statement` (side effects), `value` (constants), and `operands()`. -/
inductive exprt where
  | mk (id : irep_idt) (type : typet) (identifier : irep_idt) (statement : irep_idt)
      (value : irep_idt) (operands : List exprt)

namespace exprt

def id : exprt → irep_idt
  | .mk i _ _ _ _ _ => i

def type : exprt → typet
  | .mk _ t _ _ _ _ => t

def get_identifier : exprt → irep_idt
  | .mk _ _ n _ _ _ => n

def get_statement : exprt → irep_idt
  | .mk _ _ _ s _ _ => s

def get_value : exprt → irep_idt
  | .mk _ _ _ _ v _ => v

def operands : exprt → List exprt
  | .mk _ _ _ _ _ ops => ops

/-- Modelled from the spec: member `exprt::is_constant()` of `util/expr`, which is not among
the sources: the expression "is a literal", that is, a `constant` node. -/
def is_constant (e : exprt) : Bool := e.id == ID_constant

mutual
/-- Structural equality test on expressions (`operator==` of `irept`). -/
def decEq : (a b : exprt) → Decidable (a = b)
  | .mk i1 t1 n1 s1 v1 o1, .mk i2 t2 n2 s2 v2 o2 =>
    if h : i1 = i2 ∧ t1 = t2 ∧ n1 = n2 ∧ s1 = s2 ∧ v1 = v2 then
      match decEqList o1 o2 with
      | isTrue ho => isTrue (by rcases h with ⟨rfl, rfl, rfl, rfl, rfl⟩; rw [ho])
      | isFalse ho => isFalse (by intro e; injection e with _ _ _ _ _ e6; exact ho e6)
    else isFalse (by intro e; injection e with e1 e2 e3 e4 e5 _; exact h ⟨e1, e2, e3, e4, e5⟩)
/-- Structural equality test on operand lists. -/
def decEqList : (a b : List exprt) → Decidable (a = b)
  | [], [] => isTrue rfl
  | [], _ :: _ => isFalse (by simp)
  | _ :: _, [] => isFalse (by simp)
  | x :: xs, y :: ys =>
    match decEq x y with
    | isFalse h1 => isFalse (by intro e; injection e with e1 _; exact h1 e1)
    | isTrue h1 =>
      match decEqList xs ys with
      | isTrue h2 => isTrue (by rw [h1, h2])
      | isFalse h2 => isFalse (by intro e; injection e with _ e2; exact h2 e2)
end

instance : DecidableEq exprt := decEq

end exprt

/-- The default-constructed `exprt` (an empty irep), the initial value of `first_result`
in line 558. -/
def nil_exprt : exprt := .mk "" ⟨"", false⟩ "" "" "" []

/-- Constructor `symbol_exprt(identifier)` (no type given). -/
def symbol_exprt (identifier : irep_idt) : exprt :=
  .mk ID_symbol ⟨"", false⟩ identifier "" "" []

/-- Constructor `integer_typet()`. -/
def integer_typet : typet := ⟨ID_integer, false⟩

/-- Modelled from the spec: `from_integer(n, type)` of `util/arith_tools`, which is not
among the sources; it builds the literal of the given type whose value is `n`. -/
def from_integer (n : Nat) (t : typet) : exprt :=
  .mk ID_constant t "" "" (toString n) []

/-! ## Symbol table and analysis context -/

/-- Modelled from the spec: a symbol-table entry, "giving each variable's declared type,
locality, and immutability" (`symbolt` is declared outside the sources); immutability is
the `C_constant` flag of the type. -/
structure symbolt where
  type : typet
  is_procedure_local : Bool

/-- Modelled from the spec: the symbol table `namespacet`, which gives every variable its
entry (declared outside the sources). -/
structure namespacet where
  lookup : irep_idt → symbolt

/-- The dirty set `dirtyt`, used as the predicate `dirty(id)`. -/
abbrev dirtyt := irep_idt → Bool

/-- Modelled from the spec: `base_type_eq(t1, t2, ns)` of `util/base_type`, not among the
sources; the spec asks that the two types match exactly. -/
def base_type_eq (t1 t2 : typet) (ns : namespacet) : Bool := t1 == t2

/-! ## The binding map `replace_symbolt::expr_mapt` -/

/-- The map variable → constant expression: a list of bindings with distinct keys. -/
structure expr_mapt where
  entries : List (irep_idt × exprt)
  nodup : (entries.map Prod.fst).Nodup

namespace expr_mapt

instance : DecidableEq expr_mapt := fun a b =>
  if h : a.entries = b.entries then
    isTrue (by cases a; cases b; cases h; rfl)
  else isFalse (fun e => h (by rw [e]))

/-- The empty map (`clear()`). -/
def clear : expr_mapt := ⟨[], List.nodup_nil⟩

/-- Lookup `find(id)`: the bound expression, or `none` for `end()`. -/
def find (m : expr_mapt) (id : irep_idt) : Option exprt := m.entries.lookup id

/-- Member `empty()`. -/
def empty (m : expr_mapt) : Bool := m.entries.isEmpty

/-- The loop `for(it=begin(); it!=end();) if(c(*it)) it=erase(it); else it++;`:
the surviving bindings and whether some binding was erased. -/
def erase_if (m : expr_mapt) (c : irep_idt × exprt → Bool) : expr_mapt × Bool :=
  (⟨m.entries.filter (fun p => !c p),
    (List.filter_sublist m.entries).map Prod.fst |>.nodup m.nodup⟩,
   m.entries.any c)

/-- Member `erase(id)`: the map without `id` and the number of erased elements. -/
def erase (m : expr_mapt) (id : irep_idt) : expr_mapt × Nat :=
  (⟨m.entries.filter (fun p => !(p.1 == id)),
    (List.filter_sublist m.entries).map Prod.fst |>.nodup m.nodup⟩,
   (m.entries.filter (fun p => p.1 == id)).length)

/-- Assignment `m[id] = e`: insert, or overwrite the binding of `id`. -/
def set (m : expr_mapt) (id : irep_idt) (e : exprt) : expr_mapt :=
  ⟨(id, e) :: m.entries.filter (fun p => !(p.1 == id)), by
    rw [List.map_cons, List.nodup_cons]
    refine ⟨?_, (List.filter_sublist m.entries).map Prod.fst |>.nodup m.nodup⟩
    intro h
    rcases List.mem_map.1 h with ⟨p, hp, hpk⟩
    have := (List.mem_filter.1 hp).2
    simp [hpk] at this⟩

end expr_mapt

/-! ## The value lattice `valuest` -/

/-- The abstract state: the bindings `replace_const` and the flag `is_bottom`. -/
structure valuest where
  replace_const : expr_mapt
  is_bottom : Bool
  deriving DecidableEq

deriving instance DecidableEq for Except

namespace valuest

/-- Modelled from the spec: `set_to_bottom()` of the class declaration (not among the
sources): "forced-empty map, bottom=true". -/
def set_to_bottom (self : valuest) : valuest :=
  { replace_const := expr_mapt.clear, is_bottom := true }

/-- Modelled from the spec: `set_to_top()` of the class declaration (not among the
sources): "empty map, not bottom". -/
def set_to_top (self : valuest) : valuest :=
  { replace_const := expr_mapt.clear, is_bottom := false }

/-- Modelled from the spec: `set_to(id, value)` of the class declaration (not among the
sources): "unconditional insert/overwrite". -/
def set_to (self : valuest) (id : irep_idt) (value : exprt) : valuest :=
  { self with replace_const := self.replace_const.set id value }

/-- Modelled from the spec: `is_empty()` of the class declaration (not among the sources):
the map holds no binding. -/
def is_empty (self : valuest) : Bool := self.replace_const.empty

/-- Modelled from the spec: `replace_const.replaces_symbol(id)` (declared outside the
sources): the variable is bound in the state. -/
def replaces_symbol (self : valuest) (id : irep_idt) : Bool :=
  (self.replace_const.find id).isSome

mutual
/-- Method `valuest::is_constant(expr)`, lines 292-317. `none` stands for reading an operand
that the node does not have (`object()` of an address-of without operand). -/
def is_constant (self : valuest) : exprt → Option Bool
  | .mk id _ identifier statement _ ops =>
    if id = ID_side_effect ∧ statement = ID_nondet then some false
    else if id = ID_side_effect ∧ statement = ID_allocate then some false
    else if id = ID_symbol ∧ self.replaces_symbol identifier = false then some false
    else if id = ID_index then some false
    else if id = ID_address_of then
      match ops with
      | object :: _ => is_constant_address_of self object
      | [] => none
    else is_constant_operands self ops
/-- The loop `forall_operands(it, expr) if(!is_constant(*it)) return false;` of
`is_constant`, then `return true`. -/
def is_constant_operands (self : valuest) : List exprt → Option Bool
  | [] => some true
  | op :: rest =>
    match is_constant self op with
    | some true => is_constant_operands self rest
    | r => r
/-- Method `valuest::is_constant_address_of(expr)`, lines 319-336. -/
def is_constant_address_of (self : valuest) : exprt → Option Bool
  | .mk id _ _ _ _ ops =>
    if id = ID_index then
      match ops with
      | array :: index :: _ =>
        match is_constant_address_of self array with
        | some true => is_constant self index
        | r => r
      | _ => none
    else if id = ID_member then
      match ops with
      | struct_op :: _ => is_constant_address_of self struct_op
      | [] => none
    else if id = ID_dereference then
      match ops with
      | pointer :: _ => is_constant self pointer
      | [] => none
    else if id = ID_string_constant then some true
    else some true
end

/-- Method `valuest::set_to_top(id)`, lines 339-346: erase the binding of `id`; fails when
something was erased from a state flagged bottom. -/
def set_to_top_id (self : valuest) (id : irep_idt) : Except String (valuest × Bool) :=
  let r := self.replace_const.erase id
  let n_erased := r.2
  if n_erased = 0 ∨ self.is_bottom = false then
    .ok ({ self with replace_const := r.1 }, decide (n_erased > 0))
  else .error "bottom should have no elements at all"

/-- Method `valuest::set_dirty_to_top(dirty, ns)`, lines 349-369. -/
def set_dirty_to_top (self : valuest) (dirty : dirtyt) (ns : namespacet) : valuest :=
  { self with
    replace_const :=
      (self.replace_const.erase_if (fun p =>
        let symbol := ns.lookup p.1
        (!symbol.is_procedure_local || dirty p.1) && !symbol.type.C_constant)).1 }

/-- Method `valuest::merge(src)`, lines 408-475: the new state and the flag `changed`.
The `PRECONDITION` and `INVARIANT` of the method only restate the two tests before them. -/
def merge (self src : valuest) : valuest × Bool :=
  if src.is_bottom then (self, false)
  else if self.is_bottom then
    ({ replace_const := src.replace_const, is_bottom := false }, true)
  else if src.is_empty then
    (self.set_to_top, !self.is_empty)
  else
    let r := self.replace_const.erase_if (fun p =>
      match src.replace_const.find p.1 with
      | some src_expr => p.2 != src_expr
      | none => true)
    ({ self with replace_const := r.1 }, r.2)

/-- The loop of `valuest::meet` over the bindings `m` of `src`, visited in the order of
the list; `changed` is the flag accumulated so far. -/
def meet_loop (ns : namespacet) :
    List (irep_idt × exprt) → valuest → Bool → Except String (valuest × Bool)
  | [], self, changed => .ok (self, changed)
  | m :: rest, self, changed =>
    match self.replace_const.find m.1 with
    | some c =>
      if c != m.2 then .ok (self.set_to_bottom, true)
      else meet_loop ns rest self changed
    | none =>
      if base_type_eq (ns.lookup m.1).type m.2.type ns then
        meet_loop ns rest (self.set_to m.1 m.2) true
      else .error "type of constant to be stored should match"

/-- Method `valuest::meet(src, ns)`, lines 479-513, with the bindings of `src` visited in
the given `order`. -/
def meet_in_order (self : valuest) (src_is_bottom : Bool) (order : List (irep_idt × exprt))
    (ns : namespacet) : Except String (valuest × Bool) :=
  if src_is_bottom || self.is_bottom then .ok (self, false)
  else meet_loop ns order self false

/-- Method `valuest::meet(src, ns)`, lines 479-513. -/
def meet (self src : valuest) (ns : namespacet) : Except String (valuest × Bool) :=
  meet_in_order self src.is_bottom src.replace_const.entries ns

end valuest

namespace valuest

/-- The state invariant checked in `valuest::output` (line 380): "If the domain is bottom,
the map must be empty". -/
def invariant (self : valuest) : Prop :=
  self.is_bottom = true → self.is_empty = true

instance (self : valuest) : Decidable self.invariant := by
  unfold invariant; infer_instance

/-- The lattice order used for the value lattice: bottom is below every state; a state
that is not bottom is below `b` when `b` is not bottom and every binding of `b` is a
binding of it. -/
def below (a b : valuest) : Prop :=
  a.is_bottom = true ∨
    (b.is_bottom = false ∧
      ∀ p ∈ b.replace_const.entries, a.replace_const.find p.1 = some p.2)

instance (a b : valuest) : Decidable (a.below b) := by
  unfold below; infer_instance

/-- Every binding of the state that `against` does not bind carries the declared type of
its variable: the condition tested by the `DATA_INVARIANT` of `meet` (line 504). -/
def typed_where_unbound (self against : valuest) (ns : namespacet) : Prop :=
  ∀ p ∈ self.replace_const.entries, against.replace_const.find p.1 = none →
    base_type_eq (ns.lookup p.1).type p.2.type ns = true

instance (self against : valuest) (ns : namespacet) :
    Decidable (self.typed_where_unbound against ns) := by
  unfold typed_where_unbound; infer_instance

end valuest

/-! ## Sub-expressions -/

namespace exprt

mutual
/-- All nodes of an expression tree, the root included. -/
def subexprs : exprt → List exprt
  | .mk i t n s v ops => .mk i t n s v ops :: subexprs_list ops
/-- All nodes of a list of expression trees. -/
def subexprs_list : List exprt → List exprt
  | [] => []
  | e :: es => subexprs e ++ subexprs_list es
end

end exprt

/-- The node kinds that make `valuest::is_constant` answer `false` outright: a nondet side
effect, an allocate side effect, an index expression, a symbol not bound in the state. -/
def valuest.blocks (self : valuest) (e : exprt) : Bool :=
  (e.id == ID_side_effect && e.get_statement == ID_nondet) ||
  (e.id == ID_side_effect && e.get_statement == ID_allocate) ||
  (e.id == ID_index) ||
  (e.id == ID_symbol && !self.replaces_symbol e.get_identifier)

/-! ## The domain, partial evaluation, assignment, transfer -/

/-- The two passes that live outside the sources, each returning the rewritten expression
and the C++ result `true` = "nothing changed": `replace_symbolt::replace(expr)` for a map
of bindings, and `simplify(expr, ns)`. -/
structure externalst where
  replace : expr_mapt → exprt → exprt × Bool
  simplify : exprt → namespacet → exprt × Bool

/-- The abstract domain element: it holds `values`. -/
structure constant_propagator_domaint where
  values : valuest
  deriving DecidableEq

/-- What the code reads of the analysis `constant_propagator_ait`: the dirty set, the
tracking policy `should_track_value`, and the converged state of each location, `(*this)[it]`,
keyed by location number (one state per location, as in the spec). -/
structure constant_propagator_ait where
  dirty : dirtyt
  should_track_value : exprt → namespacet → Bool
  state_map : Nat → constant_propagator_domaint

/-- The rounding modes tried by `partial_evaluate_with_all_rounding_modes`. -/
inductive rounding_modet where
  | ROUND_TO_EVEN
  | ROUND_TO_MINUS_INF
  | ROUND_TO_PLUS_INF
  | ROUND_TO_ZERO
  deriving DecidableEq, Repr

/-- Modelled from the spec: the integer value of a rounding mode; the enumeration
`ieee_floatt::rounding_modet` is declared outside the sources, the four modes are four
distinct values. -/
def rounding_modet.to_nat : rounding_modet → Nat
  | .ROUND_TO_EVEN => 0
  | .ROUND_TO_MINUS_INF => 1
  | .ROUND_TO_PLUS_INF => 2
  | .ROUND_TO_ZERO => 3

/-- The array `rounding_modes` of lines 551-557, in its order. -/
def rounding_modes : List rounding_modet :=
  [.ROUND_TO_EVEN, .ROUND_TO_ZERO, .ROUND_TO_MINUS_INF, .ROUND_TO_PLUS_INF]

namespace constant_propagator_domaint

/-- Method `replace_constants_and_simplify`, lines 583-590: the rewritten expression and
`did_not_change_anything`. -/
def replace_constants_and_simplify (ext : externalst) (d : constant_propagator_domaint)
    (expr : exprt) (ns : namespacet) : exprt × Bool :=
  let r1 := ext.replace d.values.replace_const expr
  let r2 := ext.simplify r1.1 ns
  (r2.1, r1.2 && r2.2)

/-- One trial of lines 561-566: a copy of the domain with the rounding mode bound to `m`,
then substitute and simplify a copy of `expr`. -/
def rounding_trial (ext : externalst) (d : constant_propagator_domaint) (expr : exprt)
    (ns : namespacet) (m : rounding_modet) : exprt × Bool :=
  let child : constant_propagator_domaint :=
    { values := d.values.set_to ID_cprover_rounding_mode_str
        (from_integer m.to_nat integer_typet) }
  child.replace_constants_and_simplify ext expr ns

/-- The loop of lines 559-578 from index `i` on, over the remaining modes; `none` is the
early `return true`, `some first_result` is normal termination of the loop. -/
def rounding_loop (ext : externalst) (d : constant_propagator_domaint) (expr : exprt)
    (ns : namespacet) : Nat → List rounding_modet → exprt → Option exprt
  | _, [], first_result => some first_result
  | i, m :: rest, first_result =>
    let r := rounding_trial ext d expr ns m
    if r.2 then none
    else if i = 0 then rounding_loop ext d expr ns (i + 1) rest r.1
    else if r.1 != first_result then none
    else rounding_loop ext d expr ns (i + 1) rest first_result

/-- Method `partial_evaluate_with_all_rounding_modes`, lines 547-581: the expression
afterwards and the result (`true` = unchanged). -/
def partial_evaluate_with_all_rounding_modes (ext : externalst)
    (d : constant_propagator_domaint) (expr : exprt) (ns : namespacet) : exprt × Bool :=
  match rounding_loop ext d expr ns 0 rounding_modes nil_exprt with
  | none => (expr, true)
  | some first_result => (first_result, false)

/-- Method `partial_evaluate`, lines 529-541: the expression afterwards and the result
(`true` = unchanged). -/
def partial_evaluate (ext : externalst) (d : constant_propagator_domaint) (expr : exprt)
    (ns : namespacet) : exprt × Bool :=
  if d.values.is_constant (symbol_exprt ID_cprover_rounding_mode_str) != some true then
    partial_evaluate_with_all_rounding_modes ext d expr ns
  else replace_constants_and_simplify ext d expr ns

/-- Method `assign_rec`, lines 31-58, run on the state `values` (partial evaluation reads
the domain `d`); `cp` may be null. -/
def assign_rec (ext : externalst) (d : constant_propagator_domaint) (values : valuest)
    (lhs rhs : exprt) (ns : namespacet) (cp : Option constant_propagator_ait) :
    Except String valuest :=
  if lhs.id != ID_symbol then .ok values
  else if (match cp with
      | some c => !c.should_track_value lhs ns
      | none => false) then .ok values
  else
    let s := lhs.get_identifier
    let tmp := (partial_evaluate ext d rhs ns).1
    if tmp.is_constant then
      if base_type_eq (ns.lookup s).type tmp.type ns then .ok (values.set_to s tmp)
      else .error "type of constant to be replaced should match"
    else
      match values.set_to_top_id s with
      | .ok r => .ok r.1
      | .error msg => .error msg

end constant_propagator_domaint

/-- Instruction kinds of a goto program. -/
inductive goto_program_instruction_typet where
  | GOTO | ASSUME | ASSERT | OTHER | SKIP | LOCATION | END_FUNCTION
  | RETURN | ASSIGN | DECL | DEAD | FUNCTION_CALL
  deriving DecidableEq, Repr

/-- A location: the instruction with its kind, code, guard, enclosing function, location
number and (for a branch) the location number of its target. -/
structure instructiont where
  type : goto_program_instruction_typet
  code : exprt
  guard : exprt
  function : irep_idt
  location_number : Nat
  target : Option Nat

/-- Method `constant_propagator_domaint::transform`, lines 60-229. Everything between the
`#if 0` of line 77 and its `#endif` of line 228 is removed by the preprocessor, and the two
`#ifdef DEBUG` blocks before it only print: the compiled body is empty, the domain is left
as it is. -/
def constant_propagator_domaint.transform (ext : externalst)
    (d : constant_propagator_domaint) (from_l to_l : instructiont)
    (ai : Option constant_propagator_ait) (ns : namespacet) :
    Except String constant_propagator_domaint :=
  .ok d

/-! ## Demonstration inputs -/

namespace demo

def int_type : typet := ⟨"signedbv", false⟩
def bool_type : typet := ⟨"bool", false⟩
def const_int_type : typet := ⟨"signedbv", true⟩

def lit (v : irep_idt) : exprt := .mk ID_constant int_type "" "" v []
def lit_true : exprt := .mk ID_constant bool_type "" "" "true" []
def sym (x : irep_idt) : exprt := .mk ID_symbol int_type x "" "" []
def nondet_int : exprt := .mk ID_side_effect int_type "" ID_nondet "" []
def plus (a b : exprt) : exprt := .mk "+" int_type "" "" "" [a, b]
def index (a i : exprt) : exprt := .mk ID_index int_type "" "" "" [a, i]
def code_assign (lhs rhs : exprt) : exprt := .mk "code" ⟨"code", false⟩ "" "assign" "" [lhs, rhs]

/-- A symbol table: `g` is a global, `k` is declared constant, every other variable is a
procedure-local integer. -/
def ns : namespacet :=
  ⟨fun x => if x = "g" then ⟨int_type, false⟩
            else if x = "k" then ⟨const_int_type, false⟩
            else ⟨int_type, true⟩⟩

/-- The state `top`. -/
def top : valuest := ⟨expr_mapt.clear, false⟩
/-- The state `bottom`. -/
def bottom : valuest := ⟨expr_mapt.clear, true⟩
/-- The state binding `x` to `5`. -/
def x5 : valuest := ⟨⟨[("x", lit "5")], by decide⟩, false⟩
/-- The state binding `x` to `7`. -/
def x7 : valuest := ⟨⟨[("x", lit "7")], by decide⟩, false⟩
/-- The state binding `x` to `5` and `y` to `1`. -/
def x5y1 : valuest := ⟨⟨[("x", lit "5"), ("y", lit "1")], by decide⟩, false⟩
/-- A state flagged bottom that still binds `x` to `5` (it breaks the state invariant). -/
def bottom_x5 : valuest := ⟨⟨[("x", lit "5")], by decide⟩, true⟩
/-- The state binding `b` to a boolean literal, although `b` is declared an integer. -/
def b_true : valuest := ⟨⟨[("b", lit_true)], by decide⟩, false⟩

/-- The instruction `x = 5;` of function `main`. -/
def assign_x_5 : instructiont :=
  ⟨.ASSIGN, code_assign (sym "x") (lit "5"), lit_true, "main", 0, none⟩
/-- The instruction `x = nondet();` of function `main`. -/
def assign_x_nondet : instructiont :=
  ⟨.ASSIGN, code_assign (sym "x") nondet_int, lit_true, "main", 1, none⟩
/-- The instruction after them. -/
def next_instruction : instructiont :=
  ⟨.SKIP, nil_exprt, lit_true, "main", 2, none⟩

/-- External passes that change nothing. -/
def ext_id : externalst := ⟨fun _ e => (e, true), fun e _ => (e, true)⟩

end demo

/-! ## The replacement pass -/

def ID_expression : irep_idt := "expression"
def ID_bool : irep_idt := "bool"
def ID_false : irep_idt := "false"
def ID_not : irep_idt := "not"

/-- Modelled from the spec: member `exprt::is_false()` of `util/expr`, which is not among
the sources: the expression is "literal false", the boolean constant of value `false`. -/
def exprt.is_false (e : exprt) : Bool :=
  e.is_constant && e.type.id == ID_bool && e.get_value == ID_false

/-- Constructor `not_exprt(op)`: the boolean negation of `op`. -/
def not_exprt (op : exprt) : exprt :=
  .mk ID_not ⟨ID_bool, false⟩ "" "" "" [op]

namespace instructiont

def is_goto (it : instructiont) : Bool := it.type == .GOTO
def is_assume (it : instructiont) : Bool := it.type == .ASSUME
def is_assert (it : instructiont) : Bool := it.type == .ASSERT
def is_assign (it : instructiont) : Bool := it.type == .ASSIGN
def is_function_call (it : instructiont) : Bool := it.type == .FUNCTION_CALL
def is_other (it : instructiont) : Bool := it.type == .OTHER

/-- The code of an assignment has the operands `lhs`, `rhs` read by `to_code_assign`, the
code of a call has the operands `lhs`, `function`, `arguments` read by
`to_code_function_call`. -/
def well_formed (it : instructiont) : Prop :=
  (it.is_assign = true → 2 ≤ it.code.operands.length) ∧
  (it.is_function_call = true → 3 ≤ it.code.operands.length)

instance (it : instructiont) : Decidable it.well_formed := by
  unfold well_formed; infer_instance

end instructiont

/-- Modelled from the spec: `constant_propagator_domaint::is_bottom()` of the class
declaration (not among the sources): the converged state "is bottom". -/
def constant_propagator_domaint.is_bottom (d : constant_propagator_domaint) : Bool :=
  d.values.is_bottom

namespace constant_propagator_ait

mutual
/-- Method `replace_types_rec`, lines 651-659; `replace_type` stands for the call
`replace_const(expr.type())`, the replacement of symbols inside a type, which lives outside
the sources. -/
def replace_types_rec (replace_type : typet → typet) : exprt → exprt
  | .mk i t n s v ops =>
    .mk i (replace_type t) n s v (replace_types_rec_operands replace_type ops)
/-- The loop `Forall_operands(it, expr) replace_types_rec(replace_const, *it);`. -/
def replace_types_rec_operands (replace_type : typet → typet) : List exprt → List exprt
  | [] => []
  | op :: rest =>
    replace_types_rec replace_type op :: replace_types_rec_operands replace_type rest
end

/-- The body of the loop of `constant_propagator_ait::replace`, lines 607-647, for the
instruction `it` whose converged state is `d`. `none` stands for reading an operand that the
code does not have. Line 626 only copies a source location onto a folded right-hand side;
source locations are no part of an expression here (nor of its `operator==`). -/
def replace_instruction (ext : externalst) (replace_type : expr_mapt → typet → typet)
    (ns : namespacet) (d : constant_propagator_domaint) (it : instructiont) :
    Option instructiont :=
  if d.is_bottom then some it
  else
    let code := replace_types_rec (replace_type d.values.replace_const) it.code
    let guard := replace_types_rec (replace_type d.values.replace_const) it.guard
    if it.is_goto || it.is_assume || it.is_assert then
      some { it with code := code, guard := (d.partial_evaluate ext guard ns).1 }
    else if it.is_assign then
      match code with
      | .mk i t n s v (lhs :: rhs :: rest) =>
        some { it with
          code := .mk i t n s v (lhs :: (d.partial_evaluate ext rhs ns).1 :: rest)
          guard := guard }
      | _ => none
    else if it.is_function_call then
      match code with
      | .mk i t n s v (lhs :: function :: .mk ai ta na sa va args :: rest) =>
        some { it with
          code := .mk i t n s v
            (lhs :: (d.partial_evaluate ext function ns).1 ::
              .mk ai ta na sa va (args.map (fun arg => (d.partial_evaluate ext arg ns).1)) ::
              rest)
          guard := guard }
      | _ => none
    else if it.is_other then
      if code.get_statement = ID_expression then
        some { it with code := (d.partial_evaluate ext code ns).1, guard := guard }
      else some { it with code := code, guard := guard }
    else some { it with code := code, guard := guard }

/-- The loop `Forall_goto_program_instructions(it, goto_function.body)` of
`constant_propagator_ait::replace`, lines 601-649, over the instructions of a body. -/
def replace_body (self : constant_propagator_ait) (ext : externalst)
    (replace_type : expr_mapt → typet → typet) (ns : namespacet) :
    List instructiont → Option (List instructiont)
  | [] => some []
  | it :: rest =>
    match replace_instruction ext replace_type ns (self.state_map it.location_number) it with
    | none => none
    | some it' =>
      match replace_body self ext replace_type ns rest with
      | none => none
      | some rest' => some (it' :: rest')

/-- Method `constant_propagator_ait::replace(goto_function, ns)`, lines 601-649: the analysis
object afterwards (the states are only read, through `const` references) and the rewritten
body. -/
def replace (self : constant_propagator_ait) (ext : externalst)
    (replace_type : expr_mapt → typet → typet) (ns : namespacet)
    (body : List instructiont) : Option (constant_propagator_ait × List instructiont) :=
  match replace_body self ext replace_type ns body with
  | none => none
  | some body' => some (self, body')

end constant_propagator_ait

namespace demo

def lit_false : exprt := .mk ID_constant bool_type "" "" "false" []
def bsym (x : irep_idt) : exprt := .mk ID_symbol bool_type x "" "" []

/-- A simplifier that removes a double negation at the root of the expression, and nothing
else. -/
def simplify_not_not : exprt → namespacet → exprt × Bool
  | .mk i t n s v [.mk i' t' n' s' v' [e]], _ =>
    if i = ID_not ∧ i' = ID_not then (e, false)
    else (.mk i t n s v [.mk i' t' n' s' v' [e]], true)
  | e, _ => (e, true)

/-- External passes: no substitution, double negation removed at the root. -/
def ext_not_not : externalst := ⟨fun _ e => (e, true), simplify_not_not⟩

/-- No replacement inside types. -/
def replace_type_id : expr_mapt → typet → typet := fun _ t => t

/-- The branch `if(false) goto 2;` at location 0 of function `main`. -/
def goto_false : instructiont :=
  ⟨.GOTO, nil_exprt, lit_false, "main", 0, some 2⟩
/-- The target of that branch, location 2. -/
def goto_target : instructiont :=
  ⟨.SKIP, nil_exprt, lit_true, "main", 2, none⟩
/-- The assumption `assume(!!!!c)` at location 0. -/
def assume_not4 : instructiont :=
  ⟨.ASSUME, nil_exprt, not_exprt (not_exprt (not_exprt (not_exprt (bsym "c")))), "main", 0,
    none⟩
/-- An analysis result in which every location has the state `top`. -/
def ai_top : constant_propagator_ait :=
  ⟨fun _ => false, fun _ _ => true, fun _ => ⟨top⟩⟩
/-- An analysis result in which every location has the state `bottom`. -/
def ai_bottom : constant_propagator_ait :=
  ⟨fun _ => false, fun _ _ => true, fun _ => ⟨bottom⟩⟩

end demo

namespace demo

mutual
/-- A substitution pass: every symbol bound in the map is replaced by its value. -/
def subst (m : expr_mapt) : exprt → exprt × Bool
  | .mk i t n s v ops =>
    if i = ID_symbol then
      match m.find n with
      | some c => (c, false)
      | none => (.mk i t n s v ops, true)
    else (.mk i t n s v (subst_operands m ops).1, (subst_operands m ops).2)
/-- The substitution pass over a list of operands. -/
def subst_operands (m : expr_mapt) : List exprt → List exprt × Bool
  | [] => ([], true)
  | e :: es => ((subst m e).1 :: (subst_operands m es).1, (subst m e).2 && (subst_operands m es).2)
end

/-- External passes: substitution of bound symbols, no simplification. -/
def ext_subst : externalst := ⟨subst, fun e _ => (e, true)⟩

end demo

namespace demo

end demo

deriving instance DecidableEq for instructiont

namespace demo

/-- The assumption `assume(!!c)` at location 0. -/
def assume_not2 : instructiont :=
  ⟨.ASSUME, nil_exprt, not_exprt (not_exprt (bsym "c")), "main", 0, none⟩
/-- The assumption `assume(c)` at location 0. -/
def assume_c : instructiont :=
  ⟨.ASSUME, nil_exprt, bsym "c", "main", 0, none⟩

end demo

namespace demo

/-- The dereference `*p`. -/
def deref (p : exprt) : exprt := .mk ID_dereference int_type "" "" "" [p]

end demo

/-! ## The text of `transform` that the preprocessor removes -/

def CPROVER_PREFIX : String := "__CPROVER_"

namespace instructiont

def is_decl (it : instructiont) : Bool := it.type == .DECL
def is_dead (it : instructiont) : Bool := it.type == .DEAD
def is_end_function (it : instructiont) : Bool := it.type == .END_FUNCTION

/-- The operands that the text of `transform` reads are there: the symbol of a declaration
or scope end (`to_code_decl`, `to_code_dead`), `lhs` and `rhs` of an assignment, and `lhs`,
`function`, `arguments` of a call. -/
def operands_present (it : instructiont) : Prop :=
  ((it.is_decl = true ∨ it.is_dead = true) → 1 ≤ it.code.operands.length) ∧ it.well_formed

instance (it : instructiont) : Decidable it.operands_present := by
  unfold operands_present; infer_instance

end instructiont

namespace constant_propagator_domaint

/-- Method `two_way_propagate_rec`, lines 233-279: the domain afterwards and the result
`change`. The body sits between the `#if 0` of line 245 and the `#endif` of line 271, so the
compiled function changes nothing and returns `false`. -/
def two_way_propagate_rec (d : constant_propagator_domaint) (expr : exprt) (ns : namespacet)
    (cp : Option constant_propagator_ait) : constant_propagator_domaint × Bool :=
  (d, false)

/-- The loop of lines 182-192 over the arguments of an actual call: each argument is
assigned to the parameter at its position, until the arguments or the parameters run out.
`assign_rec` evaluates under the state reached so far. -/
def assign_parameters (ext : externalst) (ns : namespacet)
    (cp : Option constant_propagator_ait) :
    List irep_idt → List exprt → valuest → Except String valuest
  | _, [], values => .ok values
  | [], _ :: _, values => .ok values
  | p :: parameters, arg :: arguments, values =>
    match assign_rec ext ⟨values⟩ values (.mk ID_symbol arg.type p "" "" []) arg ns cp with
    | .ok values' => assign_parameters ext ns cp parameters arguments values'
    | .error msg => .error msg

/-- The loop of lines 213-214: `set_to_top` for each parameter of the function left. -/
def erase_parameters : List irep_idt → valuest → Except String valuest
  | [], values => .ok values
  | p :: parameters, values =>
    match values.set_to_top_id p with
    | .ok r => erase_parameters parameters r.1
    | .error msg => .error msg

/-- The step `if(have_dirty) values.set_dirty_to_top(cp->dirty, ns); else
values.set_to_top();` of lines 163-166 and 204-207. -/
def havoc_call (values : valuest) (cp : Option constant_propagator_ait) (ns : namespacet) :
    valuest :=
  match cp with
  | some c => values.set_dirty_to_top c.dirty ns
  | none => values.set_to_top

/-- The chain of tests on the kind of `from` in the text of `transform` between the `#if 0`
of line 77 and the `#endif` of line 228 (lines 93-215), which the preprocessor removes, for
an incoming state that is not bottom: the state `values` afterwards.
`parameters id` stands for the parameter identifiers of the code type of the function symbol
`id` (`to_code_type(ns.lookup(id).type).parameters()`, declared outside the sources), `cp` is
the result of the `dynamic_cast`, the test `from->get_target()==to` compares the target of
the branch with the location of `to`, and `to_symbol_expr` is read as `get_identifier`.
`none` stands for reading an operand that the code of the instruction does not have. -/
def transform_disabled_cases (ext : externalst) (parameters : irep_idt → List irep_idt)
    (d : constant_propagator_domaint) (from_l to_l : instructiont)
    (cp : Option constant_propagator_ait) (ns : namespacet) :
    Option (Except String valuest) :=
  if from_l.is_decl then
    match from_l.code.operands with
    | symbol :: _ => some ((d.values.set_to_top_id symbol.get_identifier).map Prod.fst)
    | [] => none
  else if from_l.is_assign then
    match from_l.code.operands with
    | lhs :: rhs :: _ => some (assign_rec ext d d.values lhs rhs ns cp)
    | _ => none
  else if from_l.is_assume then
    some (.ok (d.two_way_propagate_rec from_l.guard ns cp).1.values)
  else if from_l.is_goto then
    let g :=
      if from_l.target = some to_l.location_number then from_l.guard
      else not_exprt from_l.guard
    let g' := (d.partial_evaluate ext g ns).1
    if g'.is_false then some (.ok d.values.set_to_bottom)
    else
      let values := (d.two_way_propagate_rec g' ns cp).1.values
      if values.is_bottom then
        some (.error "Without two-way propagation this should be impossible.")
      else some (.ok values)
  else if from_l.is_dead then
    match from_l.code.operands with
    | symbol :: _ => some ((d.values.set_to_top_id symbol.get_identifier).map Prod.fst)
    | [] => none
  else if from_l.is_function_call then
    match from_l.code.operands with
    | _ :: function :: rest =>
      if function.id = ID_symbol then
        let id := function.get_identifier
        if from_l.function = to_l.function then
          if id = CPROVER_PREFIX ++ "set_must" ∨ id = CPROVER_PREFIX ++ "get_must" ∨
              id = CPROVER_PREFIX ++ "set_may" ∨ id = CPROVER_PREFIX ++ "get_may" ∨
              id = CPROVER_PREFIX ++ "cleanup" ∨ id = CPROVER_PREFIX ++ "clear_may" ∨
              id = CPROVER_PREFIX ++ "clear_must" then
            some (.ok d.values)
          else some (.ok (havoc_call d.values cp ns))
        else
          match rest with
          | arguments :: _ =>
            some (assign_parameters ext ns cp (parameters id) arguments.operands d.values)
          | [] => none
      else if from_l.function = to_l.function then
        some (.ok (havoc_call d.values cp ns))
      else some (.error "Unresolved call can only be approximated if a skip")
    | _ => none
  else if from_l.is_end_function then
    some (erase_parameters (parameters from_l.function) d.values)
  else some (.ok d.values)

/-- The text of `transform` between the `#if 0` of line 77 and the `#endif` of line 228
(lines 78-222), which the preprocessor removes: the transfer function as it is written. A
bottom state is returned at once (line 90); otherwise the chain of tests runs and the final
`INVARIANT` of line 221 is checked. -/
def transform_disabled (ext : externalst) (parameters : irep_idt → List irep_idt)
    (d : constant_propagator_domaint) (from_l to_l : instructiont)
    (cp : Option constant_propagator_ait) (ns : namespacet) :
    Option (Except String constant_propagator_domaint) :=
  if d.values.is_bottom then some (.ok d)
  else
    match transform_disabled_cases ext parameters d from_l to_l cp ns with
    | none => none
    | some (.error msg) => some (.error msg)
    | some (.ok values) =>
      if from_l.is_goto || !values.is_bottom then some (.ok ⟨values⟩)
      else some (.error "Transform only sets bottom by using branch conditions")

end constant_propagator_domaint

namespace demo

/-- No function has parameters. -/
def no_parameters : irep_idt → List irep_idt := fun _ => []
/-- The function `f` has the parameter `p`, no other function has parameters. -/
def parameters_f : irep_idt → List irep_idt := fun f => if f = "f" then ["p"] else []
/-- The call `f(5);` of function `main`; the edge into the body of `f` ends at
`f_entry`. -/
def call_f_5 : instructiont :=
  ⟨.FUNCTION_CALL, .mk "code" ⟨"code", false⟩ "" "function_call" ""
      [nil_exprt, .mk ID_symbol ⟨"code", false⟩ "f" "" "" [],
        .mk "arguments" ⟨"", false⟩ "" "" "" [lit "5"]],
    lit_true, "main", 3, none⟩
/-- The first instruction of the body of `f`. -/
def f_entry : instructiont :=
  ⟨.SKIP, nil_exprt, lit_true, "f", 10, none⟩
/-- The state binding `p` to `5`. -/
def p5 : valuest := ⟨⟨[("p", lit "5")], by decide⟩, false⟩

end demo

/-! ## Specialisation of Java generic parameters (`java_bytecode/select_pointer_type.cpp`) -/

def ID_struct_tag : irep_idt := "struct_tag"

/-- A pointer type as `select_pointer_typet` reads it: the name of the type variable when
the type is a Java generic parameter (`is_java_generic_parameter`), the id of its subtype,
the identifier of a struct-tag subtype, and the element type stored in the subtype
(`java_array_element_type`) when that is a pointer type. -/
inductive pointer_typet where
  | mk (generic_parameter : Option irep_idt) (subtype_id : irep_idt)
      (subtype_identifier : irep_idt) (element_type : Option pointer_typet)

namespace pointer_typet

def generic_parameter : pointer_typet → Option irep_idt
  | .mk g _ _ _ => g

def subtype_id : pointer_typet → irep_idt
  | .mk _ s _ _ => s

def subtype_identifier : pointer_typet → irep_idt
  | .mk _ _ t _ => t

def element_type : pointer_typet → Option pointer_typet
  | .mk _ _ _ e => e

/-- Modelled from the spec: predicate `is_java_generic_parameter(type)` of `java_types.h`,
which is not among the sources: the type carries the name of a type variable. -/
def is_java_generic_parameter (p : pointer_typet) : Bool := p.generic_parameter.isSome

/-- The assignment `subtype().set(ID_element_type, element)`. -/
def set_element_type : pointer_typet → pointer_typet → pointer_typet
  | .mk g s t _, element => .mk g s t (some element)

mutual
/-- Structural equality test on pointer types. -/
def decEq : (a b : pointer_typet) → Decidable (a = b)
  | .mk g1 s1 t1 e1, .mk g2 s2 t2 e2 =>
    if h : g1 = g2 ∧ s1 = s2 ∧ t1 = t2 then
      match decEqOption e1 e2 with
      | isTrue he => isTrue (by rcases h with ⟨rfl, rfl, rfl⟩; rw [he])
      | isFalse he => isFalse (by intro e; injection e with _ _ _ e4; exact he e4)
    else isFalse (by intro e; injection e with e1 e2 e3 _; exact h ⟨e1, e2, e3⟩)
/-- Structural equality test on optional element types. -/
def decEqOption : (a b : Option pointer_typet) → Decidable (a = b)
  | none, none => isTrue rfl
  | none, some _ => isFalse (by simp)
  | some _, none => isFalse (by simp)
  | some x, some y =>
    match decEq x y with
    | isTrue h => isTrue (by rw [h])
    | isFalse h => isFalse (by intro e; injection e with e1; exact h e1)
end

instance : DecidableEq pointer_typet := decEq

end pointer_typet

/-- The two helpers of `java_types` that `specialize_generics` calls and that live outside
the sources: the test `is_java_array_tag(identifier)` and the type built by
`java_array_type('a')`. -/
structure java_typest where
  is_java_array_tag : irep_idt → Bool
  java_array_type_a : pointer_typet

/-- The map `generic_parameter_specialization_mapt`: for each generic parameter name its
stack of specializations, the last element being the top (`back()`). -/
structure generic_parameter_specialization_mapt where
  entries : List (irep_idt × List pointer_typet)

namespace generic_parameter_specialization_mapt

/-- Lookup `find(name)`: the stack of `name`, or `none` for `end()`. -/
def find (m : generic_parameter_specialization_mapt) (name : irep_idt) :
    Option (List pointer_typet) := m.entries.lookup name

/-- Member `empty()`. -/
def empty (m : generic_parameter_specialization_mapt) : Bool := m.entries.isEmpty

/-- The set of keys of the map. -/
def keys (m : generic_parameter_specialization_mapt) : Finset irep_idt :=
  (m.entries.map Prod.fst).toFinset

end generic_parameter_specialization_mapt

/-- The set `generic_parameter_recursion_trackingt` of visited parameter names. -/
abbrev generic_parameter_recursion_trackingt := Finset irep_idt

namespace select_pointer_typet

/-- Method `get_recursively_instantiated_type(parameter_name, map, visited, depth)`,
lines 185-225: the result and the set `visited` afterwards. `fuel` bounds the depth of the
recursion, `none` means that it was used up. -/
def get_recursively_instantiated_type_at (m : generic_parameter_specialization_mapt) :
    Nat → irep_idt → generic_parameter_recursion_trackingt → Nat →
    Option (Except String (Option pointer_typet × generic_parameter_recursion_trackingt))
  | 0, _, _, _ => none
  | fuel + 1, parameter_name, visited, depth =>
    match m.find parameter_name with
    | none => some (.error "generic parameter must be a key in map")
    | some replacements =>
      if hd : depth < replacements.length then
        if parameter_name ∈ visited then some (.ok (none, visited))
        else
          let type := replacements.get ⟨(replacements.length - 1) - depth, by omega⟩
          match type.generic_parameter with
          | none => some (.ok (some type, visited))
          | some name =>
            match get_recursively_instantiated_type_at m fuel name
                (insert parameter_name visited) depth with
            | none => none
            | some (.error e) => some (.error e)
            | some (.ok (inst_val, visited')) =>
              some (.ok (inst_val, visited'.erase parameter_name))
      else some (.error "cannot access elements outside stack")

/-- The loop of `get_recursively_instantiated_type(parameter_name, map)`, lines 154-169, with
`remaining` iterations to go from `depth` on; an error whose text starts with `undefined:`
stands for undefined behaviour of the C++ code. -/
def get_recursively_instantiated_type_loop (m : generic_parameter_specialization_mapt)
    (fuel : Nat) :
    Nat → Nat → irep_idt → generic_parameter_recursion_trackingt →
    Option (Except String (Option pointer_typet))
  | 0, _, _, _ => some (.ok none)
  | remaining + 1, depth, current_parameter, visited =>
    match get_recursively_instantiated_type_at m fuel current_parameter visited depth with
    | none => none
    | some (.error e) => some (.error e)
    | some (.ok (some retval, _)) =>
      if retval.is_java_generic_parameter then
        some (.error "CHECK_RETURN(!is_java_generic_parameter(*retval))")
      else some (.ok (some retval))
    | some (.ok (none, visited')) =>
      if visited' ≠ ∅ then some (.error "CHECK_RETURN(visited.empty())")
      else
        match m.find current_parameter with
        | none => some (.error "undefined: find() of a name that is no key")
        | some stack =>
          match stack.getLast? with
          | none => some (.error "undefined: back() of an empty stack")
          | some entry =>
            match entry.generic_parameter with
            | none =>
              some (.error "undefined: to_java_generic_parameter of another type")
            | some name =>
              get_recursively_instantiated_type_loop m fuel remaining (depth + 1) name visited'

/-- Method `get_recursively_instantiated_type(parameter_name, map)`, lines 143-171. -/
def get_recursively_instantiated_type (m : generic_parameter_specialization_mapt)
    (fuel : Nat) (parameter_name : irep_idt) :
    Option (Except String (Option pointer_typet)) :=
  match m.find parameter_name with
  | none => some (.error "undefined: find() of a name that is no key")
  | some stack =>
    get_recursively_instantiated_type_loop m fuel stack.length 0 parameter_name ∅

/-- Method `specialize_generics`, lines 66-132: the returned type and the set
`visited_nodes` afterwards. `fuel` bounds the depth of the recursion (and is handed to
`get_recursively_instantiated_type`), `none` means that it was used up. -/
def specialize_generics (jt : java_typest) (m : generic_parameter_specialization_mapt) :
    Nat → pointer_typet → generic_parameter_recursion_trackingt →
    Option (Except String (pointer_typet × generic_parameter_recursion_trackingt))
  | 0, _, _ => none
  | fuel + 1, pointer_type, visited_nodes =>
    match pointer_type.generic_parameter with
    | some parameter_name =>
      if parameter_name ∈ visited_nodes then
        match get_recursively_instantiated_type m fuel parameter_name with
        | none => none
        | some (.error e) => some (.error e)
        | some (.ok result) => some (.ok (result.getD pointer_type, visited_nodes))
      else
        match m.find parameter_name with
        | none => some (.ok (pointer_type, visited_nodes))
        | some stack =>
          match stack.getLast? with
          | none => some (.error "undefined: back() of an empty stack")
          | some type =>
            if type.is_java_generic_parameter = false then some (.ok (type, visited_nodes))
            else
              match specialize_generics jt m fuel type (insert parameter_name visited_nodes)
                with
              | none => none
              | some (.error e) => some (.error e)
              | some (.ok (returned_type, visited')) =>
                some (.ok (returned_type, visited'.erase parameter_name))
    | none =>
      if pointer_type.subtype_id = ID_struct_tag then
        if jt.is_java_array_tag pointer_type.subtype_identifier then
          match pointer_type.element_type with
          | some array_element_type =>
            match specialize_generics jt m fuel array_element_type visited_nodes with
            | none => none
            | some (.error e) => some (.error e)
            | some (.ok (new_array_type, visited')) =>
              some (.ok (jt.java_array_type_a.set_element_type new_array_type, visited'))
          | none => some (.ok (pointer_type, visited_nodes))
        else some (.ok (pointer_type, visited_nodes))
      else some (.ok (pointer_type, visited_nodes))

/-- Method `convert_pointer_type`, lines 26-46 (the namespace argument is not used). -/
def convert_pointer_type (jt : java_typest) (fuel : Nat) (pointer_type : pointer_typet)
    (m : generic_parameter_specialization_mapt) : Option (Except String pointer_typet) :=
  if m.empty = false then
    match specialize_generics jt m fuel pointer_type ∅ with
    | none => none
    | some (.error e) => some (.error e)
    | some (.ok (type, visited)) =>
      if visited = ∅ then some (.ok type)
      else some (.error "recursion stack must be empty here")
  else some (.ok pointer_type)

end select_pointer_typet

namespace demo

/-- The generic parameter `T`. -/
def jT : pointer_typet := .mk (some "T") ID_struct_tag "java::java.lang.Object" none
/-- The generic parameter `U`. -/
def jU : pointer_typet := .mk (some "U") ID_struct_tag "java::java.lang.Object" none
/-- The generic parameter `V`, which is no key of the maps below. -/
def jV : pointer_typet := .mk (some "V") ID_struct_tag "java::java.lang.Object" none
/-- The type `String`, which is no generic parameter. -/
def jString : pointer_typet := .mk none ID_struct_tag "java::java.lang.String" none
/-- The map `T -> U`, `U -> String` of the comment on `specialize_generics`. -/
def map_TU : generic_parameter_specialization_mapt := ⟨[("T", [jU]), ("U", [jString])]⟩
/-- An instance of the helpers: array tags are the identifiers that start with
`java::array[`. -/
def jt : java_typest :=
  ⟨fun tag => "java::array[".data.isPrefixOf tag.data,
    .mk none ID_struct_tag "java::array[reference]" none⟩
/-- The Java array type `T[]`. -/
def jT_array : pointer_typet := .mk none ID_struct_tag "java::array[reference]" (some jT)
/-- The Java array type `String[]` as `specialize_generics` builds it. -/
def jString_array : pointer_typet :=
  .mk none ID_struct_tag "java::array[reference]" (some jString)
/-- The map `T -> [U, U]`, `U -> [T]`: a cycle whose stacks have different depths. -/
def map_uneven_cycle : generic_parameter_specialization_mapt :=
  ⟨[("T", [jU, jU]), ("U", [jT])]⟩
/-- The map `T -> [String, U]`, `U -> [T]`: below the cycle at the top of the stacks, `T` is
instantiated with `String`. -/
def map_String_below_cycle : generic_parameter_specialization_mapt :=
  ⟨[("T", [jString, jU]), ("U", [jT])]⟩

end demo

namespace generic_parameter_specialization_mapt

/-- Every key of the map has a non-empty stack. -/
def stacks_non_empty (m : generic_parameter_specialization_mapt) : Prop :=
  ∀ p ∈ m.entries, p.2 ≠ []

instance (m : generic_parameter_specialization_mapt) : Decidable m.stacks_non_empty := by
  unfold stacks_non_empty; infer_instance

/-- Every generic parameter that occurs in a stack of the map is itself a key of the map. -/
def parameters_are_keys (m : generic_parameter_specialization_mapt) : Prop :=
  ∀ p ∈ m.entries, ∀ t ∈ p.2,
    t.generic_parameter.all (fun name => (m.find name).isSome) = true

instance (m : generic_parameter_specialization_mapt) : Decidable m.parameters_are_keys := by
  unfold parameters_are_keys; infer_instance

/-- No stack of the map has fewer than `n` elements. -/
def stacks_at_least (m : generic_parameter_specialization_mapt) (n : Nat) : Prop :=
  ∀ p ∈ m.entries, n ≤ p.2.length

instance (m : generic_parameter_specialization_mapt) (n : Nat) :
    Decidable (m.stacks_at_least n) := by
  unfold stacks_at_least; infer_instance

/-- The names `chain` are a chain of generic parameters that ends in `S`: the top of the
stack of each name is the generic parameter named next, and the top of the stack of the last
name is `S`. -/
def resolves_chain (m : generic_parameter_specialization_mapt) (S : pointer_typet) :
    List irep_idt → Bool
  | [] => false
  | [t] =>
    match m.find t with
    | some stack => decide (stack.getLast? = some S)
    | none => false
  | t :: t' :: rest =>
    (match m.find t with
      | some stack =>
        match stack.getLast? with
        | some p => decide (p.generic_parameter = some t')
        | none => false
      | none => false) && resolves_chain m S (t' :: rest)

end generic_parameter_specialization_mapt

/-- The top of the stack of `name` is the generic parameter named `next`. -/
def generic_parameter_specialization_mapt.top_is_parameter
    (m : generic_parameter_specialization_mapt) (name next : irep_idt) : Prop :=
  ∃ stack entry, m.find name = some stack ∧ stack.getLast? = some entry ∧
    entry.generic_parameter = some next
/-! ## Lemmas on the binding map -/

namespace expr_mapt

theorem lookup_eq_some_iff_mem {l : List (irep_idt × exprt)}
    (h : (l.map Prod.fst).Nodup) (k : irep_idt) (v : exprt) :
    l.lookup k = some v ↔ (k, v) ∈ l := by
  induction l with
  | nil => simp
  | cons p t ih =>
    obtain ⟨k', v'⟩ := p
    rw [List.map_cons, List.nodup_cons] at h
    by_cases hk : k = k'
    · subst hk
      have hnot : ∀ w, (k, w) ∉ t := fun w hw => h.1 (List.mem_map.2 ⟨(k, w), hw, rfl⟩)
      simp [List.lookup, hnot]
      exact eq_comm
    · have hb : (k == k') = false := by simpa using hk
      simp [List.lookup, hb, hk, ih h.2]

theorem lookup_eq_none_iff {l : List (irep_idt × exprt)} (k : irep_idt) :
    l.lookup k = none ↔ ∀ v, (k, v) ∉ l := by
  induction l with
  | nil => simp
  | cons p t ih =>
    obtain ⟨k', v'⟩ := p
    by_cases hk : k = k'
    · subst hk
      simp only [List.lookup, beq_self_eq_true, List.mem_cons, Prod.mk.injEq, true_and,
        not_or, not_forall, false_iff, reduceCtorEq]
      exact ⟨v', fun h => h.1 rfl⟩
    · have hb : (k == k') = false := by simpa using hk
      simp [List.lookup, hb, hk, ih]

theorem find_eq_some_iff (m : expr_mapt) (k : irep_idt) (v : exprt) :
    m.find k = some v ↔ (k, v) ∈ m.entries :=
  lookup_eq_some_iff_mem m.nodup k v

theorem find_eq_none_iff (m : expr_mapt) (k : irep_idt) :
    m.find k = none ↔ ∀ v, (k, v) ∉ m.entries :=
  lookup_eq_none_iff k

theorem ext_entries {a b : expr_mapt} (h : a.entries = b.entries) : a = b := by
  cases a; cases b; cases h; rfl

theorem find_erase_if (m : expr_mapt) (c : irep_idt × exprt → Bool) (k : irep_idt)
    (v : exprt) :
    (m.erase_if c).1.find k = some v ↔ (m.find k = some v ∧ c (k, v) = false) := by
  rw [find_eq_some_iff, find_eq_some_iff]
  simp [erase_if, List.mem_filter]

theorem erase_if_changed (m : expr_mapt) (c : irep_idt × exprt → Bool) :
    (m.erase_if c).2 = true ↔ ∃ k v, m.find k = some v ∧ c (k, v) = true := by
  simp only [erase_if, List.any_eq_true]
  constructor
  · rintro ⟨⟨k, v⟩, hp, hc⟩
    exact ⟨k, v, (find_eq_some_iff m k v).2 hp, hc⟩
  · rintro ⟨k, v, hf, hc⟩
    exact ⟨(k, v), (find_eq_some_iff m k v).1 hf, hc⟩

theorem find_set (m : expr_mapt) (id : irep_idt) (e : exprt) (k : irep_idt) :
    (m.set id e).find k = if k = id then some e else m.find k := by
  by_cases hk : k = id
  · subst hk
    simp [find, set, List.lookup]
  · have hb : (k == id) = false := by simpa using hk
    rw [if_neg hk]
    cases hf : m.find k with
    | none =>
      rw [find_eq_none_iff] at hf ⊢
      intro v hv
      simp only [set, List.mem_cons, Prod.mk.injEq, List.mem_filter] at hv
      rcases hv with ⟨h1, _⟩ | ⟨h1, _⟩
      · exact hk h1
      · exact hf v h1
    | some v =>
      rw [find_eq_some_iff] at hf ⊢
      simp only [set, List.mem_cons, Prod.mk.injEq, List.mem_filter]
      right
      exact ⟨hf, by simpa using hk⟩

theorem find_erase (m : expr_mapt) (id : irep_idt) (k : irep_idt) :
    (m.erase id).1.find k = if k = id then none else m.find k := by
  by_cases hk : k = id
  · subst hk
    rw [if_pos rfl, find_eq_none_iff]
    intro v hv
    simp [erase, List.mem_filter] at hv
  · rw [if_neg hk]
    cases hf : m.find k with
    | none =>
      rw [find_eq_none_iff] at hf ⊢
      intro v hv
      simp only [erase, List.mem_filter] at hv
      exact hf v hv.1
    | some v =>
      rw [find_eq_some_iff] at hf ⊢
      simp only [erase, List.mem_filter]
      exact ⟨hf, by simpa using hk⟩

theorem erase_count_pos (m : expr_mapt) (id : irep_idt) :
    0 < (m.erase id).2 ↔ (m.find id).isSome = true := by
  simp only [erase, List.length_pos]
  constructor
  · intro h
    obtain ⟨p, hp⟩ := List.exists_mem_of_ne_nil _ h
    rw [List.mem_filter] at hp
    have hk : p.1 = id := by simpa using hp.2
    have : m.find id = some p.2 := (find_eq_some_iff m id p.2).2 (by rw [← hk]; exact hp.1)
    simp [this]
  · intro h
    obtain ⟨v, hv⟩ := Option.isSome_iff_exists.1 h
    have hm := (find_eq_some_iff m id v).1 hv
    exact List.ne_nil_of_mem (List.mem_filter.2 ⟨hm, by simp⟩)

theorem empty_iff (m : expr_mapt) : m.empty = true ↔ m.entries = [] := by
  simp [empty]

theorem find_clear (k : irep_idt) : clear.find k = none := rfl

end expr_mapt

/-! ## Lemmas on `merge` -/

namespace valuest

theorem is_empty_iff (self : valuest) :
    self.is_empty = true ↔ self.replace_const.entries = [] := by
  simp [is_empty, expr_mapt.empty]

theorem find_none_of_is_empty (self : valuest) (h : self.is_empty = true) (v : irep_idt) :
    self.replace_const.find v = none := by
  rw [is_empty_iff] at h
  simp [expr_mapt.find, h]

theorem merge_of_src_bottom (self src : valuest) (h : src.is_bottom = true) :
    self.merge src = (self, false) := by
  simp [merge, h]

theorem merge_of_self_bottom (self src : valuest) (hs : self.is_bottom = true)
    (h : src.is_bottom = false) :
    self.merge src = (src, true) := by
  cases src
  simp_all [merge]

theorem merge_non_bottom_flag (self src : valuest) (hs : self.is_bottom = false)
    (h : src.is_bottom = false) : (self.merge src).1.is_bottom = false := by
  unfold merge
  simp only [h, hs, Bool.false_eq_true, if_false]
  split <;> simp [set_to_top, hs]

theorem merge_non_bottom_find (self src : valuest) (hs : self.is_bottom = false)
    (h : src.is_bottom = false) (v : irep_idt) (c : exprt) :
    (self.merge src).1.replace_const.find v = some c ↔
      (self.replace_const.find v = some c ∧ src.replace_const.find v = some c) := by
  unfold merge
  simp only [h, hs, Bool.false_eq_true, if_false]
  split
  · rename_i he
    simp [set_to_top, expr_mapt.find_clear, find_none_of_is_empty src he]
  · simp only [expr_mapt.find_erase_if]
    constructor
    · rintro ⟨h1, h2⟩
      refine ⟨h1, ?_⟩
      cases hf : src.replace_const.find v with
      | none => simp [hf] at h2
      | some e =>
        simp only [hf, bne_eq_false_iff_eq] at h2
        rw [h2]
    · rintro ⟨h1, h2⟩
      exact ⟨h1, by simp [h2]⟩

theorem merge_non_bottom_changed (self src : valuest) (hs : self.is_bottom = false)
    (h : src.is_bottom = false) :
    (self.merge src).2 = true ↔
      ∃ v c, self.replace_const.find v = some c ∧ src.replace_const.find v ≠ some c := by
  unfold merge
  simp only [h, hs, Bool.false_eq_true, if_false]
  split
  · rename_i he
    simp only [find_none_of_is_empty src he, ne_eq, reduceCtorEq, not_false_eq_true,
      and_true, Bool.not_eq_true', ← Bool.not_eq_true, is_empty_iff]
    constructor
    · intro hne
      obtain ⟨p, hp⟩ := List.exists_mem_of_ne_nil _ hne
      exact ⟨p.1, p.2, (expr_mapt.find_eq_some_iff _ _ _).2 hp⟩
    · rintro ⟨v, c, hf⟩
      exact List.ne_nil_of_mem ((expr_mapt.find_eq_some_iff _ _ _).1 hf)
  · simp only [expr_mapt.erase_if_changed]
    constructor
    · rintro ⟨k, v, h1, h2⟩
      refine ⟨k, v, h1, ?_⟩
      intro h3
      simp [h3] at h2
    · rintro ⟨k, v, h1, h2⟩
      refine ⟨k, v, h1, ?_⟩
      cases hf : src.replace_const.find k with
      | none => rfl
      | some e =>
        simp only [bne_iff_ne, ne_eq]
        intro hve
        exact h2 (by rw [hf, hve])

/-- Merging a non-bottom `src` into a non-bottom state that already agrees with `src` on
all its own bindings changes nothing. -/
theorem merge_eq_self_of_subset (self src : valuest) (hs : self.is_bottom = false)
    (h : src.is_bottom = false)
    (hsub : ∀ p ∈ self.replace_const.entries, src.replace_const.find p.1 = some p.2) :
    self.merge src = (self, false) := by
  unfold merge
  simp only [h, hs, Bool.false_eq_true, if_false]
  split
  · rename_i he
    have hself : self.replace_const.entries = [] := by
      cases hl : self.replace_const.entries with
      | nil => rfl
      | cons p t =>
        have := hsub p (by rw [hl]; exact List.mem_cons_self _ _)
        rw [find_none_of_is_empty src he] at this
        cases this
    have h1 : self.is_empty = true := (is_empty_iff self).2 hself
    have h2 : self.set_to_top = self := by
      cases self with
      | mk rc b =>
        simp only [set_to_top] at *
        subst hs
        congr 1
        exact expr_mapt.ext_entries hself.symm
    simp [h1, h2]
  · have hfilter : (self.replace_const.erase_if (fun p =>
        match src.replace_const.find p.1 with
        | some src_expr => p.2 != src_expr
        | none => true)) = (self.replace_const, false) := by
      simp only [expr_mapt.erase_if]
      refine Prod.ext (expr_mapt.ext_entries ?_) ?_
      · simp only
        rw [List.filter_eq_self]
        intro p hp
        simp [hsub p hp]
      · simp only [List.any_eq_false]
        intro p hp
        simp [hsub p hp]
    rw [hfilter]
    cases self
    simp_all

end valuest

/-! ## Theorems on `merge` -/

namespace valuest

/-- C1: for non-bottom `self` and `other`, `merge` leaves `self` non-bottom, its map is the
intersection of both maps on equal (variable, value) pairs, the result is `true` exactly
when a binding of `self` was removed, and a variable bound to different values on the two
sides is unbound afterwards. -/
theorem merge_is_intersection (self other : valuest)
    (hs : self.is_bottom = false) (ho : other.is_bottom = false) :
    (self.merge other).1.is_bottom = false ∧
    (∀ v c, (self.merge other).1.replace_const.find v = some c ↔
      (self.replace_const.find v = some c ∧ other.replace_const.find v = some c)) ∧
    ((self.merge other).2 = true ↔
      ∃ v c, self.replace_const.find v = some c ∧
        (self.merge other).1.replace_const.find v ≠ some c) ∧
    (∀ x c c', self.replace_const.find x = some c → other.replace_const.find x = some c' →
      c ≠ c' → (self.merge other).1.replace_const.find x = none) := by
  refine ⟨merge_non_bottom_flag self other hs ho, merge_non_bottom_find self other hs ho,
    ?_, ?_⟩
  · rw [merge_non_bottom_changed self other hs ho]
    constructor
    · rintro ⟨v, c, h1, h2⟩
      exact ⟨v, c, h1, fun h3 => h2 ((merge_non_bottom_find self other hs ho v c).1 h3).2⟩
    · rintro ⟨v, c, h1, h2⟩
      exact ⟨v, c, h1, fun h3 => h2 ((merge_non_bottom_find self other hs ho v c).2 ⟨h1, h3⟩)⟩
  · intro x c c' h1 h2 hne
    cases hf : (self.merge other).1.replace_const.find x with
    | none => rfl
    | some d =>
      have := (merge_non_bottom_find self other hs ho x d).1 hf
      rw [h1, h2] at this
      exact absurd ((Option.some.inj this.1).trans (Option.some.inj this.2).symm) hne

/-- Witness for C1: `x` bound to `5` on one side and to `7` on the other is unbound at the
join, and the merge reports a change. -/
theorem merge_is_intersection_witness :
    (demo.x5.merge demo.x7).1.replace_const.find "x" = none ∧
    (demo.x5.merge demo.x7).2 = true :=
  ⟨(merge_is_intersection demo.x5 demo.x7 rfl rfl).2.2.2 "x" (demo.lit "5") (demo.lit "7")
      (by decide) (by decide) (by decide),
   by decide⟩

/-- Outside the state invariant: an argument flagged bottom that still holds a binding is
taken as bottom, so the receiver keeps its own (empty) map. -/
theorem merge_bottom_flagged_argument :
    demo.bottom.is_bottom = true ∧
    (demo.bottom.merge demo.bottom_x5).1.replace_const ≠ demo.bottom_x5.replace_const := by
  decide

/-- C2: bottom is a two-sided identity of `merge`. States satisfy the state invariant "bottom
implies empty map" (asserted in `output`, line 380, and kept by every mutator). For a bottom
receiver and every state `X`, merging `X` into the receiver makes the receiver equal to `X`
(same map, same flag; so `merge(bottom, bottom)` stays bottom) and returns `true` exactly
when `X` is not bottom; and for every receiver `Y`, merging a bottom argument leaves `Y`
unchanged and returns `false`. -/
theorem merge_bottom_identity (recv X : valuest) (hr : recv.is_bottom = true)
    (hri : recv.invariant) (hX : X.invariant) :
    (recv.merge X).1 = X ∧
    ((recv.merge X).2 = true ↔ X.is_bottom = false) ∧
    (∀ Y b : valuest, b.is_bottom = true → Y.merge b = (Y, false)) := by
  refine ⟨?_, ?_, fun Y b hb => merge_of_src_bottom Y b hb⟩
  · cases hb : X.is_bottom with
    | false => rw [merge_of_self_bottom recv X hr hb]
    | true =>
      rw [merge_of_src_bottom recv X hb]
      have h1 := (is_empty_iff recv).1 (hri hr)
      have h2 := (is_empty_iff X).1 (hX hb)
      cases recv with
      | mk rc b =>
        cases X with
        | mk rc' b' =>
          simp only at hr hb h1 h2 ⊢
          subst hr hb
          congr 1
          exact expr_mapt.ext_entries (h1.trans h2.symm)
  · cases hb : X.is_bottom with
    | false => simp [merge_of_self_bottom recv X hr hb]
    | true => simp [merge_of_src_bottom recv X hb]

/-- Witness for C2: merging the state `x = 5` into bottom yields `x = 5`. -/
theorem merge_bottom_identity_witness :
    (demo.bottom.merge demo.x5).1 = demo.x5 :=
  (merge_bottom_identity demo.bottom demo.x5 rfl (by decide) (by decide)).1

/-- C3: `merge` is idempotent: a state satisfying "bottom implies empty map" merged with
itself is unchanged and the result is `false`; and for all `a`, `b`, merging `b` again into
the result of merging `b` into `a` changes nothing and returns `false`. -/
theorem merge_idempotent (a b : valuest) :
    (a.invariant → a.merge a = (a, false)) ∧
    (a.merge b).1.merge b = ((a.merge b).1, false) := by
  constructor
  · intro _
    cases hb : a.is_bottom with
    | true => exact merge_of_src_bottom a a hb
    | false =>
      exact merge_eq_self_of_subset a a hb hb
        (fun p hp => (expr_mapt.find_eq_some_iff _ _ _).2 hp)
  · cases hb : b.is_bottom with
    | true => exact merge_of_src_bottom _ b hb
    | false =>
      cases hab : a.is_bottom with
      | true =>
        rw [merge_of_self_bottom a b hab hb]
        exact merge_eq_self_of_subset b b hb hb
          (fun p hp => (expr_mapt.find_eq_some_iff _ _ _).2 hp)
      | false =>
        refine merge_eq_self_of_subset _ b (merge_non_bottom_flag a b hab hb) hb ?_
        intro p hp
        have := (expr_mapt.find_eq_some_iff _ _ _).2 hp
        exact ((merge_non_bottom_find a b hab hb p.1 p.2).1 this).2

/-- Witness for C3 on the state `x = 5, y = 1` and the argument `x = 5`. -/
theorem merge_idempotent_witness :
    demo.x5y1.invariant ∧ demo.x5y1.merge demo.x5y1 = (demo.x5y1, false) ∧
    (demo.x5y1.merge demo.x5).1.merge demo.x5 = ((demo.x5y1.merge demo.x5).1, false) :=
  ⟨by decide, (merge_idempotent demo.x5y1 demo.x5).1 (by decide),
    (merge_idempotent demo.x5y1 demo.x5).2⟩

/-- C4: `merge` computes the least upper bound for the order `below`: for `a`, `b` satisfying
"bottom implies empty map", the result `r` of merging `b` into `a` is above `a` and above `b`,
it holds no binding that a non-bottom input lacks, and every state above both `a` and `b`
is above `r`. -/
theorem merge_is_least_upper_bound (a b : valuest) (ha : a.invariant) (hb : b.invariant) :
    a.below (a.merge b).1 ∧ b.below (a.merge b).1 ∧
    (a.is_bottom = false → ∀ v c, (a.merge b).1.replace_const.find v = some c →
      a.replace_const.find v = some c) ∧
    (b.is_bottom = false → ∀ v c, (a.merge b).1.replace_const.find v = some c →
      b.replace_const.find v = some c) ∧
    (∀ u : valuest, a.below u → b.below u → (a.merge b).1.below u) := by
  cases hbb : b.is_bottom with
  | true =>
    rw [merge_of_src_bottom a b hbb]
    refine ⟨?_, Or.inl hbb, fun _ _ _ h => h, fun h => by simp at h, fun u hu _ => hu⟩
    cases hab : a.is_bottom with
    | true => exact Or.inl hab
    | false =>
      exact Or.inr ⟨hab, fun p hp => (expr_mapt.find_eq_some_iff _ _ _).2 hp⟩
  | false =>
    cases hab : a.is_bottom with
    | true =>
      rw [merge_of_self_bottom a b hab hbb]
      refine ⟨Or.inl hab, Or.inr ⟨hbb, fun p hp => (expr_mapt.find_eq_some_iff _ _ _).2 hp⟩,
        fun h => by simp at h, fun _ _ _ h => h, fun u _ hu => hu⟩
    | false =>
      have hflag := merge_non_bottom_flag a b hab hbb
      have hfind := merge_non_bottom_find a b hab hbb
      refine ⟨Or.inr ⟨hflag, fun p hp => ?_⟩, Or.inr ⟨hflag, fun p hp => ?_⟩,
        fun _ v c h => ((hfind v c).1 h).1, fun _ v c h => ((hfind v c).1 h).2, ?_⟩
      · exact ((hfind p.1 p.2).1 ((expr_mapt.find_eq_some_iff _ _ _).2 hp)).1
      · exact ((hfind p.1 p.2).1 ((expr_mapt.find_eq_some_iff _ _ _).2 hp)).2
      · intro u hau hbu
        rcases hau with hau | ⟨hu, hau⟩
        · rw [hab] at hau; cases hau
        rcases hbu with hbu | ⟨_, hbu⟩
        · rw [hbb] at hbu; cases hbu
        exact Or.inr ⟨hu, fun p hp => (hfind p.1 p.2).2 ⟨hau p hp, hbu p hp⟩⟩

/-- Witness for C4: the join of `x = 5, y = 1` and `x = 5` is above both, and below `top`. -/
theorem merge_is_least_upper_bound_witness :
    demo.x5y1.below (demo.x5y1.merge demo.x5).1 ∧
    demo.x5.below (demo.x5y1.merge demo.x5).1 ∧
    (demo.x5y1.below demo.top → demo.x5.below demo.top →
      (demo.x5y1.merge demo.x5).1.below demo.top) :=
  have h := merge_is_least_upper_bound demo.x5y1 demo.x5 (by decide) (by decide)
  ⟨h.1, h.2.1, h.2.2.2.2 demo.top⟩

end valuest

/-! ## Lemmas on `meet` -/

namespace valuest

theorem find_set_to (s : valuest) (id : irep_idt) (e : exprt) (k : irep_idt) :
    (s.set_to id e).replace_const.find k = if k = id then some e else s.replace_const.find k :=
  expr_mapt.find_set _ _ _ _

/-- The loop of `meet` when no visited binding conflicts with the receiver: it ends
normally, the receiver's map becomes the union, and the flag records an added binding. -/
theorem meet_loop_no_conflict (ns : namespacet) (l : List (irep_idt × exprt))
    (hl : (l.map Prod.fst).Nodup) (s : valuest) (changed : Bool)
    (hty : ∀ p ∈ l, s.replace_const.find p.1 = none →
      base_type_eq (ns.lookup p.1).type p.2.type ns = true)
    (hnc : ∀ p ∈ l, ∀ c, s.replace_const.find p.1 = some c → c = p.2) :
    ∃ r ch, meet_loop ns l s changed = .ok (r, ch) ∧ r.is_bottom = s.is_bottom ∧
      (∀ v, r.replace_const.find v = (s.replace_const.find v).or (l.lookup v)) ∧
      (ch = true ↔ changed = true ∨ ∃ p ∈ l, s.replace_const.find p.1 = none) := by
  induction l generalizing s changed with
  | nil =>
    exact ⟨s, changed, rfl, rfl, fun v => by simp, by simp⟩
  | cons m rest ih =>
    rw [List.map_cons, List.nodup_cons] at hl
    have hkey : ∀ p ∈ rest, p.1 ≠ m.1 := fun p hp h =>
      hl.1 (List.mem_map.2 ⟨p, hp, h⟩)
    have hlook : ∀ v, (m :: rest).lookup v = if v = m.1 then some m.2 else rest.lookup v := by
      intro v
      obtain ⟨k, e⟩ := m
      by_cases hv : v = k
      · simp [List.lookup, hv]
      · have hb : (v == k) = false := by simpa using hv
        simp [List.lookup, hb, hv]
    cases hf : s.replace_const.find m.1 with
    | some c =>
      have hc : c = m.2 := hnc m (List.mem_cons_self _ _) c hf
      obtain ⟨r, ch, h1, h2, h3, h4⟩ := ih hl.2 s changed
        (fun p hp => hty p (List.mem_cons_of_mem _ hp))
        (fun p hp => hnc p (List.mem_cons_of_mem _ hp))
      refine ⟨r, ch, ?_, h2, ?_, ?_⟩
      · simp only [meet_loop, hf, hc, bne_self_eq_false, Bool.false_eq_true, if_false]
        exact h1
      · intro v
        rw [h3 v, hlook v]
        by_cases hv : v = m.1
        · subst hv
          simp [hf]
        · simp [hv]
      · rw [h4]
        constructor
        · rintro (h | ⟨p, hp, hpn⟩)
          · exact Or.inl h
          · exact Or.inr ⟨p, List.mem_cons_of_mem _ hp, hpn⟩
        · rintro (h | ⟨p, hp, hpn⟩)
          · exact Or.inl h
          · rcases List.mem_cons.1 hp with rfl | hp
            · rw [hf] at hpn; cases hpn
            · exact Or.inr ⟨p, hp, hpn⟩
    | none =>
      have hte := hty m (List.mem_cons_self _ _) hf
      have hfind : ∀ p ∈ rest, (s.set_to m.1 m.2).replace_const.find p.1 =
          s.replace_const.find p.1 := by
        intro p hp
        rw [find_set_to, if_neg (hkey p hp)]
      obtain ⟨r, ch, h1, h2, h3, h4⟩ := ih hl.2 (s.set_to m.1 m.2) true
        (fun p hp hn => hty p (List.mem_cons_of_mem _ hp) (by rw [← hfind p hp]; exact hn))
        (fun p hp c hc => hnc p (List.mem_cons_of_mem _ hp) c (by rw [← hfind p hp]; exact hc))
      refine ⟨r, ch, ?_, h2, ?_, ?_⟩
      · simp only [meet_loop, hf, hte, if_true]
        exact h1
      · intro v
        rw [h3 v, hlook v, find_set_to]
        by_cases hv : v = m.1
        · subst hv
          simp [hf]
        · simp [hv]
      · rw [h4]
        simp only [true_or, true_iff]
        exact Or.inr ⟨m, List.mem_cons_self _ _, hf⟩

/-- The loop of `meet` when some visited binding conflicts with the receiver: the result is
bottom with an empty map and the flag is set. -/
theorem meet_loop_conflict (ns : namespacet) (l : List (irep_idt × exprt))
    (hl : (l.map Prod.fst).Nodup) (s : valuest) (changed : Bool)
    (hty : ∀ p ∈ l, s.replace_const.find p.1 = none →
      base_type_eq (ns.lookup p.1).type p.2.type ns = true)
    (hc : ∃ p ∈ l, ∃ c, s.replace_const.find p.1 = some c ∧ c ≠ p.2) :
    meet_loop ns l s changed = .ok (⟨expr_mapt.clear, true⟩, true) := by
  induction l generalizing s changed with
  | nil =>
    obtain ⟨p, hp, _⟩ := hc
    cases hp
  | cons m rest ih =>
    rw [List.map_cons, List.nodup_cons] at hl
    have hkey : ∀ p ∈ rest, p.1 ≠ m.1 := fun p hp h =>
      hl.1 (List.mem_map.2 ⟨p, hp, h⟩)
    cases hf : s.replace_const.find m.1 with
    | some c =>
      by_cases hcm : c = m.2
      · simp only [meet_loop, hf, hcm, bne_self_eq_false, Bool.false_eq_true, if_false]
        refine ih hl.2 s changed (fun p hp => hty p (List.mem_cons_of_mem _ hp)) ?_
        obtain ⟨p, hp, c', hc1, hc2⟩ := hc
        rcases List.mem_cons.1 hp with rfl | hp
        · rw [hf] at hc1
          exact absurd ((Option.some.inj hc1).symm.trans hcm) hc2
        · exact ⟨p, hp, c', hc1, hc2⟩
      · have hb : (c != m.2) = true := by simpa using hcm
        simp [meet_loop, hf, hb, set_to_bottom]
    | none =>
      have hte := hty m (List.mem_cons_self _ _) hf
      have hfind : ∀ p ∈ rest, (s.set_to m.1 m.2).replace_const.find p.1 =
          s.replace_const.find p.1 := by
        intro p hp
        rw [find_set_to, if_neg (hkey p hp)]
      simp only [meet_loop, hf, hte, if_true]
      refine ih hl.2 (s.set_to m.1 m.2) true
        (fun p hp hn => hty p (List.mem_cons_of_mem _ hp) (by rw [← hfind p hp]; exact hn)) ?_
      obtain ⟨p, hp, c', hc1, hc2⟩ := hc
      rcases List.mem_cons.1 hp with rfl | hp
      · rw [hf] at hc1; cases hc1
      · exact ⟨p, hp, c', by rw [hfind p hp]; exact hc1, hc2⟩

/-- A visiting order of the bindings of a map has distinct keys and looks up like the map. -/
theorem order_lookup (m : expr_mapt) (order : List (irep_idt × exprt))
    (hperm : order.Perm m.entries) :
    (order.map Prod.fst).Nodup ∧ ∀ v, order.lookup v = m.find v := by
  have hnd : (order.map Prod.fst).Nodup := (hperm.map Prod.fst).nodup_iff.2 m.nodup
  refine ⟨hnd, fun v => ?_⟩
  cases hf : m.find v with
  | none =>
    rw [expr_mapt.lookup_eq_none_iff]
    intro e he
    exact (expr_mapt.find_eq_none_iff m v).1 hf e (hperm.mem_iff.1 he)
  | some e =>
    rw [expr_mapt.lookup_eq_some_iff_mem hnd]
    exact hperm.mem_iff.2 ((expr_mapt.find_eq_some_iff m v e).1 hf)

/-- Summary of `meet` over non-bottom states, for any visiting order of the argument's
bindings, when the bindings to be added carry the declared types. -/
theorem meet_in_order_non_bottom (self other : valuest) (ns : namespacet)
    (order : List (irep_idt × exprt)) (hperm : order.Perm other.replace_const.entries)
    (hs : self.is_bottom = false) (ho : other.is_bottom = false)
    (hty : other.typed_where_unbound self ns) :
    ((∃ v c c', self.replace_const.find v = some c ∧ other.replace_const.find v = some c' ∧
        c ≠ c') →
      self.meet_in_order other.is_bottom order ns = .ok (⟨expr_mapt.clear, true⟩, true)) ∧
    ((¬ ∃ v c c', self.replace_const.find v = some c ∧ other.replace_const.find v = some c' ∧
        c ≠ c') →
      ∃ r ch, self.meet_in_order other.is_bottom order ns = .ok (r, ch) ∧
        r.is_bottom = false ∧
        (∀ v, r.replace_const.find v =
          (self.replace_const.find v).or (other.replace_const.find v)) ∧
        (ch = true ↔ ∃ v c, other.replace_const.find v = some c ∧
          self.replace_const.find v = none)) := by
  obtain ⟨hnd, hlook⟩ := order_lookup other.replace_const order hperm
  have hmem : ∀ p, p ∈ order ↔ other.replace_const.find p.1 = some p.2 := fun p => by
    rw [expr_mapt.find_eq_some_iff]; exact hperm.mem_iff
  have hty' : ∀ p ∈ order, self.replace_const.find p.1 = none →
      base_type_eq (ns.lookup p.1).type p.2.type ns = true :=
    fun p hp => hty p (hperm.mem_iff.1 hp)
  have hunf : self.meet_in_order other.is_bottom order ns = meet_loop ns order self false := by
    simp [meet_in_order, hs, ho]
  rw [hunf]
  constructor
  · rintro ⟨v, c, c', h1, h2, h3⟩
    exact meet_loop_conflict ns order hnd self false hty'
      ⟨(v, c'), (hmem (v, c')).2 h2, c, h1, h3⟩
  · intro hno
    obtain ⟨r, ch, h1, h2, h3, h4⟩ := meet_loop_no_conflict ns order hnd self false hty'
      (fun p hp c hc => by
        by_contra hne
        exact hno ⟨p.1, c, p.2, hc, (hmem p).1 hp, hne⟩)
    refine ⟨r, ch, h1, h2.trans hs, fun v => by rw [h3 v, hlook v], ?_⟩
    rw [h4]
    simp only [Bool.false_eq_true, false_or]
    constructor
    · rintro ⟨p, hp, hpn⟩
      exact ⟨p.1, p.2, (hmem p).1 hp, hpn⟩
    · rintro ⟨v, c, h1, h2⟩
      exact ⟨(v, c), (hmem (v, c)).2 h1, h2⟩

theorem below_iff (a b : valuest) :
    a.below b ↔ a.is_bottom = true ∨ (b.is_bottom = false ∧
      ∀ v c, b.replace_const.find v = some c → a.replace_const.find v = some c) := by
  unfold below
  constructor
  · rintro (h | ⟨h1, h2⟩)
    · exact Or.inl h
    · exact Or.inr ⟨h1, fun v c hv => h2 (v, c) ((expr_mapt.find_eq_some_iff _ _ _).1 hv)⟩
  · rintro (h | ⟨h1, h2⟩)
    · exact Or.inl h
    · exact Or.inr ⟨h1, fun p hp => h2 p.1 p.2 ((expr_mapt.find_eq_some_iff _ _ _).2 hp)⟩

end valuest

/-! ## Theorems on `meet` and `set_dirty_to_top` -/

namespace valuest

/-- C5, as stated, fails: a binding of `other` that `self` lacks and whose type is not the
declared type of its variable makes `meet` stop at its `DATA_INVARIANT` instead of adding
the binding; with a conflicting binding next to it, the outcome depends on the order in
which the bindings are visited. -/
theorem meet_reference_counterexample :
    demo.top.is_bottom = false ∧ demo.b_true.is_bottom = false ∧
    demo.top.meet demo.b_true demo.ns =
      .error "type of constant to be stored should match" ∧
    demo.x5.meet_in_order false [("x", demo.lit "7"), ("b", demo.lit_true)] demo.ns =
      .ok (⟨expr_mapt.clear, true⟩, true) ∧
    demo.x5.meet_in_order false [("b", demo.lit_true), ("x", demo.lit "7")] demo.ns =
      .error "type of constant to be stored should match" := by
  decide

/-- C5, amended: for every visiting `order` of the bindings of `other`, `meet` does this:
if either side is bottom, `self` is unchanged and `false` is returned; otherwise, provided
every binding of `other` that `self` lacks carries the declared type of its variable: if
some variable is bound in both to different values, `self` becomes bottom with an empty map
and `true` is returned, and if not, `self` stays non-bottom, its map becomes the union of
both maps and `true` is returned iff `other` has a binding that `self` lacked. `meet` itself
is the instance that visits `other.replace_const.entries` in their order. -/
theorem meet_matches_reference (self other : valuest) (ns : namespacet)
    (order : List (irep_idt × exprt)) (hperm : order.Perm other.replace_const.entries) :
    self.meet other ns = self.meet_in_order other.is_bottom other.replace_const.entries ns ∧
    ((self.is_bottom = true ∨ other.is_bottom = true) →
      self.meet_in_order other.is_bottom order ns = .ok (self, false)) ∧
    (self.is_bottom = false → other.is_bottom = false →
      other.typed_where_unbound self ns →
      ((∃ v c c', self.replace_const.find v = some c ∧
          other.replace_const.find v = some c' ∧ c ≠ c') →
        self.meet_in_order other.is_bottom order ns =
          .ok (⟨expr_mapt.clear, true⟩, true)) ∧
      ((¬ ∃ v c c', self.replace_const.find v = some c ∧
          other.replace_const.find v = some c' ∧ c ≠ c') →
        ∃ r ch, self.meet_in_order other.is_bottom order ns = .ok (r, ch) ∧
          r.is_bottom = false ∧
          (∀ v, r.replace_const.find v =
            (self.replace_const.find v).or (other.replace_const.find v)) ∧
          (ch = true ↔ ∃ v c, other.replace_const.find v = some c ∧
            self.replace_const.find v = none))) := by
  refine ⟨rfl, ?_, fun hs ho hty => meet_in_order_non_bottom self other ns order hperm hs ho hty⟩
  rintro (h | h) <;> simp [meet_in_order, h]

/-- Witness for C5 (amended): meeting `x = 5, y = 1` into `x = 5`, visiting `y` before `x`,
adds `y` and reports a change. -/
theorem meet_matches_reference_witness :
    ∃ r ch, demo.x5.meet_in_order false [("y", demo.lit "1"), ("x", demo.lit "5")] demo.ns =
        .ok (r, ch) ∧
      r.is_bottom = false ∧
      (∀ v, r.replace_const.find v =
        (demo.x5.replace_const.find v).or (demo.x5y1.replace_const.find v)) ∧
      (ch = true ↔ ∃ v c, demo.x5y1.replace_const.find v = some c ∧
        demo.x5.replace_const.find v = none) :=
  ((meet_matches_reference demo.x5 demo.x5y1 demo.ns
      [("y", demo.lit "1"), ("x", demo.lit "5")] (List.Perm.swap _ _ [])).2.2
    rfl rfl (by decide)).2 (by
      rintro ⟨v, c, c', h1, h2, h3⟩
      rw [expr_mapt.find_eq_some_iff] at h1 h2
      simp only [demo.x5, demo.x5y1, List.mem_cons, List.mem_singleton, Prod.mk.injEq,
        List.not_mem_nil, or_false] at h1 h2
      rcases h2 with ⟨hv, rfl⟩ | ⟨hv, rfl⟩
      · exact h3 h1.2
      · rw [h1.1] at hv
        revert hv
        decide)

/-- C6, as stated, fails: with `a = a' = top`, `b = bottom` and `b' = (x = 5)` all
hypotheses hold, `meet` leaves `a` at top (a bottom argument is a no-op) and takes `a'` to
`x = 5`, and top is not below `x = 5`. -/
theorem meet_monotone_counterexample :
    demo.top.invariant ∧ demo.bottom.invariant ∧ demo.x5.invariant ∧
    demo.top.below demo.top ∧ demo.bottom.below demo.x5 ∧
    demo.top.meet demo.bottom demo.ns = .ok (demo.top, false) ∧
    demo.top.meet demo.x5 demo.ns = .ok (demo.x5, true) ∧
    ¬ demo.top.below demo.x5 := by
  decide

/-- Under the typing condition `meet` over non-bottom states ends normally. -/
theorem meet_ok_of_typed (self other : valuest) (ns : namespacet)
    (hty : other.typed_where_unbound self ns) :
    ∃ r, self.meet other ns = .ok r := by
  cases hs : self.is_bottom with
  | true => exact ⟨(self, false), by simp [meet, meet_in_order, hs]⟩
  | false =>
    cases ho : other.is_bottom with
    | true => exact ⟨(self, false), by simp [meet, meet_in_order, ho]⟩
    | false =>
      have h := meet_in_order_non_bottom self other ns other.replace_const.entries
        (List.Perm.refl _) hs ho hty
      by_cases hc : ∃ v c c', self.replace_const.find v = some c ∧
          other.replace_const.find v = some c' ∧ c ≠ c'
      · exact ⟨_, h.1 hc⟩
      · obtain ⟨r, ch, h1, _⟩ := h.2 hc
        exact ⟨(r, ch), h1⟩

/-- C6, amended: `meet` is monotone in both arguments once the bottom argument is kept out
of the comparison: for states satisfying "bottom implies empty map" with `a` below `a'` and
`b` below `b'`, where `b` is bottom only if `b'` is, and where the bindings that each meet
adds carry the declared types of their variables, both meets end normally and the state
produced by meeting `b` into `a` is below the one produced by meeting `b'` into `a'`. -/
theorem meet_monotone (a a' b b' : valuest) (ns : namespacet)
    (ha : a.invariant) (ha' : a'.invariant) (hb : b.invariant) (hb' : b'.invariant)
    (haa : a.below a') (hbb : b.below b')
    (hbot : b.is_bottom = true → b'.is_bottom = true)
    (hty : b.typed_where_unbound a ns) (hty' : b'.typed_where_unbound a' ns) :
    ∃ r r', a.meet b ns = .ok r ∧ a'.meet b' ns = .ok r' ∧ r.1.below r'.1 := by
  obtain ⟨r', hr'⟩ := meet_ok_of_typed a' b' ns hty'
  cases hab : a.is_bottom with
  | true =>
    exact ⟨(a, false), r', by simp [meet, meet_in_order, hab], hr', Or.inl hab⟩
  | false =>
    rw [below_iff] at haa hbb
    rcases haa with haa | ⟨ha'b, haa⟩
    · rw [hab] at haa; cases haa
    cases hbbot : b.is_bottom with
    | true =>
      refine ⟨(a, false), (a', false), by simp [meet, meet_in_order, hbbot],
        by simp [meet, meet_in_order, hbot hbbot], ?_⟩
      exact (below_iff a a').2 (Or.inr ⟨ha'b, haa⟩)
    | false =>
      rcases hbb with hbb | ⟨hb'b, hbb⟩
      · rw [hbbot] at hbb; cases hbb
      have h := meet_in_order_non_bottom a b ns b.replace_const.entries
        (List.Perm.refl _) hab hbbot hty
      by_cases hc : ∃ v c c', a.replace_const.find v = some c ∧
          b.replace_const.find v = some c' ∧ c ≠ c'
      · exact ⟨_, r', h.1 hc, hr', Or.inl rfl⟩
      · obtain ⟨r, ch, h1, h2, h3, _⟩ := h.2 hc
        have hc' : ¬ ∃ v c c', a'.replace_const.find v = some c ∧
            b'.replace_const.find v = some c' ∧ c ≠ c' := by
          rintro ⟨v, c, c', k1, k2, k3⟩
          exact hc ⟨v, c, c', haa v c k1, hbb v c' k2, k3⟩
        obtain ⟨s, ch', g1, g2, g3, _⟩ :=
          (meet_in_order_non_bottom a' b' ns b'.replace_const.entries
            (List.Perm.refl _) ha'b hb'b hty').2 hc'
        refine ⟨(r, ch), (s, ch'), h1, g1, (below_iff r s).2 (Or.inr ⟨g2, ?_⟩)⟩
        intro v c hv
        rw [g3 v] at hv
        rw [h3 v]
        cases hfa' : a'.replace_const.find v with
        | some c0 =>
          rw [hfa'] at hv
          simp only [Option.or_some] at hv
          rw [haa v c0 hfa']
          simpa using hv
        | none =>
          rw [hfa'] at hv
          simp only [Option.none_or] at hv
          have hbv := hbb v c hv
          cases hfa : a.replace_const.find v with
          | none => simpa using hbv
          | some c1 =>
            have : c1 = c := by
              by_contra hne
              exact hc ⟨v, c1, c, hfa, hbv, hne⟩
            simp [this]

/-- Witness for C6 (amended): with `a = (x = 5, y = 1)`, `a' = (x = 5)`, `b = (x = 5, y = 1)`
and `b' = top`. -/
theorem meet_monotone_witness :
    ∃ r r', demo.x5y1.meet demo.x5y1 demo.ns = .ok r ∧ demo.x5.meet demo.top demo.ns = .ok r' ∧
      r.1.below r'.1 :=
  meet_monotone demo.x5y1 demo.x5 demo.x5y1 demo.top demo.ns
    (by decide) (by decide) (by decide) (by decide) (by decide) (by decide)
    (by decide) (by decide) (by decide)

/-- C7: `set_dirty_to_top` keeps exactly the bindings of variables whose declared type is
marked constant or that are procedure-local and not dirty; kept bindings keep their values,
none is added, the bottom flag is unchanged; every binding of a constant-declared variable
survives. -/
theorem set_dirty_to_top_keeps (self : valuest) (dirty : dirtyt) (ns : namespacet) :
    (∀ v c, (self.set_dirty_to_top dirty ns).replace_const.find v = some c ↔
      (self.replace_const.find v = some c ∧
        ((ns.lookup v).type.C_constant = true ∨
          ((ns.lookup v).is_procedure_local = true ∧ dirty v = false)))) ∧
    (self.set_dirty_to_top dirty ns).is_bottom = self.is_bottom ∧
    (∀ v c, (ns.lookup v).type.C_constant = true → self.replace_const.find v = some c →
      (self.set_dirty_to_top dirty ns).replace_const.find v = some c) := by
  have key : ∀ v c, (self.set_dirty_to_top dirty ns).replace_const.find v = some c ↔
      (self.replace_const.find v = some c ∧
        ((ns.lookup v).type.C_constant = true ∨
          ((ns.lookup v).is_procedure_local = true ∧ dirty v = false))) := by
    intro v c
    simp only [set_dirty_to_top, expr_mapt.find_erase_if]
    refine and_congr_right (fun _ => ?_)
    cases (ns.lookup v).type.C_constant <;> cases (ns.lookup v).is_procedure_local <;>
      cases dirty v <;> simp
  exact ⟨key, rfl, fun v c hc hf => (key v c).2 ⟨hf, Or.inl hc⟩⟩

end valuest

/-! ## Theorems on `is_constant` -/

namespace valuest

theorem mem_subexprs_self (e : exprt) : e ∈ e.subexprs := by
  cases e
  rw [exprt.subexprs]
  exact List.mem_cons_self _ _

theorem mem_subexprs_of_operand (i : irep_idt) (t : typet) (n st v : irep_idt)
    (ops : List exprt) (s : exprt) (hs : s ∈ exprt.subexprs_list ops) :
    s ∈ (exprt.mk i t n st v ops).subexprs := by
  rw [exprt.subexprs]
  exact List.mem_cons_of_mem _ hs

/-- One node of `is_constant`, given the answer of the operand loop. -/
theorem is_constant_node (self : valuest) (i : irep_idt) (t : typet) (n st v : irep_idt)
    (ops : List exprt) (hroot : i ≠ ID_address_of)
    (hops : self.is_constant_operands ops =
      some ((exprt.subexprs_list ops).all (fun s => !self.blocks s))) :
    self.is_constant (.mk i t n st v ops) =
      some ((exprt.mk i t n st v ops).subexprs.all (fun s => !self.blocks s)) := by
  have hblk : self.blocks (.mk i t n st v ops) =
      ((i == ID_side_effect && st == ID_nondet) ||
       (i == ID_side_effect && st == ID_allocate) ||
       (i == ID_index) ||
       (i == ID_symbol && !self.replaces_symbol n)) := rfl
  rw [is_constant.eq_def, exprt.subexprs, List.all_cons, hblk]
  simp only []
  by_cases h1 : i = ID_side_effect ∧ st = ID_nondet
  · simp [h1.1, h1.2]
  rw [if_neg h1]
  by_cases h2 : i = ID_side_effect ∧ st = ID_allocate
  · simp [h2.1, h2.2]
  rw [if_neg h2]
  by_cases h3 : i = ID_symbol ∧ self.replaces_symbol n = false
  · simp [h3.1, h3.2]
  rw [if_neg h3]
  by_cases h4 : i = ID_index
  · simp [h4]
  rw [if_neg h4, if_neg hroot, hops]
  have e1 : (i == ID_side_effect && st == ID_nondet) = false := by
    simpa using h1
  have e2 : (i == ID_side_effect && st == ID_allocate) = false := by
    simpa using h2
  have e3 : (i == ID_symbol && !self.replaces_symbol n) = false := by
    simpa using h3
  have e4 : (i == ID_index) = false := by simpa using h4
  rw [e1, e2, e3, e4]
  rfl

/-- One step of the operand loop of `is_constant`. -/
theorem is_constant_operands_step (self : valuest) (e : exprt) (es : List exprt)
    (he : self.is_constant e = some (e.subexprs.all (fun s => !self.blocks s)))
    (hes : self.is_constant_operands es =
      some ((exprt.subexprs_list es).all (fun s => !self.blocks s))) :
    self.is_constant_operands (e :: es) =
      some ((exprt.subexprs_list (e :: es)).all (fun s => !self.blocks s)) := by
  rw [is_constant_operands, exprt.subexprs_list, List.all_append, he]
  cases hb : (e.subexprs.all (fun s => !self.blocks s)) with
  | true => simp [hes]
  | false => simp

mutual
/-- Without address-of nodes, `is_constant` answers, and it answers `true` exactly when no
node of the expression is of a blocking kind. -/
theorem is_constant_eq_all (self : valuest) :
    ∀ e : exprt, (∀ s ∈ e.subexprs, s.id ≠ ID_address_of) →
      self.is_constant e = some (e.subexprs.all (fun s => !self.blocks s))
  | .mk i t n st v ops, h =>
    is_constant_node self i t n st v ops (h _ (mem_subexprs_self _))
      (is_constant_operands_eq_all self ops
        (fun s hs => h s (mem_subexprs_of_operand i t n st v ops s hs)))
/-- The operand loop of `is_constant`, without address-of nodes. -/
theorem is_constant_operands_eq_all (self : valuest) :
    ∀ ops : List exprt, (∀ s ∈ exprt.subexprs_list ops, s.id ≠ ID_address_of) →
      self.is_constant_operands ops =
        some ((exprt.subexprs_list ops).all (fun s => !self.blocks s))
  | [], _ => rfl
  | e :: es, h =>
    is_constant_operands_step self e es
      (is_constant_eq_all self e
        (fun s hs => h s (List.mem_append_left _ hs)))
      (is_constant_operands_eq_all self es
        (fun s hs => h s (List.mem_append_right _ hs)))
end

/-- The operand loop answers `true` exactly when `is_constant` does on every operand,
provided `is_constant` answers on every operand. -/
theorem is_constant_operands_true_iff (self : valuest) (ops : List exprt)
    (h : ∀ op ∈ ops, self.is_constant op ≠ none) :
    self.is_constant_operands ops = some true ↔
      ∀ op ∈ ops, self.is_constant op = some true := by
  induction ops with
  | nil => rw [is_constant_operands]; simp
  | cons e es ih =>
    have ih' := ih (fun op hop => h op (List.mem_cons_of_mem _ hop))
    rw [is_constant_operands]
    simp only [List.mem_cons, forall_eq_or_imp]
    cases he : self.is_constant e with
    | none => exact absurd he (h e (List.mem_cons_self _ _))
    | some b =>
      cases b with
      | true => simpa using ih'
      | false => simp

end valuest

namespace valuest

theorem mem_subexprs_list_of_mem (ops : List exprt) (op : exprt) (hop : op ∈ ops)
    (s : exprt) (hs : s ∈ op.subexprs) : s ∈ exprt.subexprs_list ops := by
  induction ops with
  | nil => cases hop
  | cons o os ih =>
    rw [exprt.subexprs_list]
    rcases List.mem_cons.1 hop with rfl | hop'
    · exact List.mem_append_left _ hs
    · exact List.mem_append_right _ (ih hop')

/-- An index expression is excluded before its operands are looked at: `x[1]` has operands
that are all constant in the state `x = 5`, and `is_constant` answers `false` for it. -/
theorem is_constant_index_expression :
    (∀ s ∈ (demo.index (demo.sym "x") (demo.lit "1")).subexprs, s.id ≠ ID_address_of) ∧
    (∀ op ∈ (demo.index (demo.sym "x") (demo.lit "1")).operands,
      demo.x5.is_constant op = some true) ∧
    demo.x5.is_constant (demo.index (demo.sym "x") (demo.lit "1")) = some false := by
  decide

/-- C8: for every state and every expression without address-of node, `is_constant` answers,
and it is `true` iff no node of the expression (the root included) is a nondet side effect,
an allocate side effect, an index expression or a symbol unbound in the state (`blocks`). In
particular a bare variable is constant iff it is bound, and an expression with operands, one
that the earlier rules do not already settle, is constant iff every operand is constant. -/
theorem is_constant_characterisation (self : valuest) (e : exprt)
    (hno : ∀ s ∈ e.subexprs, s.id ≠ ID_address_of) :
    (self.is_constant e = some true ∨ self.is_constant e = some false) ∧
    (self.is_constant e = some true ↔ ∀ s ∈ e.subexprs, self.blocks s = false) ∧
    (e.id = ID_symbol → e.operands = [] →
      (self.is_constant e = some true ↔
        (self.replace_const.find e.get_identifier).isSome = true)) ∧
    (self.blocks e = false →
      (self.is_constant e = some true ↔
        ∀ op ∈ e.operands, self.is_constant op = some true)) := by
  have hall := is_constant_eq_all self e hno
  have hmain : self.is_constant e = some true ↔ ∀ s ∈ e.subexprs, self.blocks s = false := by
    rw [hall]
    simp [List.all_eq_true]
  obtain ⟨i, t, n, st, v, ops⟩ := e
  have hsub : ∀ s ∈ exprt.subexprs_list ops, s.id ≠ ID_address_of :=
    fun s hs => hno s (mem_subexprs_of_operand i t n st v ops s hs)
  have hopsall := is_constant_operands_eq_all self ops hsub
  have hsplit : self.is_constant (.mk i t n st v ops) =
      some (!self.blocks (.mk i t n st v ops) &&
        (exprt.subexprs_list ops).all (fun s => !self.blocks s)) := by
    rw [hall, exprt.subexprs, List.all_cons]
  refine ⟨?_, hmain, ?_, ?_⟩
  · rw [hall]
    cases (exprt.mk i t n st v ops).subexprs.all (fun s => !self.blocks s) <;> simp
  · intro hid hops
    simp only [exprt.id, exprt.operands, exprt.get_identifier] at hid hops ⊢
    subst hid hops
    rw [hsplit]
    have hblk : self.blocks (.mk ID_symbol t n st v []) = !self.replaces_symbol n := by
      simp [blocks, exprt.id, exprt.get_identifier, ID_symbol, ID_side_effect, ID_index]
    rw [hblk, exprt.subexprs_list]
    simp [replaces_symbol]
  · intro hb
    have hroot : self.is_constant (.mk i t n st v ops) = self.is_constant_operands ops := by
      rw [hsplit, hopsall, hb]
      rfl
    rw [hroot]
    refine is_constant_operands_true_iff self ops (fun op hop => ?_)
    rw [is_constant_eq_all self op
      (fun s hs => hsub s (mem_subexprs_list_of_mem ops op hop s hs))]
    exact Option.some_ne_none _

/-- Witness for C8: `x + 1` is constant in the state `x = 5`. -/
theorem is_constant_characterisation_witness :
    demo.x5.is_constant (demo.plus (demo.sym "x") (demo.lit "1")) = some true :=
  (is_constant_characterisation demo.x5 (demo.plus (demo.sym "x") (demo.lit "1"))
    (by decide)).2.1.2 (by decide)

end valuest

/-! ## Theorems on `set_to_top`, `assign_rec` and `transform` -/

namespace valuest

/-- Result of `set_to_top(id)` when the invariant check passes. -/
theorem set_to_top_id_ok (self : valuest) (id : irep_idt)
    (h : ¬ (self.is_bottom = true ∧ (self.replace_const.find id).isSome = true)) :
    ∃ r, self.set_to_top_id id = .ok r ∧ r.1.is_bottom = self.is_bottom ∧
      r.1.replace_const.find id = none ∧
      (∀ y, y ≠ id → r.1.replace_const.find y = self.replace_const.find y) ∧
      (r.2 = true ↔ (self.replace_const.find id).isSome = true) := by
  have hcond : (self.replace_const.erase id).2 = 0 ∨ self.is_bottom = false := by
    by_cases hb : self.is_bottom = true
    · left
      by_contra hne
      exact h ⟨hb, (expr_mapt.erase_count_pos _ _).1 (Nat.pos_of_ne_zero hne)⟩
    · right
      simpa using hb
  refine ⟨({ self with replace_const := (self.replace_const.erase id).1 },
    decide ((self.replace_const.erase id).2 > 0)),
    by simp only [set_to_top_id, if_pos hcond], rfl, ?_, ?_, ?_⟩
  · simp [expr_mapt.find_erase]
  · intro y hy
    simp [expr_mapt.find_erase, hy]
  · simp only [decide_eq_true_eq, gt_iff_lt]
    exact expr_mapt.erase_count_pos _ _

/-- Result of `set_to_top(id)` on a state flagged bottom that binds `id`. -/
theorem set_to_top_id_error (self : valuest) (id : irep_idt)
    (hb : self.is_bottom = true) (hf : (self.replace_const.find id).isSome = true) :
    self.set_to_top_id id = .error "bottom should have no elements at all" := by
  have hpos := (expr_mapt.erase_count_pos _ _).2 hf
  have hcond : ¬ ((self.replace_const.erase id).2 = 0 ∨ self.is_bottom = false) := by
    rintro (h | h)
    · omega
    · rw [hb] at h; cases h
  simp only [set_to_top_id, if_neg hcond]

end valuest

namespace constant_propagator_domaint

/-- C9, as stated, fails: when the right-hand side evaluates to a literal whose type is not
the declared type of the variable (`x`, an integer, assigned the boolean literal `true`),
`assign_rec` stops at its `DATA_INVARIANT` and yields no state, rather than unbinding `x`. -/
theorem assign_rec_counterexample :
    (demo.sym "x").id = ID_symbol ∧
    ((partial_evaluate demo.ext_id ⟨demo.top⟩ demo.lit_true demo.ns).1).is_constant = true ∧
    ((partial_evaluate demo.ext_id ⟨demo.top⟩ demo.lit_true demo.ns).1).type ≠
      (demo.ns.lookup "x").type ∧
    assign_rec demo.ext_id ⟨demo.top⟩ demo.top (demo.sym "x") demo.lit_true demo.ns none =
      .error "type of constant to be replaced should match" := by
  decide

/-- C9, amended: `assign_rec` leaves `values` unchanged when `lhs` is not a plain symbol or
the policy declines to track it. Otherwise, with `r` the partial evaluation of `rhs` under the
current state: if `r` is a literal of the declared type of `lhs`, `lhs` is bound to `r`
afterwards; if `r` is a literal of another type, `assign_rec` fails with "type of constant to
be replaced should match"; if `r` is not a literal, `lhs` is unbound afterwards, unless
`values` is flagged bottom and binds `lhs`, in which case it fails with "bottom should have no
elements at all". Whenever a state is produced, no binding of another variable and not the
bottom flag has changed. -/
theorem assign_rec_effect (ext : externalst) (d : constant_propagator_domaint)
    (values : valuest) (lhs rhs : exprt) (ns : namespacet)
    (cp : Option constant_propagator_ait) :
    ((lhs.id ≠ ID_symbol ∨ ∃ c, cp = some c ∧ c.should_track_value lhs ns = false) →
      d.assign_rec ext values lhs rhs ns cp = .ok values) ∧
    (lhs.id = ID_symbol → (∀ c, cp = some c → c.should_track_value lhs ns = true) →
      ((d.partial_evaluate ext rhs ns).1.is_constant = true →
        base_type_eq (ns.lookup lhs.get_identifier).type
          (d.partial_evaluate ext rhs ns).1.type ns = true →
        ∃ r, d.assign_rec ext values lhs rhs ns cp = .ok r ∧
          r.replace_const.find lhs.get_identifier = some (d.partial_evaluate ext rhs ns).1 ∧
          (∀ y, y ≠ lhs.get_identifier →
            r.replace_const.find y = values.replace_const.find y) ∧
          r.is_bottom = values.is_bottom) ∧
      ((d.partial_evaluate ext rhs ns).1.is_constant = true →
        base_type_eq (ns.lookup lhs.get_identifier).type
          (d.partial_evaluate ext rhs ns).1.type ns = false →
        d.assign_rec ext values lhs rhs ns cp =
          .error "type of constant to be replaced should match") ∧
      ((d.partial_evaluate ext rhs ns).1.is_constant = false →
        ¬ (values.is_bottom = true ∧
          (values.replace_const.find lhs.get_identifier).isSome = true) →
        ∃ r, d.assign_rec ext values lhs rhs ns cp = .ok r ∧
          r.replace_const.find lhs.get_identifier = none ∧
          (∀ y, y ≠ lhs.get_identifier →
            r.replace_const.find y = values.replace_const.find y) ∧
          r.is_bottom = values.is_bottom) ∧
      ((d.partial_evaluate ext rhs ns).1.is_constant = false →
        values.is_bottom = true →
        (values.replace_const.find lhs.get_identifier).isSome = true →
        d.assign_rec ext values lhs rhs ns cp =
          .error "bottom should have no elements at all")) := by
  constructor
  · rintro (h | ⟨c, hc, ht⟩)
    · have hb : (lhs.id != ID_symbol) = true := by simpa using h
      simp only [assign_rec, hb, if_true]
    · subst hc
      by_cases hb : (lhs.id != ID_symbol) = true
      · simp only [assign_rec, hb, if_true]
      · simp only [assign_rec, hb, ht, Bool.not_false, if_true, Bool.false_eq_true, if_false]
  · intro hid htrack
    have hb : (lhs.id != ID_symbol) = false := by simpa using hid
    have hunf : d.assign_rec ext values lhs rhs ns cp =
        (if (d.partial_evaluate ext rhs ns).1.is_constant = true then
          if base_type_eq (ns.lookup lhs.get_identifier).type
              (d.partial_evaluate ext rhs ns).1.type ns = true then
            .ok (values.set_to lhs.get_identifier (d.partial_evaluate ext rhs ns).1)
          else .error "type of constant to be replaced should match"
        else
          match values.set_to_top_id lhs.get_identifier with
          | .ok r => .ok r.1
          | .error msg => .error msg) := by
      cases cp with
      | none => simp only [assign_rec, hb, Bool.false_eq_true, if_false]
      | some c =>
        simp only [assign_rec, hb, htrack c rfl, Bool.not_true, Bool.false_eq_true, if_false]
    rw [hunf]
    refine ⟨?_, ?_, ?_, ?_⟩
    · intro hc ht
      refine ⟨values.set_to lhs.get_identifier (d.partial_evaluate ext rhs ns).1,
        by rw [if_pos hc, if_pos ht], ?_, ?_, rfl⟩
      · simp [valuest.find_set_to]
      · intro y hy
        simp [valuest.find_set_to, hy]
    · intro hc ht
      rw [if_pos hc, if_neg (by simp [ht])]
    · intro hc hnb
      obtain ⟨r, h1, h2, h3, h4, _⟩ := valuest.set_to_top_id_ok values lhs.get_identifier hnb
      refine ⟨r.1, ?_, h3, h4, h2⟩
      rw [if_neg (by simp [hc]), h1]
    · intro hc hbot hbound
      rw [if_neg (by simp [hc]),
        valuest.set_to_top_id_error values lhs.get_identifier hbot hbound]

/-- Witness for C9 (amended): in the state `x = 5`, assigning the literal `7` to `x` binds `x`
to `7`, and assigning a nondet value to `x` unbinds it. -/
theorem assign_rec_effect_witness :
    (∃ r, assign_rec demo.ext_id ⟨demo.x5⟩ demo.x5 (demo.sym "x") (demo.lit "7") demo.ns none
        = .ok r ∧
      r.replace_const.find "x" = some (demo.lit "7")) ∧
    (∃ r, assign_rec demo.ext_id ⟨demo.x5⟩ demo.x5 (demo.sym "x") demo.nondet_int demo.ns none
        = .ok r ∧
      r.replace_const.find "x" = none) :=
  ⟨(((assign_rec_effect demo.ext_id ⟨demo.x5⟩ demo.x5 (demo.sym "x") (demo.lit "7") demo.ns
        none).2 (by decide) (by intro c hc; cases hc)).1 (by decide) (by decide)).imp
      (fun _ h => ⟨h.1, h.2.1⟩),
   (((assign_rec_effect demo.ext_id ⟨demo.x5⟩ demo.x5 (demo.sym "x") demo.nondet_int demo.ns
        none).2 (by decide) (by intro c hc; cases hc)).2.2.1 (by decide) (by decide)).imp
      (fun _ h => ⟨h.1, h.2.1⟩)⟩

/-- C10, the code at the failing inputs: the compiled body of `transform` is empty, so along
the edge leaving `x = 5` the state `top` stays `top` (`x` is not bound to `5`, although
`assign_rec` would bind it), and along the edge leaving `x = nondet()` the state `x = 5`
keeps `x` bound to `5`. -/
theorem transform_assign_is_identity :
    transform demo.ext_id ⟨demo.top⟩ demo.assign_x_5 demo.next_instruction none demo.ns =
      .ok ⟨demo.top⟩ ∧
    demo.top.replace_const.find "x" = none ∧
    assign_rec demo.ext_id ⟨demo.top⟩ demo.top (demo.sym "x") (demo.lit "5") demo.ns none =
      .ok demo.x5 ∧
    transform demo.ext_id ⟨demo.x5⟩ demo.assign_x_nondet demo.next_instruction none demo.ns =
      .ok ⟨demo.x5⟩ ∧
    demo.x5.replace_const.find "x" = some (demo.lit "5") := by
  decide

end constant_propagator_domaint

/-! ## Lemmas on partial evaluation -/

namespace constant_propagator_domaint

/-- Every rounding mode is one of the four that are tried. -/
theorem mem_rounding_modes (m : rounding_modet) : m ∈ rounding_modes := by
  cases m <;> decide

/-- The trial loop after its first iteration ends normally exactly when every remaining
trial reports a change and yields `first_result`. -/
theorem rounding_loop_pos (ext : externalst) (d : constant_propagator_domaint) (expr : exprt)
    (ns : namespacet) (l : List rounding_modet) (i : Nat) (hi : i ≠ 0) (first f : exprt) :
    rounding_loop ext d expr ns i l first = some f ↔
      (f = first ∧ ∀ m ∈ l, rounding_trial ext d expr ns m = (first, false)) := by
  induction l generalizing i with
  | nil =>
    simp only [rounding_loop, Option.some.injEq, List.not_mem_nil, false_implies,
      implies_true, and_true]
    exact eq_comm
  | cons m rest ih =>
    simp only [rounding_loop, hi, if_false, List.mem_cons, forall_eq_or_imp]
    cases hr : rounding_trial ext d expr ns m with
    | mk e b =>
      cases b with
      | true => simp
      | false =>
        by_cases he : e = first
        · subst he
          simp [ih (i + 1) (Nat.succ_ne_zero i)]
        · simp [he]

/-- The trial loop from its start ends normally exactly when every trial reports a change
and all yield the same expression. -/
theorem rounding_loop_zero (ext : externalst) (d : constant_propagator_domaint) (expr : exprt)
    (ns : namespacet) (m : rounding_modet) (rest : List rounding_modet) (first f : exprt) :
    rounding_loop ext d expr ns 0 (m :: rest) first = some f ↔
      ∀ m' ∈ m :: rest, rounding_trial ext d expr ns m' = (f, false) := by
  simp only [rounding_loop, if_true, List.mem_cons, forall_eq_or_imp]
  cases hr : rounding_trial ext d expr ns m with
  | mk e b =>
    cases b with
    | true => simp
    | false =>
      simp only [Bool.false_eq_true, if_false, Nat.zero_add,
        rounding_loop_pos ext d expr ns rest 1 Nat.one_ne_zero e f, Prod.mk.injEq, and_true]
      constructor
      · rintro ⟨rfl, h⟩
        exact ⟨rfl, h⟩
      · rintro ⟨rfl, h⟩
        exact ⟨rfl, h⟩

/-- When all trials report a change and agree, that result is adopted. -/
theorem all_rounding_modes_of_agree (ext : externalst) (d : constant_propagator_domaint)
    (expr : exprt) (ns : namespacet) (f : exprt)
    (h : ∀ m : rounding_modet, rounding_trial ext d expr ns m = (f, false)) :
    partial_evaluate_with_all_rounding_modes ext d expr ns = (f, false) := by
  have hl : rounding_loop ext d expr ns 0 rounding_modes nil_exprt = some f :=
    (rounding_loop_zero ext d expr ns _ _ nil_exprt f).2 (fun m _ => h m)
  simp only [partial_evaluate_with_all_rounding_modes, hl]

/-- When the all-modes evaluation reports a change, every trial reported a change and
yielded the adopted result. -/
theorem trials_of_all_rounding_modes_changed (ext : externalst)
    (d : constant_propagator_domaint) (expr : exprt) (ns : namespacet)
    (h : (partial_evaluate_with_all_rounding_modes ext d expr ns).2 = false)
    (m : rounding_modet) :
    rounding_trial ext d expr ns m =
      ((partial_evaluate_with_all_rounding_modes ext d expr ns).1, false) := by
  unfold partial_evaluate_with_all_rounding_modes at h ⊢
  cases hl : rounding_loop ext d expr ns 0 rounding_modes nil_exprt with
  | none => simp [hl] at h
  | some f =>
    simp only [hl]
    exact (rounding_loop_zero ext d expr ns _ _ nil_exprt f).1 hl m (mem_rounding_modes m)

/-- When the all-modes evaluation reports no change, the expression is left as it was. -/
theorem all_rounding_modes_unchanged (ext : externalst) (d : constant_propagator_domaint)
    (expr : exprt) (ns : namespacet)
    (h : (partial_evaluate_with_all_rounding_modes ext d expr ns).2 = true) :
    partial_evaluate_with_all_rounding_modes ext d expr ns = (expr, true) := by
  unfold partial_evaluate_with_all_rounding_modes at h ⊢
  cases hl : rounding_loop ext d expr ns 0 rounding_modes nil_exprt with
  | none => rfl
  | some f => simp [hl] at h

/-- When the trials do not all report a change with a common result, nothing is adopted. -/
theorem all_rounding_modes_of_not_agree (ext : externalst) (d : constant_propagator_domaint)
    (expr : exprt) (ns : namespacet)
    (h : ¬ ∃ f, ∀ m : rounding_modet, rounding_trial ext d expr ns m = (f, false)) :
    partial_evaluate_with_all_rounding_modes ext d expr ns = (expr, true) := by
  apply all_rounding_modes_unchanged
  cases hb : (partial_evaluate_with_all_rounding_modes ext d expr ns).2 with
  | true => rfl
  | false =>
    exact absurd ⟨_, trials_of_all_rounding_modes_changed ext d expr ns hb⟩ h

end constant_propagator_domaint

namespace valuest

/-- On a bare symbol `is_constant` answers whether the symbol is bound. -/
theorem is_constant_symbol_exprt (self : valuest) (x : irep_idt) :
    self.is_constant (symbol_exprt x) = some (self.replaces_symbol x) := by
  rw [is_constant_eq_all self (symbol_exprt x) (by
    intro s hs
    rw [symbol_exprt, exprt.subexprs, exprt.subexprs_list] at hs
    rw [List.mem_singleton.1 hs]
    show ID_symbol ≠ ID_address_of
    decide)]
  rw [symbol_exprt, exprt.subexprs, exprt.subexprs_list]
  simp [blocks, exprt.id, exprt.get_identifier, exprt.get_statement, ID_symbol,
    ID_side_effect, ID_index]

end valuest

namespace constant_propagator_domaint

theorem partial_evaluate_of_unbound (ext : externalst) (d : constant_propagator_domaint)
    (expr : exprt) (ns : namespacet)
    (hun : d.values.replace_const.find ID_cprover_rounding_mode_str = none) :
    partial_evaluate ext d expr ns = partial_evaluate_with_all_rounding_modes ext d expr ns := by
  simp [partial_evaluate, valuest.is_constant_symbol_exprt, valuest.replaces_symbol, hun]

theorem partial_evaluate_of_bound (ext : externalst) (d : constant_propagator_domaint)
    (expr : exprt) (ns : namespacet)
    (hb : (d.values.replace_const.find ID_cprover_rounding_mode_str).isSome = true) :
    partial_evaluate ext d expr ns = replace_constants_and_simplify ext d expr ns := by
  simp [partial_evaluate, valuest.is_constant_symbol_exprt, valuest.replaces_symbol, hb]

end constant_propagator_domaint

/-! ## Lemmas on the text of `transform` that the preprocessor removes -/

namespace valuest

/-- On a state that is not bottom `set_to_top(id)` passes its check and leaves the flag. -/
theorem set_to_top_id_of_not_bottom (self : valuest) (id : irep_idt)
    (h : self.is_bottom = false) :
    ∃ r, self.set_to_top_id id = .ok r ∧ r.1.is_bottom = false := by
  obtain ⟨r, hr, hb, _⟩ := set_to_top_id_ok self id (by rw [h]; simp)
  exact ⟨r, hr, hb.trans h⟩

end valuest

namespace constant_propagator_domaint

/-- From a state that is not bottom `assign_rec` gives a state that is not bottom, and it
can fail only at its own `DATA_INVARIANT`. -/
theorem assign_rec_exit (ext : externalst) (d : constant_propagator_domaint)
    (values : valuest) (lhs rhs : exprt) (ns : namespacet)
    (cp : Option constant_propagator_ait) (hnb : values.is_bottom = false) :
    (∀ v, assign_rec ext d values lhs rhs ns cp = .ok v → v.is_bottom = false) ∧
    (∀ e, assign_rec ext d values lhs rhs ns cp = .error e →
      e = "type of constant to be replaced should match") := by
  obtain ⟨r, hr, hrb⟩ := valuest.set_to_top_id_of_not_bottom values lhs.get_identifier hnb
  unfold assign_rec
  simp only [hr]
  constructor
  · intro v h
    split at h
    · cases h; exact hnb
    · split at h
      · cases h; exact hnb
      · split at h
        · split at h
          · cases h; exact hnb
          · cases h
        · cases h; exact hrb
  · intro e h
    split at h
    · cases h
    · split at h
      · cases h
      · split at h
        · split at h
          · cases h
          · cases h; rfl
        · cases h

/-- The loop over the arguments of a call keeps a state that is not bottom so, and it can
fail only at the `DATA_INVARIANT` of `assign_rec`. -/
theorem assign_parameters_exit (ext : externalst) (ns : namespacet)
    (cp : Option constant_propagator_ait) (parameters : List irep_idt)
    (arguments : List exprt) (values : valuest) (hnb : values.is_bottom = false) :
    (∀ v, assign_parameters ext ns cp parameters arguments values = .ok v →
      v.is_bottom = false) ∧
    (∀ e, assign_parameters ext ns cp parameters arguments values = .error e →
      e = "type of constant to be replaced should match") := by
  induction arguments generalizing parameters values with
  | nil =>
    rw [assign_parameters]
    exact ⟨fun v h => (by cases h; exact hnb), fun e h => (by cases h)⟩
  | cons arg arguments ih =>
    cases parameters with
    | nil =>
      rw [assign_parameters]
      exact ⟨fun v h => (by cases h; exact hnb), fun e h => (by cases h)⟩
    | cons p parameters =>
      rw [assign_parameters]
      have hstep := assign_rec_exit ext ⟨values⟩ values (.mk ID_symbol arg.type p "" "" [])
        arg ns cp hnb
      cases hrec : assign_rec ext ⟨values⟩ values (.mk ID_symbol arg.type p "" "" []) arg ns
          cp with
      | error msg =>
        simp only []
        exact ⟨fun v h => (by cases h), fun e h => (by cases h; exact hstep.2 _ hrec)⟩
      | ok v1 =>
        simp only []
        exact ih parameters v1 (hstep.1 _ hrec)

/-- The loop that erases the parameters of a function passes on a state that is not
bottom and leaves it so. -/
theorem erase_parameters_exit (parameters : List irep_idt) (values : valuest)
    (hnb : values.is_bottom = false) :
    ∃ v, erase_parameters parameters values = .ok v ∧ v.is_bottom = false := by
  induction parameters generalizing values with
  | nil => exact ⟨values, by rw [erase_parameters], hnb⟩
  | cons p parameters ih =>
    obtain ⟨r, hr, hrb⟩ := valuest.set_to_top_id_of_not_bottom values p hnb
    rw [erase_parameters, hr]
    exact ih r.1 hrb

/-- The approximation of a call without body leaves a state that is not bottom so. -/
theorem havoc_call_not_bottom (values : valuest) (cp : Option constant_propagator_ait)
    (ns : namespacet) (hnb : values.is_bottom = false) :
    (havoc_call values cp ns).is_bottom = false := by
  cases cp with
  | none => rfl
  | some c => exact hnb

/-- The chain of tests in the removed text of `transform`, on an edge whose source is no
branch and from a state that is not bottom: a state that comes out is not bottom, a failure
is one of two invariants, and nothing is read that is not there when the operands of the
instruction are present. -/
theorem transform_disabled_cases_exit (ext : externalst)
    (parameters : irep_idt → List irep_idt) (d : constant_propagator_domaint)
    (from_l to_l : instructiont) (cp : Option constant_propagator_ait) (ns : namespacet)
    (hgoto : from_l.is_goto = false) (hnb : d.values.is_bottom = false) :
    (∀ v, transform_disabled_cases ext parameters d from_l to_l cp ns = some (.ok v) →
      v.is_bottom = false) ∧
    (∀ e, transform_disabled_cases ext parameters d from_l to_l cp ns = some (.error e) →
      e = "type of constant to be replaced should match" ∨
      e = "Unresolved call can only be approximated if a skip") ∧
    (from_l.operands_present →
      transform_disabled_cases ext parameters d from_l to_l cp ns ≠ none) := by
  unfold transform_disabled_cases
  by_cases h1 : from_l.is_decl = true
  · simp only [h1, if_true]
    cases hops : from_l.code.operands with
    | nil =>
      refine ⟨fun v h => (by cases h), fun e h => (by cases h), fun hp => ?_⟩
      have := hp.1 (Or.inl h1)
      rw [hops] at this
      simp at this
    | cons symbol rest =>
      obtain ⟨r, hr, hrb⟩ := valuest.set_to_top_id_of_not_bottom d.values
        symbol.get_identifier hnb
      simp only [hr, Except.map]
      exact ⟨fun v h => (by cases h; exact hrb), fun e h => (by cases h), fun _ h => (by cases h)⟩
  · simp only [h1, Bool.false_eq_true, if_false]
    by_cases h2 : from_l.is_assign = true
    · simp only [h2, if_true]
      cases hops : from_l.code.operands with
      | nil =>
        refine ⟨fun v h => (by cases h), fun e h => (by cases h), fun hp => ?_⟩
        have := hp.2.1 h2
        rw [hops] at this
        simp at this
      | cons lhs rest =>
        cases rest with
        | nil =>
          refine ⟨fun v h => (by cases h), fun e h => (by cases h), fun hp => ?_⟩
          have := hp.2.1 h2
          rw [hops] at this
          simp at this
        | cons rhs rest =>
          have hstep := assign_rec_exit ext d d.values lhs rhs ns cp hnb
          simp only [Option.some.injEq]
          exact ⟨fun v h => hstep.1 v h, fun e h => Or.inl (hstep.2 e h),
            fun _ h => (by cases h)⟩
    · simp only [h2, Bool.false_eq_true, if_false]
      by_cases h3 : from_l.is_assume = true
      · simp only [h3, if_true, two_way_propagate_rec]
        exact ⟨fun v h => (by cases h; exact hnb), fun e h => (by cases h),
          fun _ h => (by cases h)⟩
      · simp only [h3, hgoto, Bool.false_eq_true, if_false]
        by_cases h5 : from_l.is_dead = true
        · simp only [h5, if_true]
          cases hops : from_l.code.operands with
          | nil =>
            refine ⟨fun v h => (by cases h), fun e h => (by cases h), fun hp => ?_⟩
            have := hp.1 (Or.inr h5)
            rw [hops] at this
            simp at this
          | cons symbol rest =>
            obtain ⟨r, hr, hrb⟩ := valuest.set_to_top_id_of_not_bottom d.values
              symbol.get_identifier hnb
            simp only [hr, Except.map]
            exact ⟨fun v h => (by cases h; exact hrb), fun e h => (by cases h),
              fun _ h => (by cases h)⟩
        · simp only [h5, Bool.false_eq_true, if_false]
          by_cases h6 : from_l.is_function_call = true
          · simp only [h6, if_true]
            have hhavoc := havoc_call_not_bottom d.values cp ns hnb
            cases hops : from_l.code.operands with
            | nil =>
              refine ⟨fun v h => (by cases h), fun e h => (by cases h), fun hp => ?_⟩
              have := hp.2.2 h6
              rw [hops] at this
              simp at this
            | cons lhs rest =>
              cases rest with
              | nil =>
                refine ⟨fun v h => (by cases h), fun e h => (by cases h), fun hp => ?_⟩
                have := hp.2.2 h6
                rw [hops] at this
                simp at this
              | cons function rest =>
                simp only []
                by_cases hsym : function.id = ID_symbol
                · simp only [hsym, if_true]
                  by_cases hfn : from_l.function = to_l.function
                  · simp only [hfn, if_true]
                    split
                    · exact ⟨fun v h => (by cases h; exact hnb), fun e h => (by cases h),
                        fun _ h => (by cases h)⟩
                    · exact ⟨fun v h => (by cases h; exact hhavoc), fun e h => (by cases h),
                        fun _ h => (by cases h)⟩
                  · simp only [hfn, if_false]
                    cases rest with
                    | nil =>
                      refine ⟨fun v h => (by cases h), fun e h => (by cases h), fun hp => ?_⟩
                      have := hp.2.2 h6
                      rw [hops] at this
                      simp at this
                    | cons arguments rest =>
                      have hstep := assign_parameters_exit ext ns cp
                        (parameters function.get_identifier) arguments.operands d.values hnb
                      simp only [Option.some.injEq]
                      exact ⟨fun v h => hstep.1 v h, fun e h => Or.inl (hstep.2 e h),
                        fun _ h => (by cases h)⟩
                · simp only [hsym, if_false]
                  by_cases hfn : from_l.function = to_l.function
                  · simp only [hfn, if_true]
                    exact ⟨fun v h => (by cases h; exact hhavoc), fun e h => (by cases h),
                      fun _ h => (by cases h)⟩
                  · simp only [hfn, if_false]
                    exact ⟨fun v h => (by cases h), fun e h => (by cases h; exact Or.inr rfl),
                      fun _ h => (by cases h)⟩
          · simp only [h6, Bool.false_eq_true, if_false]
            by_cases h7 : from_l.is_end_function = true
            · simp only [h7, if_true]
              obtain ⟨v1, hv1, hb1⟩ := erase_parameters_exit (parameters from_l.function)
                d.values hnb
              rw [hv1]
              exact ⟨fun v h => (by cases h; exact hb1), fun e h => (by cases h),
                fun _ h => (by cases h)⟩
            · simp only [h7, Bool.false_eq_true, if_false]
              exact ⟨fun v h => (by cases h; exact hnb), fun e h => (by cases h),
                fun _ h => (by cases h)⟩

end constant_propagator_domaint

/-! ## Theorems on `transform` along branches and on its exit invariant -/

namespace constant_propagator_domaint

/-- C11, the code at the failing input: the compiled body of `transform` is empty, so along
the edge from the branch `if(false) goto 2;` to its target, whose guard evaluates to the
literal `false`, the state `top` stays `top` and is not made bottom. -/
theorem transform_goto_false_is_identity :
    demo.goto_false.is_goto = true ∧
    demo.goto_false.target = some demo.goto_target.location_number ∧
    (partial_evaluate demo.ext_id ⟨demo.top⟩ demo.goto_false.guard demo.ns).1.is_false = true ∧
    transform demo.ext_id ⟨demo.top⟩ demo.goto_false demo.goto_target none demo.ns =
      .ok ⟨demo.top⟩ ∧
    demo.top.is_bottom = false := by
  decide

/-- C12: exit invariant of `transform`. Along every edge whose source instruction is no
branch (declaration, assignment, scope end, assume, call, end of procedure, other) and for
every incoming state that is not bottom, the compiled `transform` ends normally with a state
that is not bottom. The same holds for the transfer function as it is written in the text
that the preprocessor removes: it gives a result when the operands it reads are present,
every state it gives is not bottom, and it fails only at "type of constant to be replaced
should match" (in `assign_rec`) or at "Unresolved call can only be approximated if a skip",
never at its final invariant "Transform only sets bottom by using branch conditions". -/
theorem transform_exit_invariant (ext : externalst) (parameters : irep_idt → List irep_idt)
    (d : constant_propagator_domaint) (from_l to_l : instructiont)
    (cp : Option constant_propagator_ait) (ns : namespacet)
    (hgoto : from_l.is_goto = false) (hnb : d.values.is_bottom = false) :
    (∃ d', transform ext d from_l to_l cp ns = .ok d' ∧ d'.values.is_bottom = false) ∧
    (from_l.operands_present →
      ∃ res, transform_disabled ext parameters d from_l to_l cp ns = some res) ∧
    (∀ d', transform_disabled ext parameters d from_l to_l cp ns = some (.ok d') →
      d'.values.is_bottom = false) ∧
    (∀ e, transform_disabled ext parameters d from_l to_l cp ns = some (.error e) →
      e = "type of constant to be replaced should match" ∨
      e = "Unresolved call can only be approximated if a skip") ∧
    transform_disabled ext parameters d from_l to_l cp ns ≠
      some (.error "Transform only sets bottom by using branch conditions") := by
  obtain ⟨hok, herr, hnone⟩ :=
    transform_disabled_cases_exit ext parameters d from_l to_l cp ns hgoto hnb
  have hmain : ∀ res, transform_disabled_cases ext parameters d from_l to_l cp ns = res →
      (∀ v, res = some (.ok v) → v.is_bottom = false) →
      (∀ e, res = some (.error e) →
        e = "type of constant to be replaced should match" ∨
        e = "Unresolved call can only be approximated if a skip") →
      (from_l.operands_present → res ≠ none) →
      (from_l.operands_present →
        ∃ r, transform_disabled ext parameters d from_l to_l cp ns = some r) ∧
      (∀ d', transform_disabled ext parameters d from_l to_l cp ns = some (.ok d') →
        d'.values.is_bottom = false) ∧
      (∀ e, transform_disabled ext parameters d from_l to_l cp ns = some (.error e) →
        e = "type of constant to be replaced should match" ∨
        e = "Unresolved call can only be approximated if a skip") := by
    intro res hres h1 h2 h3
    unfold transform_disabled
    rw [hres]
    simp only [hnb, Bool.false_eq_true, if_false]
    cases res with
    | none =>
      exact ⟨fun hp => absurd rfl (h3 hp), fun d' h => (by cases h), fun e h => (by cases h)⟩
    | some r =>
      cases r with
      | error msg =>
        exact ⟨fun _ => ⟨_, rfl⟩, fun d' h => (by cases h),
          fun e h => (by cases h; exact h2 _ rfl)⟩
      | ok v =>
        have hv := h1 v rfl
        simp only [hv, hgoto, Bool.not_false, Bool.or_true, if_true]
        exact ⟨fun _ => ⟨_, rfl⟩, fun d' h => (by cases h; exact hv), fun e h => (by cases h)⟩
  obtain ⟨p1, p2, p3⟩ := hmain _ rfl hok herr hnone
  refine ⟨⟨d, rfl, hnb⟩, p1, p2, p3, fun h => ?_⟩
  rcases p3 _ h with h' | h'
  · exact absurd h' (by decide)
  · exact absurd h' (by decide)

/-- Witness for C12: along the edge from the call `f(5)` into the body of `f`, from the
state `top`, the compiled `transform` ends with a state that is not bottom, and the transfer
function as written binds the parameter `p` to `5`, a state that is not bottom; along the
branch edge of `if(false) goto 2` it gives bottom. -/
theorem transform_exit_invariant_witness :
    (∃ d', transform demo.ext_id ⟨demo.top⟩ demo.call_f_5 demo.f_entry none demo.ns = .ok d' ∧
      d'.values.is_bottom = false) ∧
    transform_disabled demo.ext_id demo.parameters_f ⟨demo.top⟩ demo.call_f_5 demo.f_entry
      none demo.ns = some (.ok ⟨demo.p5⟩) ∧
    demo.p5.is_bottom = false ∧
    transform_disabled demo.ext_id demo.parameters_f ⟨demo.top⟩ demo.goto_false
      demo.goto_target none demo.ns = some (.ok ⟨demo.bottom⟩) :=
  ⟨(transform_exit_invariant demo.ext_id demo.parameters_f ⟨demo.top⟩ demo.call_f_5
      demo.f_entry none demo.ns (by decide) (by decide)).1,
    by decide,
    (transform_exit_invariant demo.ext_id demo.parameters_f ⟨demo.top⟩ demo.call_f_5
      demo.f_entry none demo.ns (by decide) (by decide)).2.2.1 ⟨demo.p5⟩ (by decide),
    by decide⟩

/-! ## Theorems on partial evaluation under an unknown rounding mode -/

/-- C13, as stated, fails: with the rounding mode unbound, every trial on `!!c` yields `c`,
which is not a literal, and `partial_evaluate` rewrites the expression to `c` and reports a
change. -/
theorem partial_evaluate_literal_counterexample :
    demo.top.replace_const.find ID_cprover_rounding_mode_str = none ∧
    (∀ m ∈ rounding_modes,
      (rounding_trial demo.ext_not_not ⟨demo.top⟩ (not_exprt (not_exprt (demo.bsym "c")))
        demo.ns m).1.is_constant = false) ∧
    partial_evaluate demo.ext_not_not ⟨demo.top⟩ (not_exprt (not_exprt (demo.bsym "c")))
      demo.ns = (demo.bsym "c", false) ∧
    (demo.bsym "c").is_constant = false := by
  decide

/-- C13, amended: with the rounding mode unbound, `partial_evaluate` runs the four trials; if
any one of them reports that it changed nothing, `partial_evaluate` returns `true` and leaves
`expr` as it was (as it does whenever it returns `true`); and whenever it rewrites `expr`
(returns `false`), the new `expr` is the result of every one of the four trials, each of
which reported a change. -/
theorem partial_evaluate_trials (ext : externalst) (d : constant_propagator_domaint)
    (expr : exprt) (ns : namespacet)
    (hun : d.values.replace_const.find ID_cprover_rounding_mode_str = none) :
    (∀ m : rounding_modet, (rounding_trial ext d expr ns m).2 = true →
      partial_evaluate ext d expr ns = (expr, true)) ∧
    ((partial_evaluate ext d expr ns).2 = true → (partial_evaluate ext d expr ns).1 = expr) ∧
    ((partial_evaluate ext d expr ns).2 = false →
      ∀ m : rounding_modet,
        rounding_trial ext d expr ns m = ((partial_evaluate ext d expr ns).1, false)) := by
  rw [partial_evaluate_of_unbound ext d expr ns hun]
  refine ⟨fun m hm => ?_, fun h => ?_, fun h m => ?_⟩
  · apply all_rounding_modes_of_not_agree
    rintro ⟨f, hf⟩
    rw [hf m] at hm
    cases hm
  · rw [all_rounding_modes_unchanged ext d expr ns h]
  · exact trials_of_all_rounding_modes_changed ext d expr ns h m

/-- Witness for C13 (amended): under `top`, with passes that change nothing, the literal `5`
is reported unchanged. -/
theorem partial_evaluate_trials_witness :
    partial_evaluate demo.ext_id ⟨demo.top⟩ (demo.lit "5") demo.ns = (demo.lit "5", true) :=
  (partial_evaluate_trials demo.ext_id ⟨demo.top⟩ (demo.lit "5") demo.ns (by decide)).1
    .ROUND_TO_EVEN (by decide)

/-- C14: with the rounding mode unbound, if two of the four trials produce different
results, `partial_evaluate` returns `true` and `expr` is the expression that was passed
in. -/
theorem partial_evaluate_rounding_sound (ext : externalst) (d : constant_propagator_domaint)
    (expr : exprt) (ns : namespacet)
    (hun : d.values.replace_const.find ID_cprover_rounding_mode_str = none)
    (m m' : rounding_modet)
    (hne : (rounding_trial ext d expr ns m).1 ≠ (rounding_trial ext d expr ns m').1) :
    partial_evaluate ext d expr ns = (expr, true) := by
  rw [partial_evaluate_of_unbound ext d expr ns hun]
  apply all_rounding_modes_of_not_agree
  rintro ⟨f, hf⟩
  exact hne (by rw [hf m, hf m'])

/-- C15, as stated, fails: with passes that change nothing, the four trials on the literal
`5` all yield `5`, and `partial_evaluate_with_all_rounding_modes` returns `true`, not
`false`. -/
theorem all_rounding_modes_counterexample :
    (∀ m ∈ rounding_modes,
      (rounding_trial demo.ext_id ⟨demo.top⟩ (demo.lit "5") demo.ns m).1 = demo.lit "5") ∧
    partial_evaluate_with_all_rounding_modes demo.ext_id ⟨demo.top⟩ (demo.lit "5") demo.ns =
      (demo.lit "5", true) := by
  decide

/-- C15, amended: if substitute-and-simplify reports a change and yields the same expression
under all four rounding modes, `expr` is changed to that common result and `false` is
returned; otherwise (some trial reports that nothing changed, or two results differ) `true`
is returned and `expr` is left as it was. -/
theorem all_rounding_modes_agree (ext : externalst) (d : constant_propagator_domaint)
    (expr : exprt) (ns : namespacet) :
    (∀ f, (∀ m : rounding_modet, rounding_trial ext d expr ns m = (f, false)) →
      partial_evaluate_with_all_rounding_modes ext d expr ns = (f, false)) ∧
    ((¬ ∃ f, ∀ m : rounding_modet, rounding_trial ext d expr ns m = (f, false)) →
      partial_evaluate_with_all_rounding_modes ext d expr ns = (expr, true)) :=
  ⟨fun f h => all_rounding_modes_of_agree ext d expr ns f h,
   fun h => all_rounding_modes_of_not_agree ext d expr ns h⟩

/-- Witness for C15 (amended): the four trials on `!!c` all change it to `c`, which is
adopted. -/
theorem all_rounding_modes_agree_witness :
    partial_evaluate_with_all_rounding_modes demo.ext_not_not ⟨demo.top⟩
      (not_exprt (not_exprt (demo.bsym "c"))) demo.ns = (demo.bsym "c", false) :=
  (all_rounding_modes_agree demo.ext_not_not ⟨demo.top⟩
    (not_exprt (not_exprt (demo.bsym "c"))) demo.ns).1 (demo.bsym "c")
    (fun m => by cases m <;> decide)

/-- C16: for a state in which the rounding mode is unbound and each rounding mode `m`,
`partial_evaluate` under the state extended with the rounding mode bound to `m` is one
substitution pass followed by one simplification pass, returning `true` iff neither pass
changed anything; it equals the trial for `m`; so if `partial_evaluate` under the original
state rewrites `expr` to `r`, so does `partial_evaluate` under the pinned state. -/
theorem partial_evaluate_pinned (ext : externalst) (d : constant_propagator_domaint)
    (expr : exprt) (ns : namespacet) (m : rounding_modet)
    (hun : d.values.replace_const.find ID_cprover_rounding_mode_str = none) :
    partial_evaluate ext
        ⟨d.values.set_to ID_cprover_rounding_mode_str (from_integer m.to_nat integer_typet)⟩
        expr ns =
      ((ext.simplify (ext.replace
          (d.values.set_to ID_cprover_rounding_mode_str
            (from_integer m.to_nat integer_typet)).replace_const expr).1 ns).1,
       (ext.replace
          (d.values.set_to ID_cprover_rounding_mode_str
            (from_integer m.to_nat integer_typet)).replace_const expr).2 &&
        (ext.simplify (ext.replace
          (d.values.set_to ID_cprover_rounding_mode_str
            (from_integer m.to_nat integer_typet)).replace_const expr).1 ns).2) ∧
    partial_evaluate ext
        ⟨d.values.set_to ID_cprover_rounding_mode_str (from_integer m.to_nat integer_typet)⟩
        expr ns = rounding_trial ext d expr ns m ∧
    (∀ r, partial_evaluate ext d expr ns = (r, false) →
      partial_evaluate ext
        ⟨d.values.set_to ID_cprover_rounding_mode_str (from_integer m.to_nat integer_typet)⟩
        expr ns = (r, false)) := by
  have hb : ((d.values.set_to ID_cprover_rounding_mode_str
      (from_integer m.to_nat integer_typet)).replace_const.find
        ID_cprover_rounding_mode_str).isSome = true := by
    rw [valuest.find_set_to, if_pos rfl]
    rfl
  have hpin := partial_evaluate_of_bound ext
    ⟨d.values.set_to ID_cprover_rounding_mode_str (from_integer m.to_nat integer_typet)⟩
    expr ns hb
  refine ⟨hpin, hpin, fun r hr => ?_⟩
  rw [hpin]
  rw [partial_evaluate_of_unbound ext d expr ns hun] at hr
  have h2 : (partial_evaluate_with_all_rounding_modes ext d expr ns).2 = false := by rw [hr]
  have := trials_of_all_rounding_modes_changed ext d expr ns h2 m
  rw [hr] at this
  exact this

/-- Witness for C16: under `top`, `!!c` is rewritten to `c`, and so it is with the rounding
mode pinned to round-to-zero. -/
theorem partial_evaluate_pinned_witness :
    partial_evaluate demo.ext_not_not
      ⟨demo.top.set_to ID_cprover_rounding_mode_str
        (from_integer rounding_modet.ROUND_TO_ZERO.to_nat integer_typet)⟩
      (not_exprt (not_exprt (demo.bsym "c"))) demo.ns = (demo.bsym "c", false) :=
  (partial_evaluate_pinned demo.ext_not_not ⟨demo.top⟩ (not_exprt (not_exprt (demo.bsym "c")))
    demo.ns .ROUND_TO_ZERO (by decide)).2.2 (demo.bsym "c") (by decide)

end constant_propagator_domaint

namespace constant_propagator_domaint

/-- Witness for C14: the rounding-mode symbol itself evaluates differently under round-to-even
and round-to-zero, and is reported unchanged. -/
theorem partial_evaluate_rounding_sound_witness :
    partial_evaluate demo.ext_subst ⟨demo.top⟩ (symbol_exprt ID_cprover_rounding_mode_str)
      demo.ns = (symbol_exprt ID_cprover_rounding_mode_str, true) :=
  partial_evaluate_rounding_sound demo.ext_subst ⟨demo.top⟩
    (symbol_exprt ID_cprover_rounding_mode_str) demo.ns (by decide)
    .ROUND_TO_EVEN .ROUND_TO_ZERO (by decide)

end constant_propagator_domaint

/-! ## Theorems on `set_to_top(id)` and on the state invariant -/

namespace valuest

/-- C19: `set_to_top(id)` fails with "bottom should have no elements at all" exactly when the
state is flagged bottom and binds `id`; otherwise it removes the binding of `id` and nothing
else (other bindings and the bottom flag are unchanged) and returns `true` iff `id` was
bound; on a state satisfying "bottom implies empty map" it never fails. -/
theorem set_to_top_id_effect (self : valuest) (id : irep_idt) :
    ((self.is_bottom = true ∧ (self.replace_const.find id).isSome = true) →
      self.set_to_top_id id = .error "bottom should have no elements at all") ∧
    (¬ (self.is_bottom = true ∧ (self.replace_const.find id).isSome = true) →
      ∃ r, self.set_to_top_id id = .ok r ∧
        r.1.replace_const.find id = none ∧
        (∀ y, y ≠ id → r.1.replace_const.find y = self.replace_const.find y) ∧
        r.1.is_bottom = self.is_bottom ∧
        (r.2 = true ↔ (self.replace_const.find id).isSome = true)) ∧
    (self.invariant → ∃ r, self.set_to_top_id id = .ok r) := by
  refine ⟨fun h => set_to_top_id_error self id h.1 h.2, fun h => ?_, fun hinv => ?_⟩
  · obtain ⟨r, h1, h2, h3, h4, h5⟩ := set_to_top_id_ok self id h
    exact ⟨r, h1, h3, h4, h2, h5⟩
  · have hn : ¬ (self.is_bottom = true ∧ (self.replace_const.find id).isSome = true) := by
      rintro ⟨hb, hf⟩
      rw [find_none_of_is_empty self (hinv hb) id] at hf
      cases hf
    obtain ⟨r, h1, _⟩ := set_to_top_id_ok self id hn
    exact ⟨r, h1⟩

/-- Witness for C19: unbinding `x` in the state `x = 5, y = 1` keeps `y` and reports a
change; on the state flagged bottom that binds `x` the call fails. -/
theorem set_to_top_id_effect_witness :
    (∃ r, demo.x5y1.set_to_top_id "x" = .ok r ∧
      r.1.replace_const.find "x" = none ∧
      (∀ y, y ≠ "x" → r.1.replace_const.find y = demo.x5y1.replace_const.find y) ∧
      r.1.is_bottom = demo.x5y1.is_bottom ∧
      (r.2 = true ↔ (demo.x5y1.replace_const.find "x").isSome = true)) ∧
    demo.bottom_x5.set_to_top_id "x" = .error "bottom should have no elements at all" :=
  ⟨(set_to_top_id_effect demo.x5y1 "x").2.1 (by decide),
   (set_to_top_id_effect demo.bottom_x5 "x").1 (by decide)⟩

/-- A state that is not bottom satisfies the invariant. -/
theorem invariant_of_not_bottom (self : valuest) (h : self.is_bottom = false) :
    self.invariant := by
  intro hb
  rw [h] at hb
  cases hb

/-- The loop of `meet`, started on a state that is not bottom, ends in a state that satisfies
the invariant. -/
theorem meet_loop_invariant (ns : namespacet) (l : List (irep_idt × exprt)) (s : valuest)
    (changed : Bool) (hs : s.is_bottom = false) (r : valuest × Bool)
    (h : meet_loop ns l s changed = .ok r) : r.1.invariant := by
  induction l generalizing s changed with
  | nil =>
    simp only [meet_loop, Except.ok.injEq] at h
    subst h
    exact invariant_of_not_bottom s hs
  | cons m rest ih =>
    simp only [meet_loop] at h
    cases hf : s.replace_const.find m.1 with
    | some c =>
      simp only [hf] at h
      by_cases hc : (c != m.2) = true
      · simp only [hc, if_true, Except.ok.injEq] at h
        subst h
        intro _
        rfl
      · simp only [hc, if_false] at h
        exact ih s changed hs h
    | none =>
      simp only [hf] at h
      by_cases ht : base_type_eq (ns.lookup m.1).type m.2.type ns = true
      · simp only [ht, if_true] at h
        exact ih (s.set_to m.1 m.2) true hs h
      · simp only [ht, if_false] at h
        cases h

/-- C20: the state invariant "if the bottom flag is set, the map is empty" is preserved by
`merge`, `meet`, `set_to_top(id)` and `set_dirty_to_top`: for a state and an argument state
that satisfy it, the state after each of these operations satisfies it (`meet` produces a
state whenever the bindings it adds carry the declared types, `set_to_top(id)` always
does). -/
theorem invariant_preserved (self src : valuest) (ns : namespacet) (id : irep_idt)
    (dirty : dirtyt) (hs : self.invariant) (hsrc : src.invariant) :
    (self.merge src).1.invariant ∧
    (∀ r, self.meet src ns = .ok r → r.1.invariant) ∧
    (src.typed_where_unbound self ns → ∃ r, self.meet src ns = .ok r ∧ r.1.invariant) ∧
    (∃ r, self.set_to_top_id id = .ok r ∧ r.1.invariant) ∧
    (self.set_dirty_to_top dirty ns).invariant := by
  have hmeet : ∀ r, self.meet src ns = .ok r → r.1.invariant := by
    intro r hr
    simp only [meet, meet_in_order] at hr
    by_cases hb : (src.is_bottom || self.is_bottom) = true
    · simp only [hb, if_true, Except.ok.injEq] at hr
      subst hr
      exact hs
    · simp only [hb, if_false] at hr
      have hsb : self.is_bottom = false := by
        cases h : self.is_bottom with
        | false => rfl
        | true => simp [h] at hb
      exact meet_loop_invariant ns _ self false hsb r hr
  refine ⟨?_, hmeet, fun hty => ?_, ?_, ?_⟩
  · cases hb : src.is_bottom with
    | true =>
      rw [merge_of_src_bottom self src hb]
      exact hs
    | false =>
      cases hsb : self.is_bottom with
      | true =>
        rw [merge_of_self_bottom self src hsb hb]
        exact hsrc
      | false => exact invariant_of_not_bottom _ (merge_non_bottom_flag self src hsb hb)
  · obtain ⟨r, hr⟩ := meet_ok_of_typed self src ns hty
    exact ⟨r, hr, hmeet r hr⟩
  · have hn : ¬ (self.is_bottom = true ∧ (self.replace_const.find id).isSome = true) := by
      rintro ⟨hb, hf⟩
      rw [find_none_of_is_empty self (hs hb) id] at hf
      cases hf
    obtain ⟨r, h1, h2, _, _, _⟩ := set_to_top_id_ok self id hn
    refine ⟨r, h1, fun hb => ?_⟩
    rw [h2] at hb
    have he := (is_empty_iff self).1 (hs hb)
    simp only [set_to_top_id] at h1
    split at h1
    · simp only [Except.ok.injEq] at h1
      subst h1
      simp [is_empty, expr_mapt.empty, expr_mapt.erase, he]
    · cases h1
  · intro hb
    have he := (is_empty_iff self).1 (hs hb)
    simp [is_empty, expr_mapt.empty, set_dirty_to_top, expr_mapt.erase_if, he]

/-- Witness for C20 on the state `x = 5, y = 1`, the argument `x = 5`, the variable `x` and an
empty dirty set. -/
theorem invariant_preserved_witness :
    (demo.x5y1.merge demo.x5).1.invariant ∧
    (∃ r, demo.x5y1.set_to_top_id "x" = .ok r ∧ r.1.invariant) ∧
    (demo.x5y1.set_dirty_to_top (fun _ => false) demo.ns).invariant :=
  have h := invariant_preserved demo.x5y1 demo.x5 demo.ns "x" (fun _ => false)
    (by decide) (by decide)
  ⟨h.1, h.2.2.2.1, h.2.2.2.2⟩

end valuest

/-! ## Lemmas on the replacement pass -/

namespace constant_propagator_ait

theorem replace_types_rec_operands_eq_map (rt : typet → typet) (ops : List exprt) :
    replace_types_rec_operands rt ops = ops.map (replace_types_rec rt) := by
  induction ops with
  | nil => rw [replace_types_rec_operands, List.map_nil]
  | cons e es ih => rw [replace_types_rec_operands, ih, List.map_cons]

theorem replace_types_rec_mk (rt : typet → typet) (i : irep_idt) (t : typet)
    (n s v : irep_idt) (ops : List exprt) :
    replace_types_rec rt (.mk i t n s v ops) =
      .mk i (rt t) n s v (ops.map (replace_types_rec rt)) := by
  rw [replace_types_rec, replace_types_rec_operands_eq_map]

/-- An instruction whose state is bottom is skipped. -/
theorem replace_instruction_of_bottom (ext : externalst)
    (rt : expr_mapt → typet → typet) (ns : namespacet) (d : constant_propagator_domaint)
    (it : instructiont) (hb : d.is_bottom = true) :
    replace_instruction ext rt ns d it = some it := by
  simp only [replace_instruction, hb, if_true]

/-- The pass keeps the kind, function, location number and target of an instruction. -/
theorem replace_instruction_frame (ext : externalst)
    (rt : expr_mapt → typet → typet) (ns : namespacet) (d : constant_propagator_domaint)
    (it it' : instructiont) (h : replace_instruction ext rt ns d it = some it') :
    it'.type = it.type ∧ it'.function = it.function ∧
      it'.location_number = it.location_number ∧ it'.target = it.target := by
  unfold replace_instruction at h
  split at h
  · cases h; exact ⟨rfl, rfl, rfl, rfl⟩
  · simp only at h
    split at h
    · cases h; exact ⟨rfl, rfl, rfl, rfl⟩
    · split at h
      · split at h
        · cases h; exact ⟨rfl, rfl, rfl, rfl⟩
        · cases h
      · split at h
        · split at h
          · cases h; exact ⟨rfl, rfl, rfl, rfl⟩
          · cases h
        · split at h
          · split at h <;> (cases h; exact ⟨rfl, rfl, rfl, rfl⟩)
          · cases h; exact ⟨rfl, rfl, rfl, rfl⟩

/-- On a well-formed instruction the pass reads no operand that is missing. -/
theorem replace_instruction_total (ext : externalst)
    (rt : expr_mapt → typet → typet) (ns : namespacet) (d : constant_propagator_domaint)
    (it : instructiont) (hwf : it.well_formed) :
    ∃ it', replace_instruction ext rt ns d it = some it' := by
  obtain ⟨ty, code, guard, fn, loc, tgt⟩ := it
  obtain ⟨i, t, n, s, v, ops⟩ := code
  unfold replace_instruction
  simp only [replace_types_rec_mk]
  split
  · exact ⟨_, rfl⟩
  · split
    · exact ⟨_, rfl⟩
    · split
      · rename_i hassign
        have h2 := hwf.1 hassign
        simp only [exprt.operands] at h2
        match ops, h2 with
        | lhs :: rhs :: rest, _ => exact ⟨_, rfl⟩
      · split
        · rename_i hcall
          have h3 := hwf.2 hcall
          simp only [exprt.operands] at h3
          match ops, h3 with
          | lhs :: function :: .mk ai ta na sa va args :: rest, _ =>
            simp only [List.map_cons, replace_types_rec_mk]
            exact ⟨_, rfl⟩
        · split
          · split <;> exact ⟨_, rfl⟩
          · exact ⟨_, rfl⟩

/-- What the loop over a body yields, instruction by instruction. -/
theorem replace_body_forall₂ (self : constant_propagator_ait) (ext : externalst)
    (rt : expr_mapt → typet → typet) (ns : namespacet) (body body' : List instructiont)
    (h : replace_body self ext rt ns body = some body') :
    List.Forall₂ (fun it it' =>
      replace_instruction ext rt ns (self.state_map it.location_number) it = some it')
      body body' := by
  induction body generalizing body' with
  | nil =>
    simp only [replace_body, Option.some.injEq] at h
    subst h
    exact List.Forall₂.nil
  | cons it rest ih =>
    simp only [replace_body] at h
    cases h1 : replace_instruction ext rt ns (self.state_map it.location_number) it with
    | none => simp [h1] at h
    | some it' =>
      cases h2 : replace_body self ext rt ns rest with
      | none => simp [h1, h2] at h
      | some rest' =>
        simp only [h1, h2, Option.some.injEq] at h
        subst h
        exact List.Forall₂.cons h1 (ih rest' h2)

end constant_propagator_ait

/-! ## Theorems on the replacement pass -/

namespace constant_propagator_ait

/-- On a body of well-formed instructions the loop of the pass ends normally. -/
theorem replace_body_total (self : constant_propagator_ait) (ext : externalst)
    (rt : expr_mapt → typet → typet) (ns : namespacet) (body : List instructiont)
    (hwf : ∀ it ∈ body, it.well_formed) :
    ∃ body', replace_body self ext rt ns body = some body' := by
  induction body with
  | nil => exact ⟨[], rfl⟩
  | cons it rest ih =>
    obtain ⟨it', h1⟩ := replace_instruction_total ext rt ns
      (self.state_map it.location_number) it (hwf it (List.mem_cons_self _ _))
    obtain ⟨rest', h2⟩ := ih (fun x hx => hwf x (List.mem_cons_of_mem _ hx))
    exact ⟨it' :: rest', by simp only [replace_body, h1, h2]⟩

/-- C17: `replace` never rewrites unreachable code and leaves the abstract states alone: on a
well-formed body the pass completes, and whenever it completes the analysis object (with the
state of every location) is unchanged, the instructions keep their locations, and each
instruction whose state is bottom is the same instruction (guard, code and the types inside
them) as before. -/
theorem replace_skips_bottom (self : constant_propagator_ait) (ext : externalst)
    (rt : expr_mapt → typet → typet) (ns : namespacet) (body : List instructiont) :
    ((∀ it ∈ body, it.well_formed) →
      ∃ body', self.replace ext rt ns body = some (self, body')) ∧
    (∀ self' body', self.replace ext rt ns body = some (self', body') →
      self' = self ∧
      List.Forall₂ (fun it it' =>
        it'.location_number = it.location_number ∧
        ((self.state_map it.location_number).is_bottom = true → it' = it)) body body') := by
  constructor
  · intro hwf
    obtain ⟨body', h⟩ := replace_body_total self ext rt ns body hwf
    exact ⟨body', by simp only [replace, h]⟩
  · intro self' body' h
    simp only [replace] at h
    cases hb : replace_body self ext rt ns body with
    | none => simp [hb] at h
    | some b =>
      simp only [hb, Option.some.injEq, Prod.mk.injEq] at h
      obtain ⟨rfl, rfl⟩ := h
      refine ⟨rfl, ?_⟩
      refine (replace_body_forall₂ self ext rt ns body b hb).imp ?_
      intro it it' hit
      refine ⟨(replace_instruction_frame ext rt ns _ it it' hit).2.2.1, fun hbot => ?_⟩
      rw [replace_instruction_of_bottom ext rt ns _ it hbot] at hit
      exact (Option.some.inj hit).symm

/-- Witness for C17: with every state bottom, the body `assume(!!!!c)` comes back as it
was, although the simplifier at hand would rewrite its guard. -/
theorem replace_skips_bottom_witness :
    ∃ body', demo.ai_bottom.replace demo.ext_not_not demo.replace_type_id demo.ns
        [demo.assume_not4] = some (demo.ai_bottom, body') ∧
      List.Forall₂ (fun it it' =>
        it'.location_number = it.location_number ∧
        ((demo.ai_bottom.state_map it.location_number).is_bottom = true → it' = it))
        [demo.assume_not4] body' :=
  ((replace_skips_bottom demo.ai_bottom demo.ext_not_not demo.replace_type_id demo.ns
      [demo.assume_not4]).1 (by decide)).imp
    (fun body' h => ⟨h,
      ((replace_skips_bottom demo.ai_bottom demo.ext_not_not demo.replace_type_id demo.ns
        [demo.assume_not4]).2 demo.ai_bottom body' h).2⟩)

end constant_propagator_ait

/-! ## Idempotence of the replacement pass -/

mutual
/-- Induction over expression trees: a property that holds for a node whenever it holds for
its operands holds for every expression. -/
theorem exprt.induction_on (P : exprt → Prop)
    (h : ∀ i t n s v ops, (∀ e ∈ ops, P e) → P (.mk i t n s v ops)) : ∀ e, P e
  | .mk i t n s v ops => h i t n s v ops (exprt.induction_on_list P h ops)
/-- Induction over expression trees, for the operands of a node. -/
theorem exprt.induction_on_list (P : exprt → Prop)
    (h : ∀ i t n s v ops, (∀ e ∈ ops, P e) → P (.mk i t n s v ops)) :
    ∀ ops : List exprt, ∀ e ∈ ops, P e
  | [], _, hm => absurd hm (List.not_mem_nil _)
  | x :: xs, e, hm =>
    (List.mem_cons.1 hm).elim (fun he => he ▸ exprt.induction_on P h x)
      (fun he => exprt.induction_on_list P h xs e he)
end

namespace constant_propagator_ait

end constant_propagator_ait

namespace constant_propagator_domaint

end constant_propagator_domaint

namespace constant_propagator_ait

end constant_propagator_ait

namespace constant_propagator_ait

/-- One run of `replace` calls the simplifier once on each guard and does not iterate: with a
simplifier that removes a single double negation at the root per call, a run rewrites
`assume(!!!!c)` to `assume(!!c)` and `assume(!!c)` to `assume(c)`. What a second run does
rests on what the simplifier does with its own output. -/
theorem replace_applies_simplifier_once :
    (demo.ai_top.replace demo.ext_not_not demo.replace_type_id demo.ns
      [demo.assume_not4]).map Prod.snd = some [demo.assume_not2] ∧
    (demo.ai_top.replace demo.ext_not_not demo.replace_type_id demo.ns
      [demo.assume_not2]).map Prod.snd = some [demo.assume_c] ∧
    demo.assume_not2 ≠ demo.assume_c := by
  decide

end constant_propagator_ait

/-! ## Monotonicity of `is_constant` -/

namespace valuest

/-- The operand loop of `is_constant` is monotone when `is_constant` is on each operand. -/
theorem is_constant_operands_mono (s s' : valuest) (ops : List exprt)
    (ih : ∀ e ∈ ops, s.is_constant e = some true → s'.is_constant e = some true)
    (h : s.is_constant_operands ops = some true) :
    s'.is_constant_operands ops = some true := by
  induction ops with
  | nil => rw [is_constant_operands]
  | cons e es ihl =>
    rw [is_constant_operands] at h ⊢
    cases he : s.is_constant e with
    | none => rw [he] at h; cases h
    | some b =>
      cases b with
      | false => rw [he] at h; cases h
      | true =>
        rw [he] at h
        rw [ih e (List.mem_cons_self _ _) he]
        exact ihl (fun x hx => ih x (List.mem_cons_of_mem _ hx)) h

/-- One node of the monotonicity of `is_constant` and `is_constant_address_of`. -/
theorem is_constant_mono_node (s s' : valuest)
    (hsub : ∀ v, s.replaces_symbol v = true → s'.replaces_symbol v = true)
    (i : irep_idt) (t : typet) (n st v : irep_idt) (ops : List exprt)
    (ih : ∀ e ∈ ops,
      (s.is_constant e = some true → s'.is_constant e = some true) ∧
      (s.is_constant_address_of e = some true → s'.is_constant_address_of e = some true)) :
    (s.is_constant (.mk i t n st v ops) = some true →
      s'.is_constant (.mk i t n st v ops) = some true) ∧
    (s.is_constant_address_of (.mk i t n st v ops) = some true →
      s'.is_constant_address_of (.mk i t n st v ops) = some true) := by
  constructor
  · intro h
    rw [is_constant.eq_def] at h ⊢
    simp only [] at h ⊢
    by_cases h1 : i = ID_side_effect ∧ st = ID_nondet
    · rw [if_pos h1] at h; cases h
    rw [if_neg h1] at h ⊢
    by_cases h2 : i = ID_side_effect ∧ st = ID_allocate
    · rw [if_pos h2] at h; cases h
    rw [if_neg h2] at h ⊢
    by_cases h3 : i = ID_symbol ∧ s.replaces_symbol n = false
    · rw [if_pos h3] at h; cases h
    rw [if_neg h3] at h
    have h3' : ¬ (i = ID_symbol ∧ s'.replaces_symbol n = false) := by
      rintro ⟨hi, hn⟩
      apply h3
      refine ⟨hi, ?_⟩
      cases hb : s.replaces_symbol n with
      | false => rfl
      | true => rw [hsub n hb] at hn; cases hn
    rw [if_neg h3']
    by_cases h4 : i = ID_index
    · rw [if_pos h4] at h; cases h
    rw [if_neg h4] at h ⊢
    by_cases h5 : i = ID_address_of
    · rw [if_pos h5] at h ⊢
      match ops, ih, h with
      | [], _, h => cases h
      | object :: _, ih, h => exact (ih object (List.mem_cons_self _ _)).2 h
    · rw [if_neg h5] at h ⊢
      exact is_constant_operands_mono s s' ops (fun e he => (ih e he).1) h
  · intro h
    rw [is_constant_address_of.eq_def] at h ⊢
    simp only [] at h ⊢
    by_cases h1 : i = ID_index
    · rw [if_pos h1] at h ⊢
      match ops, ih, h with
      | [], _, h => cases h
      | [_], _, h => cases h
      | array :: index :: rest, ih, h =>
        simp only [] at h ⊢
        cases ha : s.is_constant_address_of array with
        | none => rw [ha] at h; cases h
        | some b =>
          cases b with
          | false => rw [ha] at h; cases h
          | true =>
            rw [ha] at h
            rw [(ih array (List.mem_cons_self _ _)).2 ha]
            exact (ih index (List.mem_cons_of_mem _ (List.mem_cons_self _ _))).1 h
    rw [if_neg h1] at h ⊢
    by_cases h2 : i = ID_member
    · rw [if_pos h2] at h ⊢
      match ops, ih, h with
      | [], _, h => cases h
      | struct_op :: _, ih, h => exact (ih struct_op (List.mem_cons_self _ _)).2 h
    rw [if_neg h2] at h ⊢
    by_cases h3 : i = ID_dereference
    · rw [if_pos h3] at h ⊢
      match ops, ih, h with
      | [], _, h => cases h
      | pointer :: _, ih, h => exact (ih pointer (List.mem_cons_self _ _)).1 h
    rw [if_neg h3] at h ⊢
    exact h

/-- C22: `is_constant` is monotone in what the state binds: when every variable bound in `s`
is bound in `s'`, an expression (address-of, index, member and dereference nodes included)
that is constant under `s` is constant under `s'`; the same holds for
`is_constant_address_of`. -/
theorem is_constant_monotone (s s' : valuest)
    (hsub : ∀ v, (s.replace_const.find v).isSome = true →
      (s'.replace_const.find v).isSome = true)
    (e : exprt) :
    (s.is_constant e = some true → s'.is_constant e = some true) ∧
    (s.is_constant_address_of e = some true → s'.is_constant_address_of e = some true) := by
  refine exprt.induction_on
    (fun e => (s.is_constant e = some true → s'.is_constant e = some true) ∧
      (s.is_constant_address_of e = some true →
        s'.is_constant_address_of e = some true)) ?_ e
  intro i t n st v ops ih
  exact is_constant_mono_node s s' hsub i t n st v ops ih

/-- Witness for C22: `&*x` and `x + 1` are constant under `x = 5`, hence under
`x = 5, y = 1`. -/
theorem is_constant_monotone_witness :
    demo.x5y1.is_constant (demo.plus (demo.sym "x") (demo.lit "1")) = some true ∧
    demo.x5y1.is_constant_address_of (demo.deref (demo.sym "x")) = some true :=
  ⟨(is_constant_monotone demo.x5 demo.x5y1 (by
      intro v hv
      have hx : v = "x" := by
        by_contra hne
        have : demo.x5.replace_const.find v = none := by
          rw [expr_mapt.find_eq_none_iff]
          intro e he
          simp only [demo.x5, List.mem_singleton, Prod.mk.injEq] at he
          exact hne he.1
        rw [this] at hv
        cases hv
      subst hx
      decide) (demo.plus (demo.sym "x") (demo.lit "1"))).1 (by decide),
   (is_constant_monotone demo.x5 demo.x5y1 (by
      intro v hv
      have hx : v = "x" := by
        by_contra hne
        have : demo.x5.replace_const.find v = none := by
          rw [expr_mapt.find_eq_none_iff]
          intro e he
          simp only [demo.x5, List.mem_singleton, Prod.mk.injEq] at he
          exact hne he.1
        rw [this] at hv
        cases hv
      subst hx
      decide) (demo.deref (demo.sym "x"))).2 (by decide)⟩

end valuest

/-! ## Lemmas on the specialization map and on `get_recursively_instantiated_type` -/

namespace generic_parameter_specialization_mapt

theorem mem_of_lookup {β : Type} (l : List (irep_idt × β)) (name : irep_idt) (v : β)
    (h : l.lookup name = some v) : (name, v) ∈ l := by
  induction l with
  | nil => simp at h
  | cons p t ih =>
    obtain ⟨k, w⟩ := p
    by_cases hk : name = k
    · subst hk
      simp only [List.lookup, beq_self_eq_true, Option.some.injEq] at h
      subst h
      exact List.mem_cons_self _ _
    · have hb : (name == k) = false := by simpa using hk
      simp only [List.lookup, hb] at h
      exact List.mem_cons_of_mem _ (ih h)

theorem mem_of_find (m : generic_parameter_specialization_mapt) (name : irep_idt)
    (stack : List pointer_typet) (h : m.find name = some stack) :
    (name, stack) ∈ m.entries :=
  mem_of_lookup m.entries name stack h

theorem mem_keys_of_find (m : generic_parameter_specialization_mapt) (name : irep_idt)
    (stack : List pointer_typet) (h : m.find name = some stack) : name ∈ m.keys := by
  unfold keys
  rw [List.mem_toFinset, List.mem_map]
  exact ⟨(name, stack), mem_of_find m name stack h, rfl⟩

theorem card_sdiff_insert_lt (keys visited : Finset irep_idt) (name : irep_idt)
    (hk : name ∈ keys) (hv : name ∉ visited) :
    (keys \ insert name visited).card < (keys \ visited).card := by
  apply Finset.card_lt_card
  rw [Finset.ssubset_iff_of_subset (Finset.sdiff_subset_sdiff (Finset.Subset.refl _)
    (Finset.subset_insert _ _))]
  exact ⟨name, Finset.mem_sdiff.2 ⟨hk, hv⟩, fun h => by simp at h⟩

end generic_parameter_specialization_mapt

namespace select_pointer_typet

/-- The recursive helper restores `visited` and never returns a generic parameter. -/
theorem get_at_frame (m : generic_parameter_specialization_mapt) (fuel : Nat)
    (name : irep_idt) (visited : generic_parameter_recursion_trackingt) (depth : Nat)
    (r : Option pointer_typet) (visited' : generic_parameter_recursion_trackingt)
    (h : get_recursively_instantiated_type_at m fuel name visited depth =
      some (.ok (r, visited'))) :
    visited' = visited ∧ ∀ t, r = some t → t.is_java_generic_parameter = false := by
  induction fuel generalizing name visited r visited' with
  | zero => simp [get_recursively_instantiated_type_at] at h
  | succ fuel ih =>
    rw [get_recursively_instantiated_type_at] at h
    cases hf : m.find name with
    | none => simp [hf] at h
    | some replacements =>
      simp only [hf] at h
      by_cases hd : depth < replacements.length
      · rw [dif_pos hd] at h
        by_cases hv : name ∈ visited
        · rw [if_pos hv] at h
          simp only [Option.some.injEq, Except.ok.injEq, Prod.mk.injEq] at h
          obtain ⟨rfl, rfl⟩ := h
          exact ⟨rfl, fun t ht => by cases ht⟩
        · rw [if_neg hv] at h
          cases hg : (replacements.get ⟨replacements.length - 1 - depth, by omega⟩).generic_parameter with
          | none =>
            simp only [hg, Option.some.injEq, Except.ok.injEq, Prod.mk.injEq] at h
            obtain ⟨rfl, rfl⟩ := h
            refine ⟨rfl, fun t ht => ?_⟩
            cases ht
            unfold pointer_typet.is_java_generic_parameter
            rw [hg]
            rfl
          | some n =>
            simp only [hg] at h
            cases hrec : get_recursively_instantiated_type_at m fuel n (insert name visited)
                depth with
            | none => simp [hrec] at h
            | some res =>
              cases res with
              | error e => simp [hrec] at h
              | ok pr =>
                obtain ⟨iv, v2⟩ := pr
                simp only [hrec, Option.some.injEq, Except.ok.injEq, Prod.mk.injEq] at h
                obtain ⟨rfl, rfl⟩ := h
                obtain ⟨h1, h2⟩ := ih n (insert name visited) iv v2 hrec
                subst h1
                exact ⟨Finset.erase_insert hv, h2⟩
      · rw [dif_neg hd] at h
        simp at h

end select_pointer_typet

namespace select_pointer_typet

/-- With more fuel than there are unvisited keys the recursive helper ends. -/
theorem get_at_ends (m : generic_parameter_specialization_mapt) (fuel : Nat)
    (name : irep_idt) (visited : generic_parameter_recursion_trackingt) (depth : Nat)
    (hfuel : (m.keys \ visited).card < fuel) :
    ∃ res, get_recursively_instantiated_type_at m fuel name visited depth = some res := by
  induction fuel generalizing name visited with
  | zero => omega
  | succ fuel ih =>
    rw [get_recursively_instantiated_type_at]
    cases hf : m.find name with
    | none => exact ⟨_, rfl⟩
    | some replacements =>
      simp only []
      by_cases hd : depth < replacements.length
      · rw [dif_pos hd]
        by_cases hv : name ∈ visited
        · rw [if_pos hv]
          exact ⟨_, rfl⟩
        · rw [if_neg hv]
          cases hg : (replacements.get
              ⟨replacements.length - 1 - depth, by omega⟩).generic_parameter with
          | none => exact ⟨_, rfl⟩
          | some n =>
            simp only [hg]
            have hlt := generic_parameter_specialization_mapt.card_sdiff_insert_lt m.keys
              visited name
              (generic_parameter_specialization_mapt.mem_keys_of_find m name replacements hf) hv
            obtain ⟨res, hres⟩ := ih n (insert name visited) (by omega)
            rw [hres]
            cases res with
            | error e => exact ⟨_, rfl⟩
            | ok pr => exact ⟨_, rfl⟩
      · rw [dif_neg hd]
        exact ⟨_, rfl⟩

/-- When the generic parameters on the stacks are keys and every stack is deeper than
`depth`, the recursive helper raises no error on a key. -/
theorem get_at_no_error (m : generic_parameter_specialization_mapt) (fuel : Nat)
    (name : irep_idt) (visited : generic_parameter_recursion_trackingt) (depth : Nat)
    (hkeys : ∀ k stack t n, m.find k = some stack → t ∈ stack →
      t.generic_parameter = some n → (m.find n).isSome = true)
    (hsize : ∀ k stack, m.find k = some stack → depth < stack.length)
    (hname : (m.find name).isSome = true) :
    ∀ e, get_recursively_instantiated_type_at m fuel name visited depth ≠ some (.error e) := by
  induction fuel generalizing name visited with
  | zero =>
    rw [get_recursively_instantiated_type_at]
    exact fun e h => by cases h
  | succ fuel ih =>
    rw [get_recursively_instantiated_type_at]
    cases hf : m.find name with
    | none => rw [hf] at hname; cases hname
    | some replacements =>
      simp only []
      have hd := hsize name replacements hf
      rw [dif_pos hd]
      by_cases hv : name ∈ visited
      · rw [if_pos hv]
        exact fun e h => by cases h
      · rw [if_neg hv]
        cases hg : (replacements.get
            ⟨replacements.length - 1 - depth, by omega⟩).generic_parameter with
        | none => exact fun e h => by cases h
        | some n =>
          simp only [hg]
          have hn := hkeys name replacements _ n hf (List.get_mem _ _ _) hg
          cases hrec : get_recursively_instantiated_type_at m fuel n (insert name visited)
              depth with
          | none => exact fun e h => by cases h
          | some res =>
            cases res with
            | error e' => exact absurd hrec (ih n (insert name visited) hn e')
            | ok pr => exact fun e h => by cases h

end select_pointer_typet

namespace select_pointer_typet

theorem getLast?_eq_get (l : List pointer_typet) (h : 0 < l.length) :
    l.getLast? = some (l.get ⟨l.length - 1 - 0, by omega⟩) := by
  rw [List.getLast?_eq_getElem?]
  simp only [Nat.sub_zero, List.get_eq_getElem]
  exact List.getElem?_eq_getElem _

/-- When the recursive helper finds nothing at depth 0, the names it went through are a set
that is closed under "top of the stack" and in which every top is a generic parameter. -/
theorem get_at_zero_closed (m : generic_parameter_specialization_mapt) (fuel : Nat)
    (p : irep_idt) (V V' : generic_parameter_recursion_trackingt)
    (h : get_recursively_instantiated_type_at m fuel p V 0 = some (.ok (none, V')))
    (hinv : ∀ v ∈ V, ∃ n, m.top_is_parameter v n ∧ n ∈ insert p V) :
    ∃ C : Finset irep_idt, insert p V ⊆ C ∧
      ∀ c ∈ C, ∃ n, m.top_is_parameter c n ∧ n ∈ C := by
  induction fuel generalizing p V V' with
  | zero => simp [get_recursively_instantiated_type_at] at h
  | succ fuel ih =>
    rw [get_recursively_instantiated_type_at] at h
    cases hf : m.find p with
    | none => simp [hf] at h
    | some replacements =>
      simp only [hf] at h
      by_cases hd : 0 < replacements.length
      · rw [dif_pos hd] at h
        by_cases hv : p ∈ V
        · refine ⟨V, by rw [Finset.insert_eq_of_mem hv], fun c hc => ?_⟩
          obtain ⟨n, hn1, hn2⟩ := hinv c hc
          rw [Finset.insert_eq_of_mem hv] at hn2
          exact ⟨n, hn1, hn2⟩
        · rw [if_neg hv] at h
          cases hg : (replacements.get
              ⟨replacements.length - 1 - 0, by omega⟩).generic_parameter with
          | none =>
            simp only [hg] at h
            simp at h
          | some n =>
            simp only [hg] at h
            cases hrec : get_recursively_instantiated_type_at m fuel n (insert p V) 0 with
            | none => simp [hrec] at h
            | some res =>
              cases res with
              | error e => simp [hrec] at h
              | ok pr =>
                obtain ⟨iv, v2⟩ := pr
                simp only [hrec, Option.some.injEq, Except.ok.injEq, Prod.mk.injEq] at h
                obtain ⟨rfl, _⟩ := h
                have htop : m.top_is_parameter p n :=
                  ⟨replacements, _, hf, getLast?_eq_get replacements hd, hg⟩
                obtain ⟨C, hC1, hC2⟩ := ih n (insert p V) v2 hrec (by
                  intro v hv'
                  rcases Finset.mem_insert.1 hv' with rfl | hvV
                  · exact ⟨n, htop, Finset.mem_insert_self _ _⟩
                  · obtain ⟨n', hn1, hn2⟩ := hinv v hvV
                    exact ⟨n', hn1, Finset.mem_insert_of_mem hn2⟩)
                exact ⟨C, (Finset.subset_insert _ _).trans hC1, hC2⟩
      · rw [dif_neg hd] at h
        simp at h

end select_pointer_typet

namespace select_pointer_typet

/-- The loop of `get_recursively_instantiated_type` ends with a result that is no generic
parameter, when the generic parameters on the stacks are keys and every stack is deep enough
for the iterations still to come. -/
theorem get_loop_ok (m : generic_parameter_specialization_mapt) (fuel : Nat)
    (hfuel : m.keys.card < fuel)
    (hkeys : ∀ k stack t n, m.find k = some stack → t ∈ stack →
      t.generic_parameter = some n → (m.find n).isSome = true)
    (remaining depth : Nat) (current : irep_idt)
    (hsize : ∀ k stack, m.find k = some stack → depth + remaining ≤ stack.length)
    (hcur : (m.find current).isSome = true)
    (hC : depth = 0 ∨ ∃ C : Finset irep_idt, current ∈ C ∧
      ∀ c ∈ C, ∃ n, m.top_is_parameter c n ∧ n ∈ C) :
    ∃ r, get_recursively_instantiated_type_loop m fuel remaining depth current ∅ =
        some (.ok r) ∧
      ∀ t, r = some t → t.is_java_generic_parameter = false := by
  induction remaining generalizing depth current with
  | zero =>
    exact ⟨none, by rw [get_recursively_instantiated_type_loop], fun t ht => by cases ht⟩
  | succ remaining ih =>
    rw [get_recursively_instantiated_type_loop]
    obtain ⟨res, hres⟩ := get_at_ends m fuel current ∅ depth (by
      rw [Finset.sdiff_empty]; exact hfuel)
    cases res with
    | error e =>
      exact absurd hres (get_at_no_error m fuel current ∅ depth hkeys
        (fun k stack hk => by have := hsize k stack hk; omega) hcur e)
    | ok pr =>
      obtain ⟨r, v'⟩ := pr
      obtain ⟨hv', hr⟩ := get_at_frame m fuel current ∅ depth r v' hres
      subst hv'
      rw [hres]
      cases r with
      | some retval =>
        simp only []
        rw [hr retval rfl]
        exact ⟨some retval, by simp, hr⟩
      | none =>
        simp only [ne_eq, not_true_eq_false, if_false]
        have hclosed : ∃ C : Finset irep_idt, current ∈ C ∧
            ∀ c ∈ C, ∃ n, m.top_is_parameter c n ∧ n ∈ C := by
          rcases hC with h0 | hC
          · subst h0
            obtain ⟨C, hC1, hC2⟩ := get_at_zero_closed m fuel current ∅ ∅ hres
              (fun v hv => absurd hv (Finset.not_mem_empty v))
            exact ⟨C, hC1 (Finset.mem_insert_self _ _), hC2⟩
          · exact hC
        obtain ⟨C, hcC, hCclosed⟩ := hclosed
        obtain ⟨n, ⟨stack, entry, hfind, hlast, hgen⟩, hnC⟩ := hCclosed current hcC
        simp only [hfind, hlast, hgen]
        obtain ⟨n', ⟨stack', _, hfind', _, _⟩, _⟩ := hCclosed n hnC
        exact ih (depth + 1) n
          (fun k stack hk => by have := hsize k stack hk; omega)
          (by rw [hfind']; rfl)
          (Or.inr ⟨C, hnC, hCclosed⟩)

end select_pointer_typet

/-! ## Theorems on `get_recursively_instantiated_type` -/

namespace select_pointer_typet

/-- C24, the code at the failing inputs: the loop bound `max_depth` is the stack size of
`parameter_name`, yet each depth is handed to the parameter that the walk has reached. In the
map `T -> [U, U]`, `U -> [T]` every key has a non-empty stack and every generic parameter on
a stack is a key, and the call for `T` fails the invariant "cannot access elements outside
stack": the second iteration asks `U`, whose stack has one element, at depth 1. More fuel
does not change the outcome. The same failure is reached through `convert_pointer_type` on
the generic parameter `T` with the map `T -> [String, U]`, `U -> [T]`. -/
theorem get_recursively_instantiated_type_outside_stack :
    demo.map_uneven_cycle.stacks_non_empty ∧ demo.map_uneven_cycle.parameters_are_keys ∧
    (demo.map_uneven_cycle.find "T").isSome = true ∧
    get_recursively_instantiated_type demo.map_uneven_cycle 3 "T" =
      some (.error "cannot access elements outside stack") ∧
    get_recursively_instantiated_type demo.map_uneven_cycle 100 "T" =
      some (.error "cannot access elements outside stack") ∧
    demo.map_String_below_cycle.stacks_non_empty ∧
    demo.map_String_below_cycle.parameters_are_keys ∧
    get_recursively_instantiated_type demo.map_String_below_cycle 100 "T" =
      some (.error "cannot access elements outside stack") ∧
    convert_pointer_type demo.jt 6 demo.jT demo.map_String_below_cycle =
      some (.error "cannot access elements outside stack") ∧
    convert_pointer_type demo.jt 100 demo.jT demo.map_String_below_cycle =
      some (.error "cannot access elements outside stack") := by
  decide

/-- The call is safe when no stack is shorter than the stack of `parameter_name`: for a map
in which every key has a non-empty stack, every generic parameter on a stack is a key and no
stack is shorter than the stack of the key `parameter_name`, the call
`get_recursively_instantiated_type(parameter_name, map)` ends (with more fuel than there are
keys) without failing any invariant, and a returned type, when present, is no generic
parameter. -/
theorem get_recursively_instantiated_type_safe (m : generic_parameter_specialization_mapt)
    (parameter_name : irep_idt) (stack : List pointer_typet)
    (hne : m.stacks_non_empty) (hkeys : m.parameters_are_keys)
    (hfind : m.find parameter_name = some stack)
    (hsize : m.stacks_at_least stack.length)
    (fuel : Nat) (hfuel : m.keys.card < fuel) :
    ∃ r, get_recursively_instantiated_type m fuel parameter_name = some (.ok r) ∧
      ∀ t, r = some t → t.is_java_generic_parameter = false := by
  unfold get_recursively_instantiated_type
  rw [hfind]
  refine get_loop_ok m fuel hfuel ?_ stack.length 0 parameter_name ?_ (by rw [hfind]; rfl)
    (Or.inl rfl)
  · intro k st t n hk ht hg
    have := hkeys (k, st) (generic_parameter_specialization_mapt.mem_of_find m k st hk) t ht
    rw [hg] at this
    exact this
  · intro k st hk
    have := hsize (k, st) (generic_parameter_specialization_mapt.mem_of_find m k st hk)
    simpa using this

/-- In the map `T -> U`, `U -> String`, whose stacks have the same depth, the call for `T`
gives a result that is no generic parameter. -/
theorem get_recursively_instantiated_type_safe_example :
    ∃ r, get_recursively_instantiated_type demo.map_TU 3 "T" = some (.ok r) ∧
      ∀ t, r = some t → t.is_java_generic_parameter = false :=
  get_recursively_instantiated_type_safe demo.map_TU "T" [demo.jU] (by decide) (by decide)
    (by decide) (by decide) 3 (by decide)

end select_pointer_typet

/-! ## Lemmas on `specialize_generics` -/

mutual
/-- Induction over pointer types: a property that holds for a type whenever it holds for its
element type holds for every pointer type. -/
theorem pointer_typet.type_induction (P : pointer_typet → Prop)
    (h : ∀ g s t e, (∀ el, e = some el → P el) → P (.mk g s t e)) : ∀ p, P p
  | .mk g s t e => h g s t e (pointer_typet.type_induction_option P h e)
/-- Induction over pointer types, for the optional element type. -/
theorem pointer_typet.type_induction_option (P : pointer_typet → Prop)
    (h : ∀ g s t e, (∀ el, e = some el → P el) → P (.mk g s t e)) :
    ∀ e : Option pointer_typet, ∀ el, e = some el → P el
  | none, _, hm => Option.noConfusion hm
  | some x, _, hm => Option.some.inj hm ▸ pointer_typet.type_induction P h x
end

namespace select_pointer_typet

/-- The set of visited names after `specialize_generics` is the set before the call. -/
theorem specialize_generics_frame (jt : java_typest) (m : generic_parameter_specialization_mapt)
    (fuel : Nat) (p : pointer_typet) (visited : generic_parameter_recursion_trackingt)
    (r : pointer_typet) (visited' : generic_parameter_recursion_trackingt)
    (h : specialize_generics jt m fuel p visited = some (.ok (r, visited'))) :
    visited' = visited := by
  induction fuel generalizing p visited r visited' with
  | zero => simp [specialize_generics] at h
  | succ fuel ih =>
    rw [specialize_generics] at h
    cases hg : p.generic_parameter with
    | some name =>
      simp only [hg] at h
      by_cases hv : name ∈ visited
      · rw [if_pos hv] at h
        cases hget : get_recursively_instantiated_type m fuel name with
        | none => simp [hget] at h
        | some res =>
          cases res with
          | error e => simp [hget] at h
          | ok result =>
            simp only [hget, Option.some.injEq, Except.ok.injEq, Prod.mk.injEq] at h
            exact h.2.symm
      · rw [if_neg hv] at h
        cases hf : m.find name with
        | none =>
          simp only [hf, Option.some.injEq, Except.ok.injEq, Prod.mk.injEq] at h
          exact h.2.symm
        | some stack =>
          simp only [hf] at h
          cases hl : stack.getLast? with
          | none => simp [hl] at h
          | some type =>
            simp only [hl] at h
            by_cases ht : type.is_java_generic_parameter = false
            · rw [if_pos ht] at h
              simp only [Option.some.injEq, Except.ok.injEq, Prod.mk.injEq] at h
              exact h.2.symm
            · rw [if_neg ht] at h
              cases hrec : specialize_generics jt m fuel type (insert name visited) with
              | none => simp [hrec] at h
              | some res =>
                cases res with
                | error e => simp [hrec] at h
                | ok pr =>
                  obtain ⟨rt, v2⟩ := pr
                  simp only [hrec, Option.some.injEq, Except.ok.injEq, Prod.mk.injEq] at h
                  have hv2 := ih _ _ _ _ hrec
                  subst hv2
                  rw [← h.2]
                  exact Finset.erase_insert hv
    | none =>
      simp only [hg] at h
      by_cases hs : p.subtype_id = ID_struct_tag
      · rw [if_pos hs] at h
        by_cases ha : jt.is_java_array_tag p.subtype_identifier = true
        · rw [if_pos ha] at h
          cases he : p.element_type with
          | none =>
            simp only [he, Option.some.injEq, Except.ok.injEq, Prod.mk.injEq] at h
            exact h.2.symm
          | some el =>
            simp only [he] at h
            cases hrec : specialize_generics jt m fuel el visited with
            | none => simp [hrec] at h
            | some res =>
              cases res with
              | error e => simp [hrec] at h
              | ok pr =>
                obtain ⟨rt, v2⟩ := pr
                simp only [hrec, Option.some.injEq, Except.ok.injEq, Prod.mk.injEq] at h
                rw [← h.2]
                exact ih _ _ _ _ hrec
        · rw [if_neg ha] at h
          simp only [Option.some.injEq, Except.ok.injEq, Prod.mk.injEq] at h
          exact h.2.symm
      · rw [if_neg hs] at h
        simp only [Option.some.injEq, Except.ok.injEq, Prod.mk.injEq] at h
        exact h.2.symm

end select_pointer_typet

namespace select_pointer_typet

/-- The loop of `get_recursively_instantiated_type` ends when there is more fuel than keys. -/
theorem get_loop_ends (m : generic_parameter_specialization_mapt) (fuel : Nat)
    (hfuel : m.keys.card < fuel) (remaining depth : Nat) (current : irep_idt)
    (visited : generic_parameter_recursion_trackingt) :
    ∃ res, get_recursively_instantiated_type_loop m fuel remaining depth current visited =
      some res := by
  induction remaining generalizing depth current visited with
  | zero => exact ⟨_, by rw [get_recursively_instantiated_type_loop]⟩
  | succ remaining ih =>
    rw [get_recursively_instantiated_type_loop]
    have hcard : (m.keys \ visited).card < fuel :=
      lt_of_le_of_lt (Finset.card_le_card Finset.sdiff_subset) hfuel
    obtain ⟨res, hres⟩ := get_at_ends m fuel current visited depth hcard
    rw [hres]
    cases res with
    | error e => exact ⟨_, rfl⟩
    | ok pr =>
      obtain ⟨r, v2⟩ := pr
      cases r with
      | some retval =>
        simp only []
        by_cases hr : retval.is_java_generic_parameter = true
        · rw [if_pos hr]; exact ⟨_, rfl⟩
        · rw [if_neg hr]; exact ⟨_, rfl⟩
      | none =>
        simp only []
        by_cases hv : v2 ≠ ∅
        · rw [if_pos hv]; exact ⟨_, rfl⟩
        · rw [if_neg hv]
          cases hf : m.find current with
          | none => exact ⟨_, rfl⟩
          | some stack =>
            simp only []
            cases hl : stack.getLast? with
            | none => exact ⟨_, rfl⟩
            | some entry =>
              simp only []
              cases hg : entry.generic_parameter with
              | none => exact ⟨_, rfl⟩
              | some name => exact ih (depth + 1) name v2

/-- The call `get_recursively_instantiated_type(parameter_name, map)` ends when there is more
fuel than keys. -/
theorem get_ends (m : generic_parameter_specialization_mapt) (fuel : Nat)
    (hfuel : m.keys.card < fuel) (name : irep_idt) :
    ∃ res, get_recursively_instantiated_type m fuel name = some res := by
  unfold get_recursively_instantiated_type
  cases hf : m.find name with
  | none => exact ⟨_, rfl⟩
  | some stack => exact get_loop_ends m fuel hfuel stack.length 0 name ∅

/-- One step of the termination argument for `specialize_generics`: with at most `u` keys
not yet visited, given termination with fewer. -/
theorem specialize_generics_ends_step (jt : java_typest)
    (m : generic_parameter_specialization_mapt) (u : Nat)
    (IH : ∀ p visited, (m.keys \ visited).card < u →
      ∃ N, ∀ fuel, N ≤ fuel → ∃ res, specialize_generics jt m fuel p visited = some res) :
    ∀ p visited, (m.keys \ visited).card ≤ u →
      ∃ N, ∀ fuel, N ≤ fuel → ∃ res, specialize_generics jt m fuel p visited = some res := by
  refine pointer_typet.type_induction (fun p => ∀ visited, (m.keys \ visited).card ≤ u →
      ∃ N, ∀ fuel, N ≤ fuel → ∃ res, specialize_generics jt m fuel p visited = some res) ?_
  intro g s t e ihe visited hcard
  cases g with
  | some name =>
    by_cases hv : name ∈ visited
    · refine ⟨m.keys.card + 2, fun fuel hfuel => ?_⟩
      obtain ⟨f, rfl⟩ : ∃ f, fuel = f + 1 := ⟨fuel - 1, by omega⟩
      rw [specialize_generics]
      simp only [pointer_typet.generic_parameter, if_pos hv]
      obtain ⟨res, hres⟩ := get_ends m f (by omega) name
      rw [hres]
      cases res with
      | error e => exact ⟨_, rfl⟩
      | ok r => exact ⟨_, rfl⟩
    · cases hf : m.find name with
      | none =>
        refine ⟨1, fun fuel hfuel => ?_⟩
        obtain ⟨f, rfl⟩ : ∃ f, fuel = f + 1 := ⟨fuel - 1, by omega⟩
        rw [specialize_generics]
        simp only [pointer_typet.generic_parameter, if_neg hv, hf]
        exact ⟨_, rfl⟩
      | some stack =>
        cases hl : stack.getLast? with
        | none =>
          refine ⟨1, fun fuel hfuel => ?_⟩
          obtain ⟨f, rfl⟩ : ∃ f, fuel = f + 1 := ⟨fuel - 1, by omega⟩
          rw [specialize_generics]
          simp only [pointer_typet.generic_parameter, if_neg hv, hf, hl]
          exact ⟨_, rfl⟩
        | some type =>
          by_cases ht : type.is_java_generic_parameter = false
          · refine ⟨1, fun fuel hfuel => ?_⟩
            obtain ⟨f, rfl⟩ : ∃ f, fuel = f + 1 := ⟨fuel - 1, by omega⟩
            rw [specialize_generics]
            simp only [pointer_typet.generic_parameter, if_neg hv, hf, hl, if_pos ht]
            exact ⟨_, rfl⟩
          · have hlt := generic_parameter_specialization_mapt.card_sdiff_insert_lt m.keys
              visited name
              (generic_parameter_specialization_mapt.mem_keys_of_find m name stack hf) hv
            obtain ⟨N, hN⟩ := IH type (insert name visited) (lt_of_lt_of_le hlt hcard)
            refine ⟨N + 1, fun fuel hfuel => ?_⟩
            obtain ⟨f, rfl⟩ : ∃ f, fuel = f + 1 := ⟨fuel - 1, by omega⟩
            rw [specialize_generics]
            simp only [pointer_typet.generic_parameter, if_neg hv, hf, hl, if_neg ht]
            obtain ⟨res, hres⟩ := hN f (by omega)
            rw [hres]
            cases res with
            | error e => exact ⟨_, rfl⟩
            | ok pr => exact ⟨_, rfl⟩
  | none =>
    by_cases hs : s = ID_struct_tag
    · by_cases ha : jt.is_java_array_tag t = true
      · cases e with
        | none =>
          refine ⟨1, fun fuel hfuel => ?_⟩
          obtain ⟨f, rfl⟩ : ∃ f, fuel = f + 1 := ⟨fuel - 1, by omega⟩
          rw [specialize_generics]
          simp only [pointer_typet.generic_parameter, pointer_typet.subtype_id,
            pointer_typet.subtype_identifier, pointer_typet.element_type, if_pos hs, if_pos ha]
          exact ⟨_, rfl⟩
        | some el =>
          obtain ⟨N, hN⟩ := ihe el rfl visited hcard
          refine ⟨N + 1, fun fuel hfuel => ?_⟩
          obtain ⟨f, rfl⟩ : ∃ f, fuel = f + 1 := ⟨fuel - 1, by omega⟩
          rw [specialize_generics]
          simp only [pointer_typet.generic_parameter, pointer_typet.subtype_id,
            pointer_typet.subtype_identifier, pointer_typet.element_type, if_pos hs, if_pos ha]
          obtain ⟨res, hres⟩ := hN f (by omega)
          rw [hres]
          cases res with
          | error e => exact ⟨_, rfl⟩
          | ok pr => exact ⟨_, rfl⟩
      · refine ⟨1, fun fuel hfuel => ?_⟩
        obtain ⟨f, rfl⟩ : ∃ f, fuel = f + 1 := ⟨fuel - 1, by omega⟩
        rw [specialize_generics]
        simp only [pointer_typet.generic_parameter, pointer_typet.subtype_id,
          pointer_typet.subtype_identifier, if_pos hs, if_neg ha]
        exact ⟨_, rfl⟩
    · refine ⟨1, fun fuel hfuel => ?_⟩
      obtain ⟨f, rfl⟩ : ∃ f, fuel = f + 1 := ⟨fuel - 1, by omega⟩
      rw [specialize_generics]
      simp only [pointer_typet.generic_parameter, pointer_typet.subtype_id, if_neg hs]
      exact ⟨_, rfl⟩

/-- The call `specialize_generics` ends: from some amount of fuel on it gives a result. -/
theorem specialize_generics_ends (jt : java_typest)
    (m : generic_parameter_specialization_mapt) (p : pointer_typet)
    (visited : generic_parameter_recursion_trackingt) :
    ∃ N, ∀ fuel, N ≤ fuel → ∃ res, specialize_generics jt m fuel p visited = some res := by
  have key : ∀ u, ∀ p visited, (m.keys \ visited).card ≤ u →
      ∃ N, ∀ fuel, N ≤ fuel → ∃ res, specialize_generics jt m fuel p visited = some res := by
    intro u
    induction u with
    | zero =>
      exact specialize_generics_ends_step jt m 0
        (fun _ _ h => absurd h (Nat.not_lt_zero _))
    | succ u ih =>
      exact specialize_generics_ends_step jt m (u + 1)
        (fun p visited h => ih p visited (Nat.lt_succ_iff.1 h))
  exact key _ p visited (le_refl _)

end select_pointer_typet

namespace select_pointer_typet

/-- The recursive helper never fails with the text of the invariant of
`convert_pointer_type`. -/
theorem get_at_error_ne (m : generic_parameter_specialization_mapt) (fuel : Nat)
    (name : irep_idt) (visited : generic_parameter_recursion_trackingt) (depth : Nat)
    (e : String)
    (h : get_recursively_instantiated_type_at m fuel name visited depth = some (.error e)) :
    e ≠ "recursion stack must be empty here" := by
  induction fuel generalizing name visited e with
  | zero => simp [get_recursively_instantiated_type_at] at h
  | succ fuel ih =>
    rw [get_recursively_instantiated_type_at] at h
    cases hf : m.find name with
    | none =>
      simp only [hf, Option.some.injEq, Except.error.injEq] at h
      rw [← h]; decide
    | some replacements =>
      simp only [hf] at h
      by_cases hd : depth < replacements.length
      · rw [dif_pos hd] at h
        by_cases hv : name ∈ visited
        · rw [if_pos hv] at h
          simp at h
        · rw [if_neg hv] at h
          cases hg : (replacements.get
              ⟨replacements.length - 1 - depth, by omega⟩).generic_parameter with
          | none =>
            simp only [hg] at h
            simp at h
          | some n =>
            simp only [hg] at h
            cases hrec : get_recursively_instantiated_type_at m fuel n (insert name visited)
                depth with
            | none => simp [hrec] at h
            | some res =>
              cases res with
              | error e2 =>
                simp only [hrec, Option.some.injEq, Except.error.injEq] at h
                subst h
                exact ih _ _ _ hrec
              | ok pr => simp [hrec] at h
      · rw [dif_neg hd] at h
        simp only [Option.some.injEq, Except.error.injEq] at h
        rw [← h]; decide

/-- The loop of `get_recursively_instantiated_type` never fails with the text of the
invariant of `convert_pointer_type`. -/
theorem get_loop_error_ne (m : generic_parameter_specialization_mapt) (fuel : Nat)
    (remaining depth : Nat) (current : irep_idt)
    (visited : generic_parameter_recursion_trackingt) (e : String)
    (h : get_recursively_instantiated_type_loop m fuel remaining depth current visited =
      some (.error e)) :
    e ≠ "recursion stack must be empty here" := by
  induction remaining generalizing depth current visited e with
  | zero => simp [get_recursively_instantiated_type_loop] at h
  | succ remaining ih =>
    rw [get_recursively_instantiated_type_loop] at h
    cases hat : get_recursively_instantiated_type_at m fuel current visited depth with
    | none => simp [hat] at h
    | some res =>
      cases res with
      | error e2 =>
        simp only [hat, Option.some.injEq, Except.error.injEq] at h
        subst h
        exact get_at_error_ne m fuel current visited depth _ hat
      | ok pr =>
        obtain ⟨r, v2⟩ := pr
        cases r with
        | some retval =>
          simp only [hat] at h
          by_cases hr : retval.is_java_generic_parameter = true
          · rw [if_pos hr] at h
            simp only [Option.some.injEq, Except.error.injEq] at h
            rw [← h]; decide
          · rw [if_neg hr] at h
            simp at h
        | none =>
          simp only [hat] at h
          by_cases hv : v2 ≠ ∅
          · rw [if_pos hv] at h
            simp only [Option.some.injEq, Except.error.injEq] at h
            rw [← h]; decide
          · rw [if_neg hv] at h
            cases hf : m.find current with
            | none =>
              simp only [hf, Option.some.injEq, Except.error.injEq] at h
              rw [← h]; decide
            | some stack =>
              simp only [hf] at h
              cases hl : stack.getLast? with
              | none =>
                simp only [hl, Option.some.injEq, Except.error.injEq] at h
                rw [← h]; decide
              | some entry =>
                simp only [hl] at h
                cases hg : entry.generic_parameter with
                | none =>
                  simp only [hg, Option.some.injEq, Except.error.injEq] at h
                  rw [← h]; decide
                | some name =>
                  simp only [hg] at h
                  exact ih _ _ _ _ h

/-- The call `get_recursively_instantiated_type(parameter_name, map)` never fails with the
text of the invariant of `convert_pointer_type`. -/
theorem get_error_ne (m : generic_parameter_specialization_mapt) (fuel : Nat)
    (name : irep_idt) (e : String)
    (h : get_recursively_instantiated_type m fuel name = some (.error e)) :
    e ≠ "recursion stack must be empty here" := by
  unfold get_recursively_instantiated_type at h
  cases hf : m.find name with
  | none =>
    simp only [hf, Option.some.injEq, Except.error.injEq] at h
    rw [← h]; decide
  | some stack =>
    simp only [hf] at h
    exact get_loop_error_ne m fuel _ _ _ _ e h

/-- The call `specialize_generics` never fails with the text of the invariant of
`convert_pointer_type`. -/
theorem specialize_generics_error_ne (jt : java_typest)
    (m : generic_parameter_specialization_mapt) (fuel : Nat) (p : pointer_typet)
    (visited : generic_parameter_recursion_trackingt) (e : String)
    (h : specialize_generics jt m fuel p visited = some (.error e)) :
    e ≠ "recursion stack must be empty here" := by
  induction fuel generalizing p visited e with
  | zero => simp [specialize_generics] at h
  | succ fuel ih =>
    rw [specialize_generics] at h
    cases hg : p.generic_parameter with
    | some name =>
      simp only [hg] at h
      by_cases hv : name ∈ visited
      · rw [if_pos hv] at h
        cases hget : get_recursively_instantiated_type m fuel name with
        | none => simp [hget] at h
        | some res =>
          cases res with
          | error e2 =>
            simp only [hget, Option.some.injEq, Except.error.injEq] at h
            subst h
            exact get_error_ne m fuel name _ hget
          | ok result => simp [hget] at h
      · rw [if_neg hv] at h
        cases hf : m.find name with
        | none => simp [hf] at h
        | some stack =>
          simp only [hf] at h
          cases hl : stack.getLast? with
          | none =>
            simp only [hl, Option.some.injEq, Except.error.injEq] at h
            rw [← h]; decide
          | some type =>
            simp only [hl] at h
            by_cases ht : type.is_java_generic_parameter = false
            · rw [if_pos ht] at h
              simp at h
            · rw [if_neg ht] at h
              cases hrec : specialize_generics jt m fuel type (insert name visited) with
              | none => simp [hrec] at h
              | some res =>
                cases res with
                | error e2 =>
                  simp only [hrec, Option.some.injEq, Except.error.injEq] at h
                  subst h
                  exact ih _ _ _ hrec
                | ok pr => simp [hrec] at h
    | none =>
      simp only [hg] at h
      by_cases hs : p.subtype_id = ID_struct_tag
      · rw [if_pos hs] at h
        by_cases ha : jt.is_java_array_tag p.subtype_identifier = true
        · rw [if_pos ha] at h
          cases he : p.element_type with
          | none => simp [he] at h
          | some el =>
            simp only [he] at h
            cases hrec : specialize_generics jt m fuel el visited with
            | none => simp [hrec] at h
            | some res =>
              cases res with
              | error e2 =>
                simp only [hrec, Option.some.injEq, Except.error.injEq] at h
                subst h
                exact ih _ _ _ hrec
              | ok pr => simp [hrec] at h
        · rw [if_neg ha] at h
          simp at h
      · rw [if_neg hs] at h
        simp at h

end select_pointer_typet


namespace select_pointer_typet

/-- Along a chain of distinct, unvisited generic parameters that ends in the type `S`,
`specialize_generics` returns `S` and leaves the visited set as it was. -/
theorem specialize_generics_chain (jt : java_typest)
    (m : generic_parameter_specialization_mapt) (S : pointer_typet)
    (hS : S.is_java_generic_parameter = false) :
    ∀ (chain : List irep_idt) (fuel : Nat) (p : pointer_typet)
      (visited : generic_parameter_recursion_trackingt),
      m.resolves_chain S chain = true → chain.Nodup → (∀ t ∈ chain, t ∉ visited) →
      p.generic_parameter = chain.head? → chain.length ≤ fuel →
      specialize_generics jt m fuel p visited = some (.ok (S, visited)) := by
  intro chain
  induction chain with
  | nil =>
    intro fuel p visited hres
    simp [generic_parameter_specialization_mapt.resolves_chain] at hres
  | cons t rest ih =>
    intro fuel p visited hres hnd hvis hp hfuel
    obtain ⟨f, rfl⟩ : ∃ f, fuel = f + 1 := ⟨fuel - 1, by simp at hfuel; omega⟩
    have hv : t ∉ visited := hvis t (List.mem_cons_self _ _)
    simp only [List.head?] at hp
    rw [specialize_generics]
    simp only [hp, if_neg hv]
    cases rest with
    | nil =>
      rw [generic_parameter_specialization_mapt.resolves_chain] at hres
      cases hf : m.find t with
      | none => simp [hf] at hres
      | some stack =>
        simp only [hf, decide_eq_true_eq] at hres
        simp only [hres, if_pos hS]
    | cons t' rest' =>
      rw [generic_parameter_specialization_mapt.resolves_chain] at hres
      cases hf : m.find t with
      | none => simp [hf] at hres
      | some stack =>
        cases hl : stack.getLast? with
        | none => simp [hf, hl] at hres
        | some q =>
          simp only [hf, hl, Bool.and_eq_true, decide_eq_true_eq] at hres
          obtain ⟨hq, hrest⟩ := hres
          have hqg : ¬ q.is_java_generic_parameter = false := by
            unfold pointer_typet.is_java_generic_parameter
            rw [hq]
            simp
          simp only [hl, if_neg hqg]
          have hvis' : ∀ x ∈ t' :: rest', x ∉ insert t visited := by
            intro x hx hmem
            rcases Finset.mem_insert.1 hmem with hxt | hxv
            · subst hxt
              exact (List.nodup_cons.1 hnd).1 hx
            · exact hvis x (List.mem_cons_of_mem _ hx) hxv
          rw [ih f q (insert t visited) hrest (List.nodup_cons.1 hnd).2 hvis' hq
            (by simp at hfuel ⊢; omega)]
          simp only []
          rw [Finset.erase_insert hv]

/-- C21: `specialize_generics` resolves chains of generic parameters. For every map and every
chain of pairwise distinct generic parameters `T1, ..., Tn` in which the top of the stack of
each `Ti` is the generic parameter `T(i+1)` and the top of the stack of `Tn` is a type `S`
that is no generic parameter, the call on `T1` with an empty visited set returns `S` (given
fuel for the `n` nested calls) and leaves the visited set empty; and a generic parameter that
is no key of the map (and is not in the visited set) is returned unchanged. -/
theorem specialize_generics_resolves_chain (jt : java_typest)
    (m : generic_parameter_specialization_mapt) :
    (∀ (chain : List irep_idt) (S p : pointer_typet) (fuel : Nat),
      m.resolves_chain S chain = true → chain.Nodup →
      S.is_java_generic_parameter = false → p.generic_parameter = chain.head? →
      chain.length ≤ fuel →
      specialize_generics jt m fuel p ∅ = some (.ok (S, ∅))) ∧
    (∀ (p : pointer_typet) (name : irep_idt)
      (visited : generic_parameter_recursion_trackingt) (fuel : Nat),
      p.generic_parameter = some name → m.find name = none → name ∉ visited →
      specialize_generics jt m (fuel + 1) p visited = some (.ok (p, visited))) := by
  constructor
  · intro chain S p fuel hres hnd hS hp hfuel
    exact specialize_generics_chain jt m S hS chain fuel p ∅ hres hnd
      (fun _ _ => Finset.not_mem_empty _) hp hfuel
  · intro p name visited fuel hp hf hv
    rw [specialize_generics]
    simp only [hp, if_neg hv, hf]

/-- Witness for C21: with the map `T -> U`, `U -> String` the parameter `T` resolves to
`String` along the chain `T, U`, and the parameter `V`, which is no key, stays. -/
theorem specialize_generics_resolves_chain_witness :
    specialize_generics demo.jt demo.map_TU 2 demo.jT ∅ = some (.ok (demo.jString, ∅)) ∧
    specialize_generics demo.jt demo.map_TU 1 demo.jV ∅ = some (.ok (demo.jV, ∅)) :=
  ⟨(specialize_generics_resolves_chain demo.jt demo.map_TU).1 ["T", "U"] demo.jString demo.jT 2
      (by decide) (by decide) (by decide) (by decide) (by decide),
    (specialize_generics_resolves_chain demo.jt demo.map_TU).2 demo.jV "V" ∅ 0
      (by decide) (by decide) (by decide)⟩

/-- C23: `specialize_generics` restores its recursion-tracking set. For every pointer type,
every map and every initial set `visited_nodes` the call ends, and when it returns, the set
after the call is the set before it; so `convert_pointer_type` ends as well and never fails
the invariant "recursion stack must be empty here", for a non-empty map as for an empty
one. -/
theorem specialize_generics_restores_visited (jt : java_typest)
    (m : generic_parameter_specialization_mapt) (p : pointer_typet)
    (visited : generic_parameter_recursion_trackingt) :
    (∃ N, ∀ fuel, N ≤ fuel → ∃ res, specialize_generics jt m fuel p visited = some res) ∧
    (∀ fuel r visited', specialize_generics jt m fuel p visited = some (.ok (r, visited')) →
      visited' = visited) ∧
    (∃ N, ∀ fuel, N ≤ fuel → ∃ res, convert_pointer_type jt fuel p m = some res) ∧
    (∀ fuel, convert_pointer_type jt fuel p m ≠
      some (.error "recursion stack must be empty here")) := by
  refine ⟨specialize_generics_ends jt m p visited,
    fun fuel r visited' h => specialize_generics_frame jt m fuel p visited r visited' h, ?_, ?_⟩
  · obtain ⟨N, hN⟩ := specialize_generics_ends jt m p ∅
    refine ⟨N, fun fuel hfuel => ?_⟩
    unfold convert_pointer_type
    by_cases hm : m.empty = false
    · rw [if_pos hm]
      obtain ⟨res, hres⟩ := hN fuel hfuel
      rw [hres]
      cases res with
      | error e => exact ⟨_, rfl⟩
      | ok pr =>
        obtain ⟨r, v2⟩ := pr
        have hv2 := specialize_generics_frame jt m fuel p ∅ r v2 hres
        subst hv2
        exact ⟨_, rfl⟩
    · rw [if_neg hm]
      exact ⟨_, rfl⟩
  · intro fuel h
    unfold convert_pointer_type at h
    by_cases hm : m.empty = false
    · rw [if_pos hm] at h
      cases hres : specialize_generics jt m fuel p ∅ with
      | none => simp [hres] at h
      | some res =>
        cases res with
        | error e =>
          simp only [hres, Option.some.injEq, Except.error.injEq] at h
          exact specialize_generics_error_ne jt m fuel p ∅ e hres h
        | ok pr =>
          obtain ⟨r, v2⟩ := pr
          have hv2 := specialize_generics_frame jt m fuel p ∅ r v2 hres
          subst hv2
          simp [hres] at h
    · rw [if_neg hm] at h
      simp at h

/-- Witness for C23: the array type `T[]` with the map `T -> U`, `U -> String` and the
visited set `{V}` comes back as `String[]` with the visited set `{V}`, and
`convert_pointer_type` passes its invariant on this input. -/
theorem specialize_generics_restores_visited_witness :
    specialize_generics demo.jt demo.map_TU 3 demo.jT_array {"V"} =
      some (.ok (demo.jString_array, {"V"})) ∧
    (∀ r visited', specialize_generics demo.jt demo.map_TU 3 demo.jT_array {"V"} =
      some (.ok (r, visited')) → visited' = {"V"}) ∧
    convert_pointer_type demo.jt 3 demo.jT_array demo.map_TU = some (.ok demo.jString_array) ∧
    convert_pointer_type demo.jt 3 demo.jT_array demo.map_TU ≠
      some (.error "recursion stack must be empty here") :=
  ⟨by decide,
    (specialize_generics_restores_visited demo.jt demo.map_TU demo.jT_array {"V"}).2.1 3,
    by decide,
    (specialize_generics_restores_visited demo.jt demo.map_TU demo.jT_array {"V"}).2.2.2 3⟩

end select_pointer_typet
